import Mathlib

/-! Sudoku CSP solver (`sudoku.c`): shallow embedding and verification.

The C++ class `SudokuSolver` keeps an `int domain[9][9][10]` array and five
result vectors; its methods mutate these members and the board passed by
reference.  Here every method is a pure function that receives the mutated
objects and returns their new values.

* `vector<vector<char>>` is `List (List Char)`; `int domain[9][9][10]` is
  `List (List (List Int))`.  Array reads and writes are `getD` and `set`;
  an index outside the array (undefined behaviour in C++) reads a default
  and writes nothing.  The predicates `is_grid` and `is_domain` state the
  shapes 9x9 and 9x9x10.
* `int` is `Int`, without overflow: on the states reachable from
  `solve_sudoku` every flag is 0 or 1 and every count lies in `0..9`
  (`count_ok`), and a degree counts at most 20 cells.
* Array indices are `Nat` (a negative index is undefined behaviour).
* The recursion of `backtracking_sudoku` is bounded by a fuel argument,
  the number of nested calls allowed; `none` means the fuel ran out.
  `termination_depth` shows that the fuel of `solve_sudoku` never runs out.
-/

namespace Sudoku

/-! ## Data model -/

/-- Board type of the solver, `vector<vector<char>>`. -/
abbrev Board := List (List Char)

/-- Candidate array, `int domain[9][9][10]`: entry `0` of a cell is the cached
domain size, entry `k` says whether digit `k` is still a candidate. -/
abbrev Domain := List (List (List Int))

/-- Read `board[i][j]`. -/
def bget (board : Board) (i j : Nat) : Char :=
  (board.getD i []).getD j ' '

/-- Write `board[i][j] = c`. -/
def bset (board : Board) (i j : Nat) (c : Char) : Board :=
  board.set i ((board.getD i []).set j c)

/-- Read `domain[i][j][k]`. -/
def dget (domain : Domain) (i j k : Nat) : Int :=
  ((domain.getD i []).getD j []).getD k 0

/-- Write `domain[i][j][k] = v`. -/
def dset (domain : Domain) (i j k : Nat) (v : Int) : Domain :=
  domain.set i ((domain.getD i []).set j (((domain.getD i []).getD j []).set k v))

/-- Members of `class SudokuSolver`. -/
structure SudokuSolver where
  domain : Domain
  res_selected_variable : List (Int × Int)
  res_domain_size : List Int
  res_degree_selected_variable : List Int
  res_value_assign : List Int
  res_board : List Board

/-- The object built by `SudokuSolver()`: value-initialised, so the array is
zeroed and the vectors are empty. -/
def SudokuSolver.fresh : SudokuSolver :=
  { domain := List.replicate 9 (List.replicate 9 (List.replicate 10 0))
    res_selected_variable := []
    res_domain_size := []
    res_degree_selected_variable := []
    res_value_assign := []
    res_board := [] }

/-- The index pairs visited by `for i in 0..8, for j in 0..8`, in that order. -/
def cells : List (Nat × Nat) :=
  (List.range 9).flatMap (fun i => (List.range 9).map (fun j => (i, j)))

/-! ## The methods of `SudokuSolver` -/

/-- Body of the `k` loop of `assign_value` (source lines 96-103). -/
def assign_step (i j num ii jj : Nat) (d : Domain) (k : Nat) : Domain :=
  let d := dset d i k 0 (dget d i k 0 - dget d i k num)
  let d := dset d i k num 0
  let d := dset d k j 0 (dget d k j 0 - dget d k j num)
  let d := dset d k j num 0
  let d := dset d (ii + k / 3) (jj + k % 3) 0
    (dget d (ii + k / 3) (jj + k % 3) 0 - dget d (ii + k / 3) (jj + k % 3) num)
  dset d (ii + k / 3) (jj + k % 3) num 0

/-- Method `assign_value(i, j, num, board)`: writes the character `num + '0'`
to the board and strikes `num` from the row, the column and the region. -/
def assign_value (i j num : Nat) (board : Board) (d : Domain) : Board × Domain :=
  (bset board i j (Char.ofNat (num + 48)),
   (List.range 9).foldl (assign_step i j num ((i / 3) * 3) ((j / 3) * 3)) d)

/-- First loop nest of `initial_board` for one cell (source lines 78-80). -/
def init_cell (d : Domain) (ij : Nat × Nat) : Domain :=
  (List.range' 1 9).foldl (fun d k => dset d ij.1 ij.2 k 1) (dset d ij.1 ij.2 0 9)

/-- Second loop nest of `initial_board` for one cell (source lines 84-85);
`board[i][j] - '0'` is the character code minus 48, an index `1..9` for the
characters `'1'..'9'` of an input board. -/
def init_assign (st : Board × Domain) (ij : Nat × Nat) : Board × Domain :=
  if bget st.1 ij.1 ij.2 ≠ '.' then
    assign_value ij.1 ij.2 ((bget st.1 ij.1 ij.2).toNat - 48) st.1 st.2
  else st

/-- Method `initial_board(board)`. -/
def initial_board (board : Board) (d : Domain) : Board × Domain :=
  cells.foldl init_assign (board, cells.foldl init_cell d)

/-- Method `degree_heuristic(board, row, col)`. -/
def degree_heuristic (board : Board) (row col : Nat) : Int :=
  let degree : Int := (List.range 9).foldl (fun degree i =>
    let degree := if bget board row i = '.' ∧ i ≠ col then degree + 1 else degree
    if bget board i col = '.' ∧ i ≠ row then degree + 1 else degree) 0
  (List.range 9).foldl (fun degree k =>
    if (row / 3) * 3 + k / 3 ≠ row ∧ (col / 3) * 3 + k % 3 ≠ col
        ∧ bget board ((row / 3) * 3 + k / 3) ((col / 3) * 3 + k % 3) = '.'
    then degree + 1 else degree) degree

/-- Local variables `row, col, choice, degree` of `minimum_remaining_values`. -/
structure MrvState where
  row : Int
  col : Int
  choice : Int
  degree : Int
deriving DecidableEq, Repr

/-- Body of the double loop of `minimum_remaining_values` for the cell `(i, j)`. -/
def mrv_step (board : Board) (d : Domain) (st : MrvState) (ij : Nat × Nat) : MrvState :=
  if bget board ij.1 ij.2 = '.' then
    if dget d ij.1 ij.2 0 < st.choice then
      { row := ij.1, col := ij.2, choice := dget d ij.1 ij.2 0,
        degree := degree_heuristic board ij.1 ij.2 }
    else if dget d ij.1 ij.2 0 = st.choice then
      if st.degree < degree_heuristic board ij.1 ij.2 then
        { row := ij.1, col := ij.2, choice := dget d ij.1 ij.2 0,
          degree := degree_heuristic board ij.1 ij.2 }
      else st
    else st
  else st

/-- The loops of `minimum_remaining_values`, started from `-1, -1, 10, -1`. -/
def mrv_scan (board : Board) (d : Domain) : MrvState :=
  cells.foldl (mrv_step board d) { row := -1, col := -1, choice := 10, degree := -1 }

/-- Method `minimum_remaining_values(board, degree_selected_variable)`: the
returned pair and the value stored in the reference argument. -/
def minimum_remaining_values (board : Board) (d : Domain) : (Int × Int) × Int :=
  (((mrv_scan board d).row, (mrv_scan board d).col), (mrv_scan board d).degree)

/-- Method `forward_checking(board)`. -/
def forward_checking (board : Board) (d : Domain) : Bool :=
  cells.all (fun ij => !(decide (bget board ij.1 ij.2 = '.') && decide (dget d ij.1 ij.2 0 = 0)))

/-- Method `record_results`: one `push_back` on each result vector. -/
def record_results (s : SudokuSolver) (cell : Int × Int) (board : Board)
    (domain_size degree_selected_variable value_assign : Int) : SudokuSolver :=
  { s with
    res_selected_variable := s.res_selected_variable ++ [cell]
    res_board := s.res_board ++ [board]
    res_domain_size := s.res_domain_size ++ [domain_size]
    res_degree_selected_variable := s.res_degree_selected_variable ++ [degree_selected_variable]
    res_value_assign := s.res_value_assign ++ [value_assign] }

/-- What a call of `backtracking_sudoku` leaves: the returned `bool`, the board
and the solver members. -/
abbrev Outcome := Bool × Board × SudokuSolver

/-- One candidate of the loop of `backtracking_sudoku` (source lines 50-58):
assign, forward-check, record and recurse.  A failed forward check leaves the
loop body like a failed recursive call. -/
def try_value (recurse : Board → SudokuSolver → Option Outcome)
    (cell : Int × Int) (degree : Int) (num : Nat) (board : Board) (s : SudokuSolver) :
    Option Outcome :=
  if forward_checking (assign_value cell.1.toNat cell.2.toNat num board s.domain).1
      (assign_value cell.1.toNat cell.2.toNat num board s.domain).2 then
    recurse (assign_value cell.1.toNat cell.2.toNat num board s.domain).1
      (record_results
        { s with domain := (assign_value cell.1.toNat cell.2.toNat num board s.domain).2 }
        cell (assign_value cell.1.toNat cell.2.toNat num board s.domain).1
        (dget s.domain cell.1.toNat cell.2.toNat 0) degree num)
  else
    some (false, (assign_value cell.1.toNat cell.2.toNat num board s.domain).1,
      { s with domain := (assign_value cell.1.toNat cell.2.toNat num board s.domain).2 })

/-- The loop `for (num = 1; num <= 9; num++)` of `backtracking_sudoku` over the
remaining values; `recurse` is the recursive call and `temp_domain` the copy
saved before the loop.  After a candidate fails the saved copy is written back
to `domain` (source line 64); falling out of the loop returns `false`. -/
def try_values (recurse : Board → SudokuSolver → Option Outcome)
    (cell : Int × Int) (degree : Int) (temp_domain : Domain) :
    List Nat → Board → SudokuSolver → Option Outcome
  | [], board, s => some (false, board, s)
  | num :: rest, board, s =>
    if dget s.domain cell.1.toNat cell.2.toNat num = 1 then
      match try_value recurse cell degree num board s with
      | none => none
      | some r =>
        if r.1 = true then some r
        else try_values recurse cell degree temp_domain rest r.2.1
          { r.2.2 with domain := temp_domain }
    else try_values recurse cell degree temp_domain rest board s

/-- Body of `backtracking_sudoku(board)` (source lines 36-69), with the
recursive call passed as `recurse`. -/
def backtracking_body (recurse : Board → SudokuSolver → Option Outcome)
    (board : Board) (s : SudokuSolver) : Option Outcome :=
  if (minimum_remaining_values board s.domain).1.1 = -1
      ∧ (minimum_remaining_values board s.domain).1.2 = -1 then
    some (true, board, s)
  else if dget s.domain (minimum_remaining_values board s.domain).1.1.toNat
      (minimum_remaining_values board s.domain).1.2.toNat 0 = 0 then
    some (false, board, s)
  else
    try_values recurse (minimum_remaining_values board s.domain).1
      (minimum_remaining_values board s.domain).2 s.domain (List.range' 1 9) board s

/-- Method `backtracking_sudoku(board)`, with `fuel` nested calls allowed. -/
def backtracking_sudoku : Nat → Board → SudokuSolver → Option Outcome
  | 0, _, _ => none
  | fuel + 1, board, s => backtracking_body (backtracking_sudoku fuel) board s

/-- Method `solve_sudoku(board)`.  Every nested call fills a cell that was
empty, so 82 nested calls are never exhausted on a 9x9 board. -/
def solve_sudoku (board : Board) (s : SudokuSolver) : Option Outcome :=
  backtracking_sudoku 82 (initial_board board s.domain).1
    { s with domain := (initial_board board s.domain).2 }

/-! ## Predicates of the specification -/

/-- The board is a 9x9 grid. -/
def is_grid (board : Board) : Prop :=
  board.length = 9 ∧ ∀ i < 9, (board.getD i []).length = 9

instance (board : Board) : Decidable (is_grid board) := by
  unfold is_grid; infer_instance

/-- The array has the shape `[9][9][10]` of its C++ type. -/
def is_domain (d : Domain) : Prop :=
  d.length = 9 ∧ ∀ i < 9, (d.getD i []).length = 9
    ∧ ∀ j < 9, ((d.getD i []).getD j []).length = 10

instance (d : Domain) : Decidable (is_domain d) := by
  unfold is_domain; infer_instance

/-- The characters `'1'` to `'9'`. -/
def digit_chars : List Char := ['1', '2', '3', '4', '5', '6', '7', '8', '9']

/-- An input board: a 9x9 grid over `'.'` and `'1'..'9'`. -/
def is_input (board : Board) : Prop :=
  is_grid board ∧ ∀ i < 9, ∀ j < 9, bget board i j = '.' ∨ bget board i j ∈ digit_chars

instance (board : Board) : Decidable (is_input board) := by
  unfold is_input; infer_instance

/-- Cell `(a, b)` lies in the row, the column or the 3x3 box of cell `(i, j)`. -/
def sees (i j a b : Nat) : Prop :=
  a = i ∨ b = j ∨ (a / 3 = i / 3 ∧ b / 3 = j / 3)

instance (i j a b : Nat) : Decidable (sees i j a b) := by
  unfold sees; infer_instance

/-- No digit is repeated in a row, a column or a box: two different cells that
see each other never hold the same digit. -/
def no_repeat (board : Board) : Prop :=
  ∀ i < 9, ∀ j < 9, ∀ a < 9, ∀ b < 9, (a ≠ i ∨ b ≠ j) → sees i j a b →
    bget board i j ≠ '.' → bget board a b ≠ bget board i j

instance (board : Board) : Decidable (no_repeat board) := by
  unfold no_repeat
  have : ∀ i j a b, Decidable ((a ≠ i ∨ b ≠ j) → sees i j a b →
      bget board i j ≠ '.' → bget board a b ≠ bget board i j) :=
    fun i j a b => by infer_instance
  infer_instance

/-- Characters of row `i`. -/
def row_chars (board : Board) (i : Nat) : List Char :=
  (List.range 9).map (fun j => bget board i j)

/-- Characters of column `j`. -/
def col_chars (board : Board) (j : Nat) : List Char :=
  (List.range 9).map (fun i => bget board i j)

/-- Characters of box `q`, boxes numbered row-major from 0 to 8. -/
def box_chars (board : Board) (q : Nat) : List Char :=
  (List.range 9).map (fun k => bget board ((q / 3) * 3 + k / 3) ((q % 3) * 3 + k % 3))

/-- Every row, every column and every 3x3 box contains each of the digits
`1..9` exactly once. -/
def is_solved (board : Board) : Prop :=
  ∀ u < 9, ∀ c ∈ digit_chars,
    (row_chars board u).count c = 1 ∧ (col_chars board u).count c = 1
      ∧ (box_chars board u).count c = 1

instance (board : Board) : Decidable (is_solved board) := by
  unfold is_solved; infer_instance

/-- The grid `full` is a valid completion of `board`: a solved grid that agrees
with every clue of `board`. -/
def is_completion (full board : Board) : Prop :=
  is_grid full ∧ is_solved full ∧
    ∀ i < 9, ∀ j < 9, bget board i j ≠ '.' → bget full i j = bget board i j

instance (full board : Board) : Decidable (is_completion full board) := by
  unfold is_completion; infer_instance

/-- Number of `'.'` cells of the board. -/
def empty_count (board : Board) : Nat :=
  (cells.filter (fun ij => bget board ij.1 ij.2 = '.')).length

/-! ## Auxiliary definitions used in the proofs -/

/-- One cell update of `assign_value`: `domain[a][b][0] -= domain[a][b][num]`
followed by `domain[a][b][num] = 0`. -/
def strike (d : Domain) (a b num : Nat) : Domain :=
  dset (dset d a b 0 (dget d a b 0 - dget d a b num)) a b num 0

/-- The cells updated by `assign_value(i, j, num, board)`, in program order. -/
def touch_list (i j : Nat) : List (Nat × Nat) :=
  (List.range 9).flatMap
    (fun k => [(i, k), (k, j), ((i / 3) * 3 + k / 3, (j / 3) * 3 + k % 3)])

/-- The cell updates of `strike` along a list of cells. -/
def strike_all (d : Domain) (num : Nat) (l : List (Nat × Nat)) : Domain :=
  l.foldl (fun d p => strike d p.1 p.2 num) d

/-- Number of candidate flags `domain[i][j][1..9]` that are 1. -/
def num_candidates (d : Domain) (i j : Nat) : Int :=
  ((List.range' 1 9).countP (fun k => decide (dget d i j k = 1)) : Nat)

/-- The cached-count invariant: in every cell each flag is 0 or 1 and entry 0 is
the number of flags that are 1. -/
def count_ok (d : Domain) : Prop :=
  ∀ i < 9, ∀ j < 9,
    (∀ k, 1 ≤ k → k ≤ 9 → dget d i j k = 0 ∨ dget d i j k = 1)
      ∧ dget d i j 0 = num_candidates d i j

/-- Row-major position of a cell. -/
def cell_index (p : Nat × Nat) : Nat := 9 * p.1 + p.2

/-- Initial values of the local variables of `minimum_remaining_values`. -/
def mrv_init : MrvState := { row := -1, col := -1, choice := 10, degree := -1 }

/-- The state of `minimum_remaining_values` after the loops have run over the
cells `l`: either no cell of `l` is empty and the state is the initial one, or
the state names an empty cell `p` of `l` such that every empty cell before `p`
is strictly worse and every empty cell after `p` is not better, where a cell is
better when its count is smaller, or equal with a larger degree. -/
def mrv_best (board : Board) (d : Domain) (l : List (Nat × Nat)) (st : MrvState) : Prop :=
  ((∀ q ∈ l, bget board q.1 q.2 ≠ '.') ∧ st = mrv_init)
  ∨ ∃ l1 p l2, l = l1 ++ p :: l2 ∧ bget board p.1 p.2 = '.'
      ∧ st = { row := p.1, col := p.2, choice := dget d p.1 p.2 0,
               degree := degree_heuristic board p.1 p.2 }
      ∧ (∀ q ∈ l1, bget board q.1 q.2 = '.' →
          dget d p.1 p.2 0 < dget d q.1 q.2 0
            ∨ (dget d q.1 q.2 0 = dget d p.1 p.2 0
                ∧ degree_heuristic board q.1 q.2 < degree_heuristic board p.1 p.2))
      ∧ (∀ q ∈ l2, bget board q.1 q.2 = '.' →
          dget d p.1 p.2 0 < dget d q.1 q.2 0
            ∨ (dget d q.1 q.2 0 = dget d p.1 p.2 0
                ∧ degree_heuristic board q.1 q.2 ≤ degree_heuristic board p.1 p.2))

/-- The board whose 81 cells are all `'.'`. -/
def empty_board : Board := List.replicate 9 (List.replicate 9 '.')

/-- The candidate array with every digit a candidate of every cell. -/
def full_domain : Domain := List.replicate 9 (List.replicate 9 [9, 1, 1, 1, 1, 1, 1, 1, 1, 1])

/-- The method `backtracking_sudoku` with an assertion at every recursive call:
`P caller callee` is checked on the board and the members the caller had on
entry and those the callee is entered with; a failed assertion stops the run
with `none`.  The run of `backtracking_sudoku` passes every assertion exactly
when this function returns what `backtracking_sudoku` returns. -/
def backtracking_asserting
    (P : Board × SudokuSolver → Board × SudokuSolver → Prop)
    [∀ x y, Decidable (P x y)] : Nat → Board → SudokuSolver → Option Outcome
  | 0, _, _ => none
  | fuel + 1, board, s =>
    backtracking_body
      (fun board' s' =>
        if P (board, s) (board', s') then backtracking_asserting P fuel board' s' else none)
      board s

/-- Every cell that holds a character other than `'.'` on `b` holds the same
character on `b'`. -/
def keeps (b b' : Board) : Prop :=
  ∀ i j, bget b i j ≠ '.' → bget b' i j = bget b i j

/-- What the proofs record of a call of `backtracking_sudoku` entered with `b`
and `s` and left with `r`: the board is still a grid and keeps the filled cells,
the array keeps its shape and the cached counts, and a `false` result leaves the
array as it was on entry. -/
def good_result (b : Board) (s : SudokuSolver) (r : Outcome) : Prop :=
  is_grid r.2.1 ∧ keeps b r.2.1 ∧ is_domain r.2.2.domain ∧ count_ok r.2.2.domain
    ∧ (r.1 = false → r.2.2.domain = s.domain)

/-- Some pre-filled cell among `l` lies in the row, column or box of `(a, b)`
and holds the digit `n`. -/
def clue_hits (board : Board) (l : List (Nat × Nat)) (a b n : Nat) : Prop :=
  ∃ p ∈ l, bget board p.1 p.2 ≠ '.' ∧ sees p.1 p.2 a b ∧ (bget board p.1 p.2).toNat - 48 = n

instance (board : Board) (l : List (Nat × Nat)) (a b n : Nat) :
    Decidable (clue_hits board l a b n) := by
  unfold clue_hits; infer_instance

instance (d : Domain) : Decidable (count_ok d) := by
  have inner : ∀ i j, Decidable ((∀ k < 10, 1 ≤ k → dget d i j k = 0 ∨ dget d i j k = 1)
      ∧ dget d i j 0 = num_candidates d i j) := fun i j => by infer_instance
  exact decidable_of_iff
    (∀ i < 9, ∀ j < 9,
      (∀ k < 10, 1 ≤ k → dget d i j k = 0 ∨ dget d i j k = 1)
        ∧ dget d i j 0 = num_candidates d i j)
    ⟨fun h i hi j hj =>
        ⟨fun k hk1 hk9 => (h i hi j hj).1 k (by omega) hk1, (h i hi j hj).2⟩,
      fun h i hi j hj =>
        ⟨fun k hk hk1 => (h i hi j hj).1 k hk1 (by omega), (h i hi j hj).2⟩⟩

/-! ## The boards of `main` -/

/-- Local `board_case_1` of `main` (source lines 228-240). -/
def board_case_1 : Board :=
  [['.', '.', '1', '.', '.', '2', '.', '.', '.'],
   ['.', '.', '5', '.', '.', '6', '.', '3', '.'],
   ['4', '6', '.', '.', '.', '5', '.', '.', '.'],
   ['.', '.', '.', '1', '.', '4', '.', '.', '.'],
   ['6', '.', '.', '8', '.', '.', '1', '4', '3'],
   ['.', '.', '.', '.', '9', '.', '5', '.', '8'],
   ['8', '.', '.', '.', '4', '9', '.', '5', '.'],
   ['1', '.', '.', '3', '2', '.', '.', '.', '.'],
   ['.', '.', '9', '.', '.', '.', '3', '.', '.']]

/-- Local `board_case_2` of `main` (source lines 242-254). -/
def board_case_2 : Board :=
  [['.', '.', '5', '.', '1', '.', '.', '.', '.'],
   ['.', '.', '2', '.', '.', '4', '.', '3', '.'],
   ['1', '.', '9', '.', '.', '.', '2', '.', '6'],
   ['2', '.', '.', '.', '3', '.', '.', '.', '.'],
   ['.', '4', '.', '.', '.', '.', '7', '.', '.'],
   ['5', '.', '.', '.', '.', '7', '.', '.', '1'],
   ['.', '.', '.', '6', '.', '3', '.', '.', '.'],
   ['.', '6', '.', '1', '.', '.', '.', '.', '.'],
   ['.', '.', '.', '.', '7', '.', '.', '5', '.']]

/-- Local `board_case_3` of `main` (source lines 256-268). -/
def board_case_3 : Board :=
  [['6', '7', '.', '.', '.', '.', '.', '.', '.'],
   ['.', '2', '5', '.', '.', '.', '.', '.', '.'],
   ['.', '9', '.', '5', '6', '.', '2', '.', '.'],
   ['3', '.', '.', '.', '8', '.', '9', '.', '.'],
   ['.', '.', '.', '.', '.', '.', '8', '.', '1'],
   ['.', '.', '.', '4', '7', '.', '.', '.', '.'],
   ['.', '.', '8', '6', '.', '.', '.', '9', '.'],
   ['.', '.', '.', '.', '.', '.', '.', '1', '.'],
   ['1', '.', '6', '.', '5', '.', '.', '7', '.']]

/-- Digit held by the cell `(a, c)` of a grid, as `board[a][c] - '0'`. -/
def cell_digit (full : Board) (a c : Nat) : Nat := (bget full a c).toNat - 48

/-- Every empty cell of `b` still has the digit it holds in `full` among its
candidates. -/
def allows (full b : Board) (d : Domain) : Prop :=
  ∀ a < 9, ∀ c < 9, bget b a c = '.' → dget d a c (cell_digit full a c) = 1

/-- The grid that `solve_sudoku` leaves on `board_case_1`. -/
def solution_case_1 : Board :=
  [['3', '7', '1', '4', '8', '2', '6', '9', '5'],
   ['9', '2', '5', '7', '1', '6', '8', '3', '4'],
   ['4', '6', '8', '9', '3', '5', '7', '1', '2'],
   ['5', '8', '3', '1', '6', '4', '9', '2', '7'],
   ['6', '9', '2', '8', '5', '7', '1', '4', '3'],
   ['7', '1', '4', '2', '9', '3', '5', '6', '8'],
   ['8', '3', '7', '6', '4', '9', '2', '5', '1'],
   ['1', '5', '6', '3', '2', '8', '4', '7', '9'],
   ['2', '4', '9', '5', '7', '1', '3', '8', '6']]

/-- The board that `solve_sudoku` leaves on `board_case_2`, with its return
value `true`: row 2 holds the digits 5 and 8 twice. -/
def result_case_2 : Board :=
  [['3', '8', '5', '2', '1', '6', '4', '7', '9'],
   ['6', '7', '2', '9', '8', '4', '1', '3', '5'],
   ['1', '8', '9', '3', '5', '5', '2', '8', '6'],
   ['2', '1', '7', '9', '3', '8', '5', '6', '4'],
   ['8', '4', '3', '5', '6', '1', '7', '2', '2'],
   ['5', '3', '6', '4', '2', '7', '3', '9', '1'],
   ['7', '5', '4', '6', '9', '3', '8', '2', '2'],
   ['7', '6', '8', '1', '2', '2', '9', '4', '7'],
   ['9', '2', '4', '4', '7', '9', '3', '5', '2']]

/-- An input board without a repeated digit that has no valid completion:
row 0 lacks the digit 3, and its three empty cells lie in the box of the 3 at
row 1, column 2. -/
def unsat_board : Board :=
  [['.', '.', '.', '4', '5', '6', '7', '8', '9'],
   ['9', '7', '3', '1', '2', '8', '.', '4', '.'],
   ['.', '4', '8', '9', '3', '7', '.', '2', '.'],
   ['3', '6', '9', '8', '7', '2', '.', '.', '4'],
   ['7', '.', '.', '5', '4', '3', '.', '9', '8'],
   ['5', '8', '4', '6', '9', '1', '2', '7', '3'],
   ['8', '3', '7', '2', '6', '4', '9', '.', '.'],
   ['.', '5', '.', '3', '8', '9', '4', '6', '7'],
   ['4', '9', '6', '7', '1', '5', '8', '3', '2']]

/-- The board that `solve_sudoku` leaves on `unsat_board`, with its return
value `true`: row 0 holds the digit 2 twice. -/
def result_unsat : Board :=
  [['1', '2', '2', '4', '5', '6', '7', '8', '9'],
   ['9', '7', '3', '1', '2', '8', '5', '4', '6'],
   ['6', '4', '8', '9', '3', '7', '5', '2', '1'],
   ['3', '6', '9', '8', '7', '2', '1', '5', '4'],
   ['7', '1', '2', '5', '4', '3', '6', '9', '8'],
   ['5', '8', '4', '6', '9', '1', '2', '7', '3'],
   ['8', '3', '7', '2', '6', '4', '9', '1', '5'],
   ['2', '5', '1', '3', '8', '9', '4', '6', '7'],
   ['4', '9', '6', '7', '1', '5', '8', '3', '2']]

/-- The candidate array after `initial_board` on `unsat_board`. -/
def unsat_domain : Domain :=
  [[[2, 1, 1, 0, 0, 0, 0, 0, 0, 0], [2, 1, 1, 0, 0, 0, 0, 0, 0, 0], [2, 1, 1, 0, 0, 0, 0, 0, 0, 0], [0, 0, 0, 0, 0, 0, 0, 0, 0, 0], [0, 0, 0, 0, 0, 0, 0, 0, 0, 0], [0, 0, 0, 0, 0, 0, 0, 0, 0, 0], [2, 1, 0, 1, 0, 0, 0, 0, 0, 0], [1, 1, 0, 0, 0, 0, 0, 0, 0, 0], [1, 1, 0, 0, 0, 0, 0, 0, 0, 0]],
   [[1, 0, 0, 0, 0, 0, 1, 0, 0, 0], [0, 0, 0, 0, 0, 0, 0, 0, 0, 0], [1, 0, 0, 0, 0, 1, 0, 0, 0, 0], [0, 0, 0, 0, 0, 0, 0, 0, 0, 0], [0, 0, 0, 0, 0, 0, 0, 0, 0, 0], [0, 0, 0, 0, 0, 0, 0, 0, 0, 0], [2, 0, 0, 0, 0, 1, 1, 0, 0, 0], [1, 0, 0, 0, 0, 1, 0, 0, 0, 0], [2, 0, 0, 0, 0, 1, 1, 0, 0, 0]],
   [[2, 1, 0, 0, 0, 0, 1, 0, 0, 0], [1, 1, 0, 0, 0, 0, 0, 0, 0, 0], [2, 1, 0, 0, 0, 1, 0, 0, 0, 0], [0, 0, 0, 0, 0, 0, 0, 0, 0, 0], [0, 0, 0, 0, 0, 0, 0, 0, 0, 0], [0, 0, 0, 0, 0, 0, 0, 0, 0, 0], [3, 1, 0, 0, 0, 1, 1, 0, 0, 0], [2, 1, 0, 0, 0, 1, 0, 0, 0, 0], [3, 1, 0, 0, 0, 1, 1, 0, 0, 0]],
   [[1, 1, 0, 0, 0, 0, 0, 0, 0, 0], [1, 1, 0, 0, 0, 0, 0, 0, 0, 0], [1, 1, 0, 0, 0, 0, 0, 0, 0, 0], [0, 0, 0, 0, 0, 0, 0, 0, 0, 0], [0, 0, 0, 0, 0, 0, 0, 0, 0, 0], [0, 0, 0, 0, 0, 0, 0, 0, 0, 0], [2, 1, 0, 0, 0, 1, 0, 0, 0, 0], [2, 1, 0, 0, 0, 1, 0, 0, 0, 0], [2, 1, 0, 0, 0, 1, 0, 0, 0, 0]],
   [[2, 1, 1, 0, 0, 0, 0, 0, 0, 0], [2, 1, 1, 0, 0, 0, 0, 0, 0, 0], [2, 1, 1, 0, 0, 0, 0, 0, 0, 0], [0, 0, 0, 0, 0, 0, 0, 0, 0, 0], [0, 0, 0, 0, 0, 0, 0, 0, 0, 0], [0, 0, 0, 0, 0, 0, 0, 0, 0, 0], [2, 1, 0, 0, 0, 0, 1, 0, 0, 0], [1, 1, 0, 0, 0, 0, 0, 0, 0, 0], [2, 1, 0, 0, 0, 0, 1, 0, 0, 0]],
   [[0, 0, 0, 0, 0, 0, 0, 0, 0, 0], [0, 0, 0, 0, 0, 0, 0, 0, 0, 0], [0, 0, 0, 0, 0, 0, 0, 0, 0, 0], [0, 0, 0, 0, 0, 0, 0, 0, 0, 0], [0, 0, 0, 0, 0, 0, 0, 0, 0, 0], [0, 0, 0, 0, 0, 0, 0, 0, 0, 0], [0, 0, 0, 0, 0, 0, 0, 0, 0, 0], [0, 0, 0, 0, 0, 0, 0, 0, 0, 0], [0, 0, 0, 0, 0, 0, 0, 0, 0, 0]],
   [[1, 1, 0, 0, 0, 0, 0, 0, 0, 0], [1, 1, 0, 0, 0, 0, 0, 0, 0, 0], [1, 1, 0, 0, 0, 0, 0, 0, 0, 0], [0, 0, 0, 0, 0, 0, 0, 0, 0, 0], [0, 0, 0, 0, 0, 0, 0, 0, 0, 0], [0, 0, 0, 0, 0, 0, 0, 0, 0, 0], [2, 1, 0, 0, 0, 1, 0, 0, 0, 0], [2, 1, 0, 0, 0, 1, 0, 0, 0, 0], [2, 1, 0, 0, 0, 1, 0, 0, 0, 0]],
   [[2, 1, 1, 0, 0, 0, 0, 0, 0, 0], [2, 1, 1, 0, 0, 0, 0, 0, 0, 0], [2, 1, 1, 0, 0, 0, 0, 0, 0, 0], [0, 0, 0, 0, 0, 0, 0, 0, 0, 0], [0, 0, 0, 0, 0, 0, 0, 0, 0, 0], [0, 0, 0, 0, 0, 0, 0, 0, 0, 0], [1, 1, 0, 0, 0, 0, 0, 0, 0, 0], [1, 1, 0, 0, 0, 0, 0, 0, 0, 0], [1, 1, 0, 0, 0, 0, 0, 0, 0, 0]],
   [[0, 0, 0, 0, 0, 0, 0, 0, 0, 0], [0, 0, 0, 0, 0, 0, 0, 0, 0, 0], [0, 0, 0, 0, 0, 0, 0, 0, 0, 0], [0, 0, 0, 0, 0, 0, 0, 0, 0, 0], [0, 0, 0, 0, 0, 0, 0, 0, 0, 0], [0, 0, 0, 0, 0, 0, 0, 0, 0, 0], [0, 0, 0, 0, 0, 0, 0, 0, 0, 0], [0, 0, 0, 0, 0, 0, 0, 0, 0, 0], [0, 0, 0, 0, 0, 0, 0, 0, 0, 0]]]

/-- Number of distinct `'.'` cells, other than `(row, col)` itself, that share
its row, its column or its 3x3 box. -/
def true_degree (board : Board) (row col : Nat) : Int :=
  ((cells.filter (fun p => decide ((p.1 ≠ row ∨ p.2 ≠ col) ∧ sees row col p.1 p.2
      ∧ bget board p.1 p.2 = '.'))).length : Nat)

/-- The cells tested by `degree_heuristic(board, row, col)`, in program order:
the row and column cells other than the cell itself, then the box cells that
lie in another row and another column. -/
def degree_cells (row col : Nat) : List (Nat × Nat) :=
  (List.range 9).flatMap
      (fun i => (if i ≠ col then [(row, i)] else []) ++ (if i ≠ row then [(i, col)] else []))
    ++ ((List.range 9).filter
          (fun k => decide ((row / 3) * 3 + k / 3 ≠ row ∧ (col / 3) * 3 + k % 3 ≠ col))).map
        (fun k => ((row / 3) * 3 + k / 3, (col / 3) * 3 + k % 3))

/-- Each result vector of `s'` starts with the same vector of `s`: no record of
`s` was removed or changed. -/
def extends_trace (s s' : SudokuSolver) : Prop :=
  s.res_selected_variable <+: s'.res_selected_variable
  ∧ s.res_domain_size <+: s'.res_domain_size
  ∧ s.res_degree_selected_variable <+: s'.res_degree_selected_variable
  ∧ s.res_value_assign <+: s'.res_value_assign
  ∧ s.res_board <+: s'.res_board

/-- The five result vectors have the same length. -/
def trace_ok (s : SudokuSolver) : Prop :=
  s.res_domain_size.length = s.res_selected_variable.length
  ∧ s.res_degree_selected_variable.length = s.res_selected_variable.length
  ∧ s.res_value_assign.length = s.res_selected_variable.length
  ∧ s.res_board.length = s.res_selected_variable.length

instance (s : SudokuSolver) : Decidable (trace_ok s) := by
  unfold trace_ok; infer_instance

/-- Every cell of `b'` holds what it holds on `b`, or was `'.'` on `b` and
holds a digit on `b'`. -/
def fills (b b' : Board) : Prop :=
  ∀ i j, bget b' i j = bget b i j ∨ (bget b i j = '.' ∧ bget b' i j ∈ digit_chars)

/-- The last value `n` of the list with `domain[i][j][n] == 1`, if any: the
last value the loop of `backtracking_sudoku` tries when it runs over the list
with this array. -/
def last_flagged (d : Domain) (i j : Nat) : List Nat → Option Nat
  | [] => none
  | n :: rest =>
    match last_flagged d i j rest with
    | some m => some m
    | none => if dget d i j n = 1 then some n else none

/-- The recursive calls a call of `backtracking_sudoku` can make.  The caller
was entered with `b` and `s`, selected the empty cell `(i, j)` with a count
other than 0, and stands in its loop with the board `bcur` and the members
`scur` (the filled cells of `b` kept, `domain` equal to the saved copy, the
result vectors extended); `num` is a candidate of the cell, the assignment
passes forward checking, and the callee is entered with the board and the
members left by `assign_value` and `record_results`. -/
def call_site (b : Board) (s : SudokuSolver) (b' : Board) (s' : SudokuSolver) : Prop :=
  ∃ (i j num : Nat) (bcur : Board) (scur : SudokuSolver),
    i < 9 ∧ j < 9 ∧ 1 ≤ num ∧ num ≤ 9 ∧ bget b i j = '.'
    ∧ (minimum_remaining_values b s.domain).1 = ((i : Int), (j : Int))
    ∧ dget s.domain i j 0 ≠ 0
    ∧ is_grid bcur ∧ fills b bcur ∧ scur.domain = s.domain ∧ extends_trace s scur
    ∧ (trace_ok s → trace_ok scur)
    ∧ dget s.domain i j num = 1
    ∧ forward_checking (assign_value i j num bcur s.domain).1
        (assign_value i j num bcur s.domain).2 = true
    ∧ b' = (assign_value i j num bcur s.domain).1
    ∧ s' = record_results { scur with domain := (assign_value i j num bcur s.domain).2 }
        ((i : Int), (j : Int)) (assign_value i j num bcur s.domain).1
        (dget s.domain i j 0) (minimum_remaining_values b s.domain).2 num

/-- What a call of `backtracking_sudoku` entered with `b` and `s` leaves in `r`,
when every call is entered in a state that satisfies `K`: a grid that fills
cells of `b`, result vectors that extend those of `s`, the entry array after a
`false` result, and after a `true` result a state that satisfies `K` and in
which the selector finds no cell. -/
def result_ok (K : Board → SudokuSolver → Prop) (b : Board) (s : SudokuSolver)
    (r : Outcome) : Prop :=
  is_grid r.2.1 ∧ fills b r.2.1 ∧ extends_trace s r.2.2
    ∧ (trace_ok s → trace_ok r.2.2)
    ∧ (r.1 = false → r.2.2.domain = s.domain)
    ∧ (r.1 = true → K r.2.1 r.2.2
        ∧ (minimum_remaining_values r.2.1 r.2.2.domain).1 = (-1, -1))

/-- The board that `solve_sudoku` leaves on `board_case_3`, with its return
value `true`: row 0 holds the digit 5 twice. -/
def result_case_3 : Board :=
  [['6', '7', '3', '2', '9', '1', '5', '4', '5'],
   ['4', '2', '5', '8', '3', '7', '1', '6', '9'],
   ['8', '9', '1', '5', '6', '4', '2', '3', '7'],
   ['3', '6', '7', '1', '8', '5', '9', '2', '4'],
   ['7', '6', '4', '9', '2', '6', '8', '5', '1'],
   ['9', '1', '9', '4', '7', '3', '6', '6', '3'],
   ['5', '4', '8', '6', '1', '2', '3', '9', '3'],
   ['9', '3', '2', '7', '4', '8', '6', '1', '6'],
   ['1', '4', '6', '3', '5', '9', '4', '7', '2']]

/-- The board that `solve_sudoku` leaves on `empty_board`. -/
def result_empty : Board :=
  [['1', '2', '3', '4', '5', '6', '7', '8', '9'],
   ['4', '5', '6', '7', '8', '9', '1', '2', '3'],
   ['7', '8', '9', '1', '2', '3', '4', '5', '6'],
   ['2', '6', '1', '8', '9', '4', '3', '7', '5'],
   ['8', '9', '4', '5', '3', '7', '2', '6', '1'],
   ['3', '7', '5', '2', '6', '1', '9', '4', '8'],
   ['5', '1', '2', '3', '7', '8', '6', '9', '4'],
   ['6', '3', '7', '9', '4', '5', '8', '1', '2'],
   ['9', '4', '8', '6', '1', '2', '5', '3', '7']]

/-- An input board on which `solve_sudoku` returns `false` after two recursive
calls have failed: row 0 lacks 1, 2, 3 and 4, and neither 3 nor 4 fits in any of
its four empty cells. -/
def fail_board : Board :=
  [['.', '.', '.', '.', '5', '6', '7', '8', '9'],
   ['3', '4', '.', '.', '.', '.', '.', '.', '.'],
   ['.', '.', '.', '3', '4', '.', '.', '.', '.'],
   ['.', '.', '.', '.', '.', '.', '.', '.', '.'],
   ['.', '.', '.', '.', '.', '.', '.', '.', '.'],
   ['.', '.', '.', '.', '.', '.', '.', '.', '.'],
   ['.', '.', '.', '.', '.', '.', '.', '.', '.'],
   ['.', '.', '.', '.', '.', '.', '.', '.', '.'],
   ['.', '.', '.', '.', '.', '.', '.', '.', '.']]

/-- The members with which `solve_sudoku` enters `backtracking_sudoku` on
`fail_board`, starting from a fresh solver. -/
def fail_solver : SudokuSolver :=
  { SudokuSolver.fresh with
    domain := (initial_board fail_board SudokuSolver.fresh.domain).2 }

/-- A solved grid with the cells `(0, 0)` and `(0, 1)` emptied. -/
def two_blank_board : Board := bset (bset solution_case_1 0 0 '.') 0 1 '.'

/-- A candidate array with counts at most 9 and a flag that is not 0 or 1:
cell `(0, 0)` has the single candidate 1, cell `(0, 1)` has count 9 and the
flag -2 for the digit 1, every other entry is 0. -/
def bad_domain : Domain :=
  dset (dset (dset (dset SudokuSolver.fresh.domain 0 0 0 1) 0 0 1 1) 0 1 0 9) 0 1 1 (-2)

/-- The facts on the candidate array under which a `true` result means a full
board: the shape of the array, counts at most 9 and flags that are 0 or 1. -/
def flags_ok (d : Domain) : Prop :=
  is_domain d ∧ ∀ i < 9, ∀ j < 9,
    dget d i j 0 ≤ 9 ∧ ∀ n, 1 ≤ n → n ≤ 9 → dget d i j n = 0 ∨ dget d i j n = 1

/-- The assertion on the trace at a recursive call of `backtracking_sudoku`.
The caller was entered with `caller`; the callee is entered with `callee`, right
after `record_results`.  The five vectors of the callee have equal length;
without their last element they start with the vectors the caller was entered
with; the last record names the empty cell the caller selected, the board the
callee is entered with, a value 1..9 that is flagged in the caller's array and
stands in that cell of the snapshot, and as domain size the cached count of the
cell in the caller's array, which is the number of flagged values and lies
between 1 and 9; the assignment passed `forward_checking`. -/
def record_check (caller callee : Board × SudokuSolver) : Prop :=
  trace_ok callee.2
  ∧ caller.2.res_selected_variable <+: callee.2.res_selected_variable.dropLast
  ∧ caller.2.res_domain_size <+: callee.2.res_domain_size.dropLast
  ∧ caller.2.res_degree_selected_variable <+: callee.2.res_degree_selected_variable.dropLast
  ∧ caller.2.res_value_assign <+: callee.2.res_value_assign.dropLast
  ∧ caller.2.res_board <+: callee.2.res_board.dropLast
  ∧ ∃ i ∈ List.range 9, ∃ j ∈ List.range 9, ∃ v ∈ List.range' 1 9,
      bget caller.1 i j = '.'
      ∧ (minimum_remaining_values caller.1 caller.2.domain).1 = ((i : Int), (j : Int))
      ∧ callee.2.res_selected_variable.getLast? = some ((i : Int), (j : Int))
      ∧ callee.2.res_board.getLast? = some callee.1
      ∧ callee.2.res_value_assign.getLast? = some (v : Int)
      ∧ callee.2.res_domain_size.getLast? = some (dget caller.2.domain i j 0)
      ∧ callee.2.res_degree_selected_variable.getLast?
          = some (minimum_remaining_values caller.1 caller.2.domain).2
      ∧ dget caller.2.domain i j v = 1
      ∧ bget callee.1 i j = Char.ofNat (v + 48)
      ∧ dget caller.2.domain i j 0 = num_candidates caller.2.domain i j
      ∧ 1 ≤ dget caller.2.domain i j 0 ∧ dget caller.2.domain i j 0 ≤ 9
      ∧ forward_checking callee.1 callee.2.domain = true

instance (x y : Board × SudokuSolver) : Decidable (record_check x y) := by
  unfold record_check; infer_instance

/-- The facts on the entry state used for the trace: the shape of the array,
the cached counts and the equal lengths of the result vectors. -/
def trace_state (s : SudokuSolver) : Prop :=
  is_domain s.domain ∧ count_ok s.domain ∧ trace_ok s

/-- Number of digits 1..9 that no cell of the board in the row, the column or
the 3x3 box of `(i, j)` holds. -/
def legal_count (board : Board) (i j : Nat) : Int :=
  ((List.range' 1 9).countP (fun n =>
    decide (∀ p ∈ cells, sees i j p.1 p.2 → bget board p.1 p.2 ≠ Char.ofNat (n + 48))) : Nat)

/-- For every `'.'` cell of the board the cached count `domain[i][j][0]` is the
number of digits that no cell of the board in its row, column or box holds. -/
def domain_invariant (board : Board) (d : Domain) : Prop :=
  ∀ p ∈ cells, bget board p.1 p.2 = '.' → dget d p.1 p.2 0 = legal_count board p.1 p.2

instance (board : Board) (d : Domain) : Decidable (domain_invariant board d) := by
  unfold domain_invariant; infer_instance

/-- The board and the array on entry of the fifth call of `backtracking_sudoku`
in the run of `solve_sudoku` on `board_case_2`: the digits 8 at `(2, 1)` and 5
at `(2, 4)` were written by calls that returned `false`. -/
def stale_board : Board :=
  bset (bset (bset (bset board_case_2 1 1 '7') 2 1 '8') 2 4 '5') 0 1 '8'

/-- The first `k` levels of the recursion of `backtracking_sudoku`: the calls
nested `k` deep are made to `deep`. -/
def backtracking_levels (deep : Board → SudokuSolver → Option Outcome) :
    Nat → Board → SudokuSolver → Option Outcome
  | 0, board, s => deep board s
  | k + 1, board, s => backtracking_body (backtracking_levels deep k) board s

/-- A call that returns `true` at once and leaves the board and the members as
they are. -/
def stop_here (board : Board) (s : SudokuSolver) : Option Outcome := some (true, board, s)

/-- The returned `bool`, the board and the array of an outcome, without the
result vectors. -/
def outcome_core (r : Outcome) : Bool × Board × Domain := (r.1, r.2.1, r.2.2.domain)

/-- How a part `run` of the search, which makes its deepest calls to `deep`,
behaves on every solver state with the array of `s0`.  Either no deep call is
made: the outcome is the same for every `deep`, it has the same `outcome_core`
as on `s0`, and a `true` result stands on a board on which the selector finds
no cell.  Or the first deep call is entered with the board `B` and the array `D`,
which the run with `stop_here` returns, and if that call returns `true`, the
whole run returns what it returns. -/
def stage_cases
    (run : (Board → SudokuSolver → Option Outcome) → SudokuSolver → Option Outcome)
    (s0 : SudokuSolver) : Prop :=
  ((∀ s, s.domain = s0.domain →
      (∀ deep, run deep s = run stop_here s)
      ∧ (run stop_here s).map outcome_core = (run stop_here s0).map outcome_core)
    ∧ ∀ r, run stop_here s0 = some r → r.1 = true →
        (minimum_remaining_values r.2.1 r.2.2.domain).1 = (-1, -1))
  ∨ ∃ B D, (run stop_here s0).map outcome_core = some (true, B, D)
      ∧ ∀ s, s.domain = s0.domain → ∃ S, S.domain = D
          ∧ ∀ deep r, deep B S = some r → r.1 = true → run deep s = some r

/-- The members with which the loop of `backtracking_sudoku` goes on after a
recursive call has returned `r`: those of `r` with the saved copy written back
to `domain`. -/
def after_call (temp : Domain) (s : SudokuSolver) : Option Outcome → SudokuSolver
  | some r => { r.2.2 with domain := temp }
  | none => s
/-- The board on entry of the call of `backtracking_sudoku` nested 27 deep in the
run of `solve_sudoku` on `empty_board`. -/
def empty_board_27 : Board :=
  [['1', '2', '3', '4', '5', '6', '7', '8', '9'],
   ['4', '5', '6', '7', '8', '9', '1', '2', '3'],
   ['7', '8', '9', '1', '2', '3', '4', '5', '6'],
   ['.', '.', '.', '.', '.', '.', '.', '.', '.'],
   ['.', '.', '.', '.', '.', '.', '.', '.', '.'],
   ['.', '.', '.', '.', '.', '.', '.', '.', '.'],
   ['.', '.', '.', '.', '.', '.', '.', '.', '.'],
   ['.', '.', '.', '.', '.', '.', '.', '.', '.'],
   ['.', '.', '.', '.', '.', '.', '.', '.', '.']]

/-- The candidate array on entry of the call of `backtracking_sudoku` nested 27
deep in the run of `solve_sudoku` on `empty_board`. -/
def empty_domain_27 : Domain :=
  [[[0, 0, 0, 0, 0, 0, 0, 0, 0, 0], [0, 0, 0, 0, 0, 0, 0, 0, 0, 0], [0, 0, 0, 0, 0, 0, 0, 0, 0, 0], [0, 0, 0, 0, 0, 0, 0, 0, 0, 0], [0, 0, 0, 0, 0, 0, 0, 0, 0, 0], [0, 0, 0, 0, 0, 0, 0, 0, 0, 0], [0, 0, 0, 0, 0, 0, 0, 0, 0, 0], [0, 0, 0, 0, 0, 0, 0, 0, 0, 0], [0, 0, 0, 0, 0, 0, 0, 0, 0, 0]],
   [[0, 0, 0, 0, 0, 0, 0, 0, 0, 0], [0, 0, 0, 0, 0, 0, 0, 0, 0, 0], [0, 0, 0, 0, 0, 0, 0, 0, 0, 0], [0, 0, 0, 0, 0, 0, 0, 0, 0, 0], [0, 0, 0, 0, 0, 0, 0, 0, 0, 0], [0, 0, 0, 0, 0, 0, 0, 0, 0, 0], [0, 0, 0, 0, 0, 0, 0, 0, 0, 0], [0, 0, 0, 0, 0, 0, 0, 0, 0, 0], [0, 0, 0, 0, 0, 0, 0, 0, 0, 0]],
   [[0, 0, 0, 0, 0, 0, 0, 0, 0, 0], [0, 0, 0, 0, 0, 0, 0, 0, 0, 0], [0, 0, 0, 0, 0, 0, 0, 0, 0, 0], [0, 0, 0, 0, 0, 0, 0, 0, 0, 0], [0, 0, 0, 0, 0, 0, 0, 0, 0, 0], [0, 0, 0, 0, 0, 0, 0, 0, 0, 0], [0, 0, 0, 0, 0, 0, 0, 0, 0, 0], [0, 0, 0, 0, 0, 0, 0, 0, 0, 0], [0, 0, 0, 0, 0, 0, 0, 0, 0, 0]],
   [[6, 0, 1, 1, 0, 1, 1, 0, 1, 1], [6, 1, 0, 1, 1, 0, 1, 1, 0, 1], [6, 1, 1, 0, 1, 1, 0, 1, 1, 0], [6, 0, 1, 1, 0, 1, 1, 0, 1, 1], [6, 1, 0, 1, 1, 0, 1, 1, 0, 1], [6, 1, 1, 0, 1, 1, 0, 1, 1, 0], [6, 0, 1, 1, 0, 1, 1, 0, 1, 1], [6, 1, 0, 1, 1, 0, 1, 1, 0, 1], [6, 1, 1, 0, 1, 1, 0, 1, 1, 0]],
   [[6, 0, 1, 1, 0, 1, 1, 0, 1, 1], [6, 1, 0, 1, 1, 0, 1, 1, 0, 1], [6, 1, 1, 0, 1, 1, 0, 1, 1, 0], [6, 0, 1, 1, 0, 1, 1, 0, 1, 1], [6, 1, 0, 1, 1, 0, 1, 1, 0, 1], [6, 1, 1, 0, 1, 1, 0, 1, 1, 0], [6, 0, 1, 1, 0, 1, 1, 0, 1, 1], [6, 1, 0, 1, 1, 0, 1, 1, 0, 1], [6, 1, 1, 0, 1, 1, 0, 1, 1, 0]],
   [[6, 0, 1, 1, 0, 1, 1, 0, 1, 1], [6, 1, 0, 1, 1, 0, 1, 1, 0, 1], [6, 1, 1, 0, 1, 1, 0, 1, 1, 0], [6, 0, 1, 1, 0, 1, 1, 0, 1, 1], [6, 1, 0, 1, 1, 0, 1, 1, 0, 1], [6, 1, 1, 0, 1, 1, 0, 1, 1, 0], [6, 0, 1, 1, 0, 1, 1, 0, 1, 1], [6, 1, 0, 1, 1, 0, 1, 1, 0, 1], [6, 1, 1, 0, 1, 1, 0, 1, 1, 0]],
   [[6, 0, 1, 1, 0, 1, 1, 0, 1, 1], [6, 1, 0, 1, 1, 0, 1, 1, 0, 1], [6, 1, 1, 0, 1, 1, 0, 1, 1, 0], [6, 0, 1, 1, 0, 1, 1, 0, 1, 1], [6, 1, 0, 1, 1, 0, 1, 1, 0, 1], [6, 1, 1, 0, 1, 1, 0, 1, 1, 0], [6, 0, 1, 1, 0, 1, 1, 0, 1, 1], [6, 1, 0, 1, 1, 0, 1, 1, 0, 1], [6, 1, 1, 0, 1, 1, 0, 1, 1, 0]],
   [[6, 0, 1, 1, 0, 1, 1, 0, 1, 1], [6, 1, 0, 1, 1, 0, 1, 1, 0, 1], [6, 1, 1, 0, 1, 1, 0, 1, 1, 0], [6, 0, 1, 1, 0, 1, 1, 0, 1, 1], [6, 1, 0, 1, 1, 0, 1, 1, 0, 1], [6, 1, 1, 0, 1, 1, 0, 1, 1, 0], [6, 0, 1, 1, 0, 1, 1, 0, 1, 1], [6, 1, 0, 1, 1, 0, 1, 1, 0, 1], [6, 1, 1, 0, 1, 1, 0, 1, 1, 0]],
   [[6, 0, 1, 1, 0, 1, 1, 0, 1, 1], [6, 1, 0, 1, 1, 0, 1, 1, 0, 1], [6, 1, 1, 0, 1, 1, 0, 1, 1, 0], [6, 0, 1, 1, 0, 1, 1, 0, 1, 1], [6, 1, 0, 1, 1, 0, 1, 1, 0, 1], [6, 1, 1, 0, 1, 1, 0, 1, 1, 0], [6, 0, 1, 1, 0, 1, 1, 0, 1, 1], [6, 1, 0, 1, 1, 0, 1, 1, 0, 1], [6, 1, 1, 0, 1, 1, 0, 1, 1, 0]]]

/-- The board on entry of the call of `backtracking_sudoku` nested 54 deep in the
run of `solve_sudoku` on `empty_board`. -/
def empty_board_54 : Board :=
  [['1', '2', '3', '4', '5', '6', '7', '8', '9'],
   ['4', '5', '6', '7', '8', '9', '1', '2', '3'],
   ['7', '8', '9', '1', '2', '3', '4', '5', '6'],
   ['2', '.', '1', '.', '9', '4', '.', '.', '5'],
   ['8', '9', '4', '5', '3', '7', '2', '6', '1'],
   ['.', '.', '5', '.', '6', '1', '.', '.', '8'],
   ['.', '.', '2', '.', '.', '8', '.', '.', '4'],
   ['.', '.', '7', '.', '.', '5', '.', '.', '2'],
   ['.', '.', '8', '.', '.', '2', '.', '.', '7']]

/-- The candidate array on entry of the call of `backtracking_sudoku` nested 54
deep in the run of `solve_sudoku` on `empty_board`. -/
def empty_domain_54 : Domain :=
  [[[0, 0, 0, 0, 0, 0, 0, 0, 0, 0], [0, 0, 0, 0, 0, 0, 0, 0, 0, 0], [0, 0, 0, 0, 0, 0, 0, 0, 0, 0], [0, 0, 0, 0, 0, 0, 0, 0, 0, 0], [0, 0, 0, 0, 0, 0, 0, 0, 0, 0], [0, 0, 0, 0, 0, 0, 0, 0, 0, 0], [0, 0, 0, 0, 0, 0, 0, 0, 0, 0], [0, 0, 0, 0, 0, 0, 0, 0, 0, 0], [0, 0, 0, 0, 0, 0, 0, 0, 0, 0]],
   [[0, 0, 0, 0, 0, 0, 0, 0, 0, 0], [0, 0, 0, 0, 0, 0, 0, 0, 0, 0], [0, 0, 0, 0, 0, 0, 0, 0, 0, 0], [0, 0, 0, 0, 0, 0, 0, 0, 0, 0], [0, 0, 0, 0, 0, 0, 0, 0, 0, 0], [0, 0, 0, 0, 0, 0, 0, 0, 0, 0], [0, 0, 0, 0, 0, 0, 0, 0, 0, 0], [0, 0, 0, 0, 0, 0, 0, 0, 0, 0], [0, 0, 0, 0, 0, 0, 0, 0, 0, 0]],
   [[0, 0, 0, 0, 0, 0, 0, 0, 0, 0], [0, 0, 0, 0, 0, 0, 0, 0, 0, 0], [0, 0, 0, 0, 0, 0, 0, 0, 0, 0], [0, 0, 0, 0, 0, 0, 0, 0, 0, 0], [0, 0, 0, 0, 0, 0, 0, 0, 0, 0], [0, 0, 0, 0, 0, 0, 0, 0, 0, 0], [0, 0, 0, 0, 0, 0, 0, 0, 0, 0], [0, 0, 0, 0, 0, 0, 0, 0, 0, 0], [0, 0, 0, 0, 0, 0, 0, 0, 0, 0]],
   [[2, 0, 0, 1, 0, 0, 1, 0, 0, 0], [3, 0, 0, 1, 0, 0, 1, 1, 0, 0], [0, 0, 0, 0, 0, 0, 0, 0, 0, 0], [1, 0, 0, 0, 0, 0, 0, 0, 1, 0], [0, 0, 0, 0, 0, 0, 0, 0, 0, 0], [0, 0, 0, 0, 0, 0, 0, 0, 0, 0], [1, 0, 0, 1, 0, 0, 0, 0, 0, 0], [2, 0, 0, 1, 0, 0, 0, 1, 0, 0], [0, 0, 0, 0, 0, 0, 0, 0, 0, 0]],
   [[0, 0, 0, 0, 0, 0, 0, 0, 0, 0], [0, 0, 0, 0, 0, 0, 0, 0, 0, 0], [0, 0, 0, 0, 0, 0, 0, 0, 0, 0], [0, 0, 0, 0, 0, 0, 0, 0, 0, 0], [0, 0, 0, 0, 0, 0, 0, 0, 0, 0], [0, 0, 0, 0, 0, 0, 0, 0, 0, 0], [0, 0, 0, 0, 0, 0, 0, 0, 0, 0], [0, 0, 0, 0, 0, 0, 0, 0, 0, 0], [0, 0, 0, 0, 0, 0, 0, 0, 0, 0]],
   [[1, 0, 0, 1, 0, 0, 0, 0, 0, 0], [2, 0, 0, 1, 0, 0, 0, 1, 0, 0], [0, 0, 0, 0, 0, 0, 0, 0, 0, 0], [1, 0, 1, 0, 0, 0, 0, 0, 0, 0], [0, 0, 0, 0, 0, 0, 0, 0, 0, 0], [0, 0, 0, 0, 0, 0, 0, 0, 0, 0], [2, 0, 0, 1, 0, 0, 0, 0, 0, 1], [4, 0, 0, 1, 1, 0, 0, 1, 0, 1], [0, 0, 0, 0, 0, 0, 0, 0, 0, 0]],
   [[4, 0, 0, 1, 0, 1, 1, 0, 0, 1], [3, 1, 0, 1, 0, 0, 1, 0, 0, 0], [0, 0, 0, 0, 0, 0, 0, 0, 0, 0], [3, 0, 0, 1, 0, 0, 1, 0, 0, 1], [2, 1, 0, 0, 0, 0, 0, 1, 0, 0], [0, 0, 0, 0, 0, 0, 0, 0, 0, 0], [4, 0, 0, 1, 0, 1, 1, 0, 0, 1], [3, 1, 0, 1, 0, 0, 0, 0, 0, 1], [0, 0, 0, 0, 0, 0, 0, 0, 0, 0]],
   [[3, 0, 0, 1, 0, 0, 1, 0, 0, 1], [4, 1, 0, 1, 1, 0, 1, 0, 0, 0], [0, 0, 0, 0, 0, 0, 0, 0, 0, 0], [3, 0, 0, 1, 0, 0, 1, 0, 0, 1], [2, 1, 0, 0, 1, 0, 0, 0, 0, 0], [0, 0, 0, 0, 0, 0, 0, 0, 0, 0], [4, 0, 0, 1, 0, 0, 1, 0, 1, 1], [3, 1, 0, 1, 0, 0, 0, 0, 0, 1], [0, 0, 0, 0, 0, 0, 0, 0, 0, 0]],
   [[4, 0, 0, 1, 0, 1, 1, 0, 0, 1], [4, 1, 0, 1, 1, 0, 1, 0, 0, 0], [0, 0, 0, 0, 0, 0, 0, 0, 0, 0], [3, 0, 0, 1, 0, 0, 1, 0, 0, 1], [2, 1, 0, 0, 1, 0, 0, 0, 0, 0], [0, 0, 0, 0, 0, 0, 0, 0, 0, 0], [4, 0, 0, 1, 0, 1, 1, 0, 0, 1], [3, 1, 0, 1, 0, 0, 0, 0, 0, 1], [0, 0, 0, 0, 0, 0, 0, 0, 0, 0]]]

/-! ## Basic facts on array reads and writes -/

theorem getD_set_eq {α : Type} (l : List α) (i j : Nat) (x dflt : α) :
    (l.set i x).getD j dflt = if i = j ∧ i < l.length then x else l.getD j dflt := by
  simp only [List.getD_eq_getElem?_getD, List.getElem?_set]
  by_cases hij : i = j
  · subst hij
    by_cases hi : i < l.length
    · simp [hi]
    · simp [hi, List.getElem?_eq_none (Nat.le_of_not_lt hi)]
  · simp [hij]

theorem bget_bset (board : Board) (i j a b : Nat) (c : Char) :
    bget (bset board i j c) a b
      = if a = i ∧ b = j ∧ i < board.length ∧ j < (board.getD i []).length then c
        else bget board a b := by
  unfold bget bset
  rw [getD_set_eq]
  by_cases h1 : i = a ∧ i < board.length
  · rw [if_pos h1]
    obtain ⟨rfl, hi⟩ := h1
    rw [getD_set_eq]
    by_cases h2 : j = b ∧ j < (board.getD i []).length
    · rw [if_pos h2, if_pos]
      exact ⟨rfl, h2.1.symm, hi, h2.2⟩
    · rw [if_neg h2, if_neg]
      rintro ⟨-, hb, -, hj⟩
      exact h2 ⟨hb.symm, hj⟩
  · rw [if_neg h1, if_neg]
    rintro ⟨ha, -, hi, -⟩
    exact h1 ⟨ha.symm, hi⟩

theorem is_grid_bset {board : Board} (h : is_grid board) (i j : Nat) (c : Char) :
    is_grid (bset board i j c) := by
  refine ⟨by simp [bset, h.1], fun a ha => ?_⟩
  unfold bset
  rw [getD_set_eq]
  split_ifs with hc
  · rw [List.length_set]; rw [← hc.1] at ha; exact h.2 i ha
  · exact h.2 a ha

theorem bget_bset_grid {board : Board} (h : is_grid board) {i j : Nat} (hi : i < 9) (hj : j < 9)
    (a b : Nat) (c : Char) :
    bget (bset board i j c) a b = if a = i ∧ b = j then c else bget board a b := by
  rw [bget_bset]
  have h1 : i < board.length := by rw [h.1]; exact hi
  have h2 : j < (board.getD i []).length := by rw [h.2 i hi]; exact hj
  simp only [h1, h2, and_true]

theorem dget_dset (d : Domain) (i j k a b n : Nat) (v : Int) :
    dget (dset d i j k v) a b n
      = if a = i ∧ b = j ∧ n = k ∧ i < d.length ∧ j < (d.getD i []).length
            ∧ k < ((d.getD i []).getD j []).length then v
        else dget d a b n := by
  unfold dget dset
  rw [getD_set_eq]
  by_cases h1 : i = a ∧ i < d.length
  · rw [if_pos h1]
    obtain ⟨rfl, hi⟩ := h1
    rw [getD_set_eq]
    by_cases h2 : j = b ∧ j < (d.getD i []).length
    · rw [if_pos h2]
      obtain ⟨rfl, hj⟩ := h2
      rw [getD_set_eq]
      by_cases h3 : k = n ∧ k < ((d.getD i []).getD j []).length
      · rw [if_pos h3, if_pos]
        exact ⟨rfl, rfl, h3.1.symm, hi, hj, h3.2⟩
      · rw [if_neg h3, if_neg]
        rintro ⟨-, -, hn, -, -, hk⟩
        exact h3 ⟨hn.symm, hk⟩
    · rw [if_neg h2, if_neg]
      rintro ⟨-, hb, -, -, hj, -⟩
      exact h2 ⟨hb.symm, hj⟩
  · rw [if_neg h1, if_neg]
    rintro ⟨ha, -, -, hi, -⟩
    exact h1 ⟨ha.symm, hi⟩

theorem is_domain_dset {d : Domain} (h : is_domain d) (i j k : Nat) (v : Int) :
    is_domain (dset d i j k v) := by
  refine ⟨by simp [dset, h.1], fun a ha => ?_⟩
  unfold dset
  rw [getD_set_eq]
  split_ifs with hc
  · obtain ⟨rfl, -⟩ := hc
    refine ⟨by rw [List.length_set]; exact (h.2 i ha).1, fun b hb => ?_⟩
    rw [getD_set_eq]
    split_ifs with hc2
    · rw [List.length_set]; rw [← hc2.1] at hb; exact (h.2 i ha).2 j hb
    · exact (h.2 i ha).2 b hb
  · exact h.2 a ha

theorem dget_dset_dom {d : Domain} (h : is_domain d) {i j k : Nat} (hi : i < 9) (hj : j < 9)
    (hk : k < 10) (a b n : Nat) (v : Int) :
    dget (dset d i j k v) a b n = if a = i ∧ b = j ∧ n = k then v else dget d a b n := by
  rw [dget_dset]
  have h1 : i < d.length := by rw [h.1]; exact hi
  have h2 : j < (d.getD i []).length := by rw [(h.2 i hi).1]; exact hj
  have h3 : k < ((d.getD i []).getD j []).length := by rw [(h.2 i hi).2 j hj]; exact hk
  simp only [h1, h2, h3, and_true]

/-! ## The effect of `assign_value` on the candidate array -/

theorem assign_step_eq (i j num ii jj : Nat) (d : Domain) (k : Nat) :
    assign_step i j num ii jj d k
      = strike (strike (strike d i k num) k j num) (ii + k / 3) (jj + k % 3) num := rfl

theorem foldl_flatMap_eq {α β γ : Type} (f : α → List β) (g : γ → β → γ) (l : List α) :
    ∀ c : γ, (l.flatMap f).foldl g c = l.foldl (fun c k => (f k).foldl g c) c := by
  induction l with
  | nil => intro c; rfl
  | cons x l ih => intro c; rw [List.flatMap_cons, List.foldl_append, ih]; rfl

theorem assign_value_snd (i j num : Nat) (board : Board) (d : Domain) :
    (assign_value i j num board d).2 = strike_all d num (touch_list i j) := by
  unfold assign_value strike_all touch_list
  rw [foldl_flatMap_eq]
  simp only [List.foldl_cons, List.foldl_nil]
  congr 1

theorem is_domain_strike {d : Domain} (h : is_domain d) (a b num : Nat) :
    is_domain (strike d a b num) :=
  is_domain_dset (is_domain_dset h _ _ _ _) _ _ _ _

theorem dget_strike {d : Domain} (h : is_domain d) {a b num : Nat} (ha : a < 9) (hb : b < 9)
    (hnum : num < 10) (a' b' n : Nat) :
    dget (strike d a b num) a' b' n
      = if a' = a ∧ b' = b then
          (if n = num then 0 else if n = 0 then dget d a b 0 - dget d a b num else dget d a b n)
        else dget d a' b' n := by
  unfold strike
  rw [dget_dset_dom (is_domain_dset h _ _ _ _) ha hb hnum,
    dget_dset_dom h ha hb (by omega : 0 < 10)]
  by_cases hc : a' = a ∧ b' = b
  · obtain ⟨rfl, rfl⟩ := hc
    by_cases hn : n = num
    · simp [hn]
    · by_cases h0 : n = 0
      · simp [hn, h0]
      · simp [hn, h0]
  · have h1 : ¬ (a' = a ∧ b' = b ∧ n = num) := fun hh => hc ⟨hh.1, hh.2.1⟩
    have h2 : ¬ (a' = a ∧ b' = b ∧ n = 0) := fun hh => hc ⟨hh.1, hh.2.1⟩
    rw [if_neg h1, if_neg h2, if_neg hc]

theorem is_domain_strike_all (num : Nat) (l : List (Nat × Nat)) :
    ∀ {d : Domain}, is_domain d → is_domain (strike_all d num l) := by
  induction l with
  | nil => intro d h; exact h
  | cons p l ih => intro d h; exact ih (is_domain_strike h _ _ _)

theorem dget_strike_all {num : Nat} (hnum : num < 10) (hpos : 1 ≤ num) (l : List (Nat × Nat))
    (hl : ∀ p ∈ l, p.1 < 9 ∧ p.2 < 9) :
    ∀ {d : Domain}, is_domain d → ∀ a b n : Nat,
      dget (strike_all d num l) a b n
        = if (a, b) ∈ l then
            (if n = num then 0 else if n = 0 then dget d a b 0 - dget d a b num
              else dget d a b n)
          else dget d a b n := by
  induction l with
  | nil => intro d _ a b n; simp [strike_all]
  | cons p l ih =>
    intro d h a b n
    have hp := hl p (List.mem_cons_self _ _)
    have hl' : ∀ q ∈ l, q.1 < 9 ∧ q.2 < 9 := fun q hq => hl q (List.mem_cons_of_mem _ hq)
    have e : strike_all d num (p :: l) = strike_all (strike d p.1 p.2 num) num l := rfl
    rw [e, ih hl' (is_domain_strike h _ _ _) a b n]
    simp only [dget_strike h hp.1 hp.2 hnum]
    have hmem : (a, b) ∈ p :: l ↔ (a = p.1 ∧ b = p.2) ∨ (a, b) ∈ l := by
      rw [List.mem_cons]
      constructor
      · rintro (hh | hh)
        · left; rw [← hh]; exact ⟨rfl, rfl⟩
        · right; exact hh
      · rintro (hh | hh)
        · left; exact Prod.ext hh.1 hh.2
        · right; exact hh
    have hne : num ≠ 0 := by omega
    by_cases hc : a = p.1 ∧ b = p.2
    · have hm : (a, b) ∈ p :: l := hmem.2 (Or.inl hc)
      rw [if_pos hm]
      simp only [if_pos hc, if_pos (⟨rfl, rfl⟩ : p.1 = p.1 ∧ p.2 = p.2)]
      obtain ⟨rfl, rfl⟩ := hc
      by_cases hin : (p.1, p.2) ∈ l
      · rw [if_pos hin]
        by_cases hn : n = num
        · simp [hn]
        · by_cases h0 : n = 0
          · subst h0
            have : ¬ (num = 0) := hne
            simp [hn, this]
          · simp [hn, h0]
      · rw [if_neg hin]
    · simp only [if_neg hc]
      by_cases hin : (a, b) ∈ l
      · rw [if_pos hin, if_pos (hmem.2 (Or.inr hin))]
      · have : ¬ (a, b) ∈ p :: l := fun hh => (hmem.1 hh).elim hc hin
        rw [if_neg hin, if_neg this]

theorem mem_touch_list {i j a b : Nat} (ha : a < 9) (hb : b < 9) :
    (a, b) ∈ touch_list i j ↔ sees i j a b := by
  unfold touch_list sees
  simp only [List.mem_flatMap, List.mem_range, List.mem_cons, Prod.mk.injEq,
    List.mem_singleton, List.not_mem_nil, or_false]
  constructor
  · rintro ⟨k, hk, h | h | h⟩
    · left; exact h.1
    · right; left; exact h.2
    · right; right; omega
  · rintro (h | h | h)
    · exact ⟨b, hb, Or.inl ⟨h, rfl⟩⟩
    · exact ⟨a, ha, Or.inr (Or.inl ⟨rfl, h⟩)⟩
    · refine ⟨(a % 3) * 3 + b % 3, by omega, Or.inr (Or.inr ?_)⟩
      omega

theorem touch_list_range {i j : Nat} (hi : i < 9) (hj : j < 9) :
    ∀ p ∈ touch_list i j, p.1 < 9 ∧ p.2 < 9 := by
  intro p hp
  unfold touch_list at hp
  simp only [List.mem_flatMap, List.mem_range, List.mem_cons,
    List.mem_singleton, List.not_mem_nil, or_false] at hp
  obtain ⟨k, hk, h | h | h⟩ := hp <;> subst h <;> simp only <;> omega

theorem is_domain_assign_value {d : Domain} (h : is_domain d) (i j num : Nat) (board : Board) :
    is_domain (assign_value i j num board d).2 := by
  rw [assign_value_snd]; exact is_domain_strike_all _ _ h

/-- Entries of the candidate array after `assign_value`. -/
theorem dget_assign_value {d : Domain} (h : is_domain d) {i j num : Nat} (hi : i < 9)
    (hj : j < 9) (hpos : 1 ≤ num) (hnum : num ≤ 9) (board : Board) {a b : Nat} (ha : a < 9)
    (hb : b < 9) (n : Nat) :
    dget (assign_value i j num board d).2 a b n
      = if sees i j a b then
          (if n = num then 0 else if n = 0 then dget d a b 0 - dget d a b num
            else dget d a b n)
        else dget d a b n := by
  rw [assign_value_snd, dget_strike_all (by omega) hpos _ (touch_list_range hi hj) h]
  by_cases hs : sees i j a b
  · rw [if_pos hs, if_pos ((mem_touch_list ha hb).2 hs)]
  · rw [if_neg hs, if_neg (fun hh => hs ((mem_touch_list ha hb).1 hh))]

theorem assign_value_fst (i j num : Nat) (board : Board) (d : Domain) :
    (assign_value i j num board d).1 = bset board i j (Char.ofNat (num + 48)) := rfl

theorem num_candidates_eq (d : Domain) (i j : Nat) :
    num_candidates d i j
      = (if dget d i j 1 = 1 then 1 else 0) + (if dget d i j 2 = 1 then 1 else 0)
        + (if dget d i j 3 = 1 then 1 else 0) + (if dget d i j 4 = 1 then 1 else 0)
        + (if dget d i j 5 = 1 then 1 else 0) + (if dget d i j 6 = 1 then 1 else 0)
        + (if dget d i j 7 = 1 then 1 else 0) + (if dget d i j 8 = 1 then 1 else 0)
        + (if dget d i j 9 = 1 then 1 else 0) := by
  unfold num_candidates
  simp only [List.range', List.countP_cons, List.countP_nil, decide_eq_true_eq]
  push_cast
  ring

theorem ite_flag {x : Int} (h : x = 0 ∨ x = 1) : (if x = 1 then (1 : Int) else 0) = x := by
  rcases h with h | h <;> simp [h]

theorem num_candidates_sum {d : Domain} {i j : Nat}
    (h : ∀ k, 1 ≤ k → k ≤ 9 → dget d i j k = 0 ∨ dget d i j k = 1) :
    num_candidates d i j
      = dget d i j 1 + dget d i j 2 + dget d i j 3 + dget d i j 4 + dget d i j 5
        + dget d i j 6 + dget d i j 7 + dget d i j 8 + dget d i j 9 := by
  rw [num_candidates_eq, ite_flag (h 1 (by omega) (by omega)),
    ite_flag (h 2 (by omega) (by omega)), ite_flag (h 3 (by omega) (by omega)),
    ite_flag (h 4 (by omega) (by omega)), ite_flag (h 5 (by omega) (by omega)),
    ite_flag (h 6 (by omega) (by omega)), ite_flag (h 7 (by omega) (by omega)),
    ite_flag (h 8 (by omega) (by omega)), ite_flag (h 9 (by omega) (by omega))]

theorem flags_assign_value {d : Domain} (h : is_domain d) {i j num : Nat}
    (hi : i < 9) (hj : j < 9) (hpos : 1 ≤ num) (hnum : num ≤ 9) (board : Board)
    {a b : Nat} (ha : a < 9) (hb : b < 9)
    (hflag : ∀ k, 1 ≤ k → k ≤ 9 → dget d a b k = 0 ∨ dget d a b k = 1) :
    ∀ k, 1 ≤ k → k ≤ 9 → dget (assign_value i j num board d).2 a b k = 0
      ∨ dget (assign_value i j num board d).2 a b k = 1 := by
  intro k hk1 hk9
  rw [dget_assign_value h hi hj hpos hnum board ha hb]
  have h0 : ¬ k = 0 := by omega
  by_cases hs : sees i j a b
  · rw [if_pos hs]
    by_cases hk : k = num
    · rw [if_pos hk]; left; rfl
    · rw [if_neg hk, if_neg h0]; exact hflag k hk1 hk9
  · rw [if_neg hs]; exact hflag k hk1 hk9

theorem count_ok_assign_value {d : Domain} (h : is_domain d) (hok : count_ok d) {i j num : Nat}
    (hi : i < 9) (hj : j < 9) (hpos : 1 ≤ num) (hnum : num ≤ 9) (board : Board) :
    count_ok (assign_value i j num board d).2 := by
  intro a ha b hb
  obtain ⟨hflag, hcnt⟩ := hok a ha b hb
  have hflag' := flags_assign_value h hi hj hpos hnum board ha hb hflag
  refine ⟨hflag', ?_⟩
  rw [num_candidates_sum hflag'] 
  rw [num_candidates_sum hflag] at hcnt
  simp only [dget_assign_value h hi hj hpos hnum board ha hb]
  by_cases hs : sees i j a b
  · simp only [if_pos hs]
    have hn : num = 1 ∨ num = 2 ∨ num = 3 ∨ num = 4 ∨ num = 5 ∨ num = 6 ∨ num = 7
        ∨ num = 8 ∨ num = 9 := by omega
    clear hflag hflag' h hs hpos hnum
    rcases hn with rfl | rfl | rfl | rfl | rfl | rfl | rfl | rfl | rfl <;>
      norm_num <;> omega
  · simp only [if_neg hs]
    exact hcnt

/-! ## The selector `minimum_remaining_values` -/

theorem mem_cells (p : Nat × Nat) : p ∈ cells ↔ p.1 < 9 ∧ p.2 < 9 := by
  unfold cells
  simp only [List.mem_flatMap, List.mem_range, List.mem_map]
  constructor
  · rintro ⟨i, hi, j, hj, rfl⟩; exact ⟨hi, hj⟩
  · rintro ⟨h1, h2⟩; exact ⟨p.1, h1, p.2, h2, rfl⟩

theorem mrv_scan_eq (board : Board) (d : Domain) :
    mrv_scan board d = cells.foldl (mrv_step board d) mrv_init := rfl

theorem mrv_best_foldl (board : Board) (d : Domain) (l : List (Nat × Nat))
    (hcnt : ∀ q ∈ l, dget d q.1 q.2 0 ≤ 9) :
    mrv_best board d l (l.foldl (mrv_step board d) mrv_init) := by
  induction l using List.reverseRecOn with
  | nil => left; exact ⟨fun q hq => absurd hq (List.not_mem_nil q), rfl⟩
  | append_singleton l x ih =>
    have hcnt' : ∀ q ∈ l, dget d q.1 q.2 0 ≤ 9 :=
      fun q hq => hcnt q (List.mem_append_left _ hq)
    have hx : dget d x.1 x.2 0 ≤ 9 := hcnt x (by simp)
    rw [List.foldl_append, List.foldl_cons, List.foldl_nil]
    rcases ih hcnt' with ⟨hnone, hst⟩ | ⟨l1, p, l2, hl, hp, hst, h1, h2⟩
    · rw [hst]
      by_cases hdot : bget board x.1 x.2 = '.'
      · right
        refine ⟨l, x, [], rfl, hdot, ?_, ?_, ?_⟩
        · unfold mrv_step
          rw [if_pos hdot, if_pos (by show dget d x.1 x.2 0 < 10; omega)]
        · intro q hq hqd; exact absurd hqd (hnone q hq)
        · intro q hq; exact absurd hq (List.not_mem_nil q)
      · left
        refine ⟨?_, ?_⟩
        · intro q hq
          rcases List.mem_append.1 hq with hq | hq
          · exact hnone q hq
          · rw [List.mem_singleton.1 hq]; exact hdot
        · unfold mrv_step; rw [if_neg hdot]
    · rw [hst]
      right
      by_cases hdot : bget board x.1 x.2 = '.'
      · by_cases hlt : dget d x.1 x.2 0 < dget d p.1 p.2 0
        · refine ⟨l1 ++ p :: l2, x, [], by rw [hl], hdot, ?_, ?_, ?_⟩
          · unfold mrv_step; rw [if_pos hdot, if_pos hlt]
          · intro q hq hqd
            rcases List.mem_append.1 hq with hq | hq
            · rcases h1 q hq hqd with h | h
              · left; omega
              · left; omega
            · rcases List.mem_cons.1 hq with hq | hq
              · rw [hq]; left; exact hlt
              · rcases h2 q hq hqd with h | h
                · left; omega
                · left; omega
          · intro q hq; exact absurd hq (List.not_mem_nil q)
        · by_cases heq : dget d x.1 x.2 0 = dget d p.1 p.2 0
          · by_cases hdeg : degree_heuristic board p.1 p.2 < degree_heuristic board x.1 x.2
            · refine ⟨l1 ++ p :: l2, x, [], by rw [hl], hdot, ?_, ?_, ?_⟩
              · unfold mrv_step; rw [if_pos hdot, if_neg hlt, if_pos heq, if_pos hdeg]
              · intro q hq hqd
                rcases List.mem_append.1 hq with hq | hq
                · rcases h1 q hq hqd with h | h
                  · left; omega
                  · right; omega
                · rcases List.mem_cons.1 hq with hq | hq
                  · rw [hq]; right; omega
                  · rcases h2 q hq hqd with h | h
                    · left; omega
                    · right; omega
              · intro q hq; exact absurd hq (List.not_mem_nil q)
            · refine ⟨l1, p, l2 ++ [x], by rw [hl]; simp, hp, ?_, h1, ?_⟩
              · unfold mrv_step; rw [if_pos hdot, if_neg hlt, if_pos heq, if_neg hdeg]
              · intro q hq hqd
                rcases List.mem_append.1 hq with hq | hq
                · exact h2 q hq hqd
                · rw [List.mem_singleton.1 hq]; right; omega
          · refine ⟨l1, p, l2 ++ [x], by rw [hl]; simp, hp, ?_, h1, ?_⟩
            · unfold mrv_step; rw [if_pos hdot, if_neg hlt, if_neg heq]
            · intro q hq hqd
              rcases List.mem_append.1 hq with hq | hq
              · exact h2 q hq hqd
              · rw [List.mem_singleton.1 hq]; left; omega
      · refine ⟨l1, p, l2 ++ [x], by rw [hl]; simp, hp, ?_, h1, ?_⟩
        · unfold mrv_step; rw [if_neg hdot]
        · intro q hq hqd
          rcases List.mem_append.1 hq with hq | hq
          · exact h2 q hq hqd
          · rw [List.mem_singleton.1 hq] at hqd; exact absurd hqd hdot

theorem mrv_best_scan (board : Board) (d : Domain)
    (hcnt : ∀ i < 9, ∀ j < 9, dget d i j 0 ≤ 9) :
    mrv_best board d cells (mrv_scan board d) :=
  mrv_best_foldl board d cells
    (fun q hq => hcnt q.1 ((mem_cells q).1 hq).1 q.2 ((mem_cells q).1 hq).2)

theorem cells_sorted : cells.Pairwise (fun p q => cell_index p < cell_index q) := by
  decide

theorem mrv_scan_none (board : Board) (d : Domain)
    (h : ∀ i < 9, ∀ j < 9, bget board i j ≠ '.') : mrv_scan board d = mrv_init := by
  rw [mrv_scan_eq]
  have key : ∀ (l : List (Nat × Nat)) (st : MrvState),
      (∀ q ∈ l, bget board q.1 q.2 ≠ '.') → l.foldl (mrv_step board d) st = st := by
    intro l
    induction l with
    | nil => intro st _; rfl
    | cons x l ih =>
      intro st hl
      rw [List.foldl_cons]
      have hx : mrv_step board d st x = st := by
        unfold mrv_step; rw [if_neg (hl x (List.mem_cons_self _ _))]
      rw [hx]
      exact ih st (fun q hq => hl q (List.mem_cons_of_mem _ hq))
  exact key cells mrv_init
    (fun q hq => h q.1 ((mem_cells q).1 hq).1 q.2 ((mem_cells q).1 hq).2)

/-- The cell chosen by the scan when the board has an empty cell: it is empty
and every other empty cell has a larger count, or the same count and a smaller
degree, or the same count and degree and a later row-major position. -/
theorem mrv_scan_some (board : Board) (d : Domain)
    (hcnt : ∀ i < 9, ∀ j < 9, dget d i j 0 ≤ 9)
    (hdot : ∃ i < 9, ∃ j < 9, bget board i j = '.') :
    ∃ i < 9, ∃ j < 9,
      bget board i j = '.'
      ∧ mrv_scan board d = { row := i, col := j, choice := dget d i j 0,
                             degree := degree_heuristic board i j }
      ∧ ∀ a < 9, ∀ b < 9, bget board a b = '.' →
          dget d i j 0 < dget d a b 0
          ∨ (dget d a b 0 = dget d i j 0
              ∧ (degree_heuristic board a b < degree_heuristic board i j
                  ∨ (degree_heuristic board a b = degree_heuristic board i j
                      ∧ cell_index (i, j) ≤ cell_index (a, b)))) := by
  rcases mrv_best_scan board d hcnt with ⟨hnone, -⟩ | ⟨l1, p, l2, hl, hp, hst, h1, h2⟩
  · obtain ⟨i, hi, j, hj, hij⟩ := hdot
    exact absurd hij (hnone (i, j) ((mem_cells (i, j)).2 ⟨hi, hj⟩))
  · have hpc : p ∈ cells := by rw [hl]; simp
    have hpr := (mem_cells p).1 hpc
    refine ⟨p.1, hpr.1, p.2, hpr.2, hp, hst, ?_⟩
    intro a ha b hb hab
    have hq : (a, b) ∈ cells := (mem_cells (a, b)).2 ⟨ha, hb⟩
    rw [hl] at hq
    have hsort := cells_sorted
    rw [hl] at hsort
    rcases List.mem_append.1 hq with hq | hq
    · rcases h1 (a, b) hq hab with h | h
      · left; exact h
      · right; exact ⟨h.1, Or.inl h.2⟩
    · rcases List.mem_cons.1 hq with hq | hq
      · right
        have e1 : a = p.1 := congrArg Prod.fst hq
        have e2 : b = p.2 := congrArg Prod.snd hq
        subst e1; subst e2
        exact ⟨rfl, Or.inr ⟨rfl, le_refl _⟩⟩
      · have hlt : cell_index p < cell_index (a, b) :=
          List.rel_of_pairwise_cons (List.pairwise_append.1 hsort).2.1 hq
        rcases h2 (a, b) hq hab with h | h
        · left; exact h
        · right
          refine ⟨h.1, ?_⟩
          rcases lt_or_eq_of_le h.2 with h' | h'
          · left; exact h'
          · right; exact ⟨h', le_of_lt hlt⟩

/-- C8 (selector sentinel): when every count is at most 9,
`minimum_remaining_values` returns `(-1, -1)` exactly when the board has no
`'.'` cell, and otherwise returns coordinates in `0..8 x 0..8` of a cell that
is `'.'`. -/
theorem selector_sentinel (board : Board) (d : Domain)
    (hcnt : ∀ i < 9, ∀ j < 9, dget d i j 0 ≤ 9) :
    ((minimum_remaining_values board d).1 = (-1, -1)
        ↔ ∀ i < 9, ∀ j < 9, bget board i j ≠ '.')
    ∧ ((∃ i < 9, ∃ j < 9, bget board i j = '.') →
        ∃ i < 9, ∃ j < 9,
          bget board i j = '.'
            ∧ (minimum_remaining_values board d).1 = ((i : Int), (j : Int))) := by
  have hsome : (∃ i < 9, ∃ j < 9, bget board i j = '.') →
      ∃ i < 9, ∃ j < 9,
        bget board i j = '.'
          ∧ (minimum_remaining_values board d).1 = ((i : Int), (j : Int)) := by
    intro hdot
    obtain ⟨i, hi, j, hj, hij, hst, -⟩ := mrv_scan_some board d hcnt hdot
    refine ⟨i, hi, j, hj, hij, ?_⟩
    unfold minimum_remaining_values
    rw [hst]
  refine ⟨⟨?_, ?_⟩, hsome⟩
  · intro hret i hi j hj hij
    obtain ⟨a, -, b, -, -, hab⟩ := hsome ⟨i, hi, j, hj, hij⟩
    rw [hab] at hret
    have : (a : Int) = -1 := congrArg Prod.fst hret
    omega
  · intro hnone
    unfold minimum_remaining_values
    rw [mrv_scan_none board d hnone]
    rfl

theorem selector_sentinel_witness :
    (∀ i < 9, ∀ j < 9, dget SudokuSolver.fresh.domain i j 0 ≤ 9)
    ∧ (((minimum_remaining_values (List.replicate 9 (List.replicate 9 '.'))
            SudokuSolver.fresh.domain).1 = (-1, -1)
          ↔ ∀ i < 9, ∀ j < 9, bget (List.replicate 9 (List.replicate 9 '.')) i j ≠ '.')
      ∧ ((∃ i < 9, ∃ j < 9, bget (List.replicate 9 (List.replicate 9 '.')) i j = '.') →
          ∃ i < 9, ∃ j < 9,
            bget (List.replicate 9 (List.replicate 9 '.')) i j = '.'
              ∧ (minimum_remaining_values (List.replicate 9 (List.replicate 9 '.'))
                  SudokuSolver.fresh.domain).1 = ((i : Int), (j : Int)))) :=
  ⟨by decide, selector_sentinel _ _ (by decide)⟩

/-- C7 (selector correctness): on a board with a `'.'` cell and counts in
`0..9`, `minimum_remaining_values` returns a `'.'` cell whose count is minimal
among the `'.'` cells, whose `degree_heuristic` score is maximal among the
`'.'` cells with that count, and which is the first such cell in row-major
order; the reported degree is the `degree_heuristic` score of that cell. -/
theorem selector_correct (board : Board) (d : Domain)
    (hcnt : ∀ i < 9, ∀ j < 9, 0 ≤ dget d i j 0 ∧ dget d i j 0 ≤ 9)
    (hdot : ∃ i < 9, ∃ j < 9, bget board i j = '.') :
    ∃ i < 9, ∃ j < 9,
      bget board i j = '.'
      ∧ minimum_remaining_values board d = (((i : Int), (j : Int)), degree_heuristic board i j)
      ∧ (∀ a < 9, ∀ b < 9, bget board a b = '.' → dget d i j 0 ≤ dget d a b 0)
      ∧ (∀ a < 9, ∀ b < 9, bget board a b = '.' → dget d a b 0 = dget d i j 0 →
          degree_heuristic board a b ≤ degree_heuristic board i j)
      ∧ (∀ a < 9, ∀ b < 9, bget board a b = '.' → dget d a b 0 = dget d i j 0 →
          degree_heuristic board a b = degree_heuristic board i j →
          cell_index (i, j) ≤ cell_index (a, b)) := by
  obtain ⟨i, hi, j, hj, hij, hst, hbest⟩ :=
    mrv_scan_some board d (fun i hi j hj => (hcnt i hi j hj).2) hdot
  refine ⟨i, hi, j, hj, hij, ?_, ?_, ?_, ?_⟩
  · unfold minimum_remaining_values
    rw [hst]
  · intro a ha b hb hab
    rcases hbest a ha b hb hab with h | h
    · exact le_of_lt h
    · exact le_of_eq h.1.symm
  · intro a ha b hb hab heq
    rcases hbest a ha b hb hab with h | ⟨-, h | h⟩
    · omega
    · exact le_of_lt h
    · exact le_of_eq h.1
  · intro a ha b hb hab heq hdeg
    rcases hbest a ha b hb hab with h | ⟨-, h | h⟩
    · omega
    · omega
    · exact h.2

theorem selector_correct_witness :
    (∀ i < 9, ∀ j < 9, 0 ≤ dget full_domain i j 0 ∧ dget full_domain i j 0 ≤ 9)
    ∧ (∃ i < 9, ∃ j < 9, bget empty_board i j = '.')
    ∧ ∃ i < 9, ∃ j < 9,
      bget empty_board i j = '.'
      ∧ minimum_remaining_values empty_board full_domain
          = (((i : Int), (j : Int)), degree_heuristic empty_board i j)
      ∧ (∀ a < 9, ∀ b < 9, bget empty_board a b = '.' →
          dget full_domain i j 0 ≤ dget full_domain a b 0)
      ∧ (∀ a < 9, ∀ b < 9, bget empty_board a b = '.' →
          dget full_domain a b 0 = dget full_domain i j 0 →
          degree_heuristic empty_board a b ≤ degree_heuristic empty_board i j)
      ∧ (∀ a < 9, ∀ b < 9, bget empty_board a b = '.' →
          dget full_domain a b 0 = dget full_domain i j 0 →
          degree_heuristic empty_board a b = degree_heuristic empty_board i j →
          cell_index (i, j) ≤ cell_index (a, b)) :=
  ⟨by decide, ⟨0, by decide, 0, by decide, by decide⟩,
    selector_correct empty_board full_domain (by decide) ⟨0, by decide, 0, by decide, by decide⟩⟩

/-! ## The propagator `assign_value` -/

/-- C9 (propagator postcondition): for a cell `(r, c)` of the grid and a digit
`v` in `1..9`, after `assign_value(r, c, v, board)` the board holds the
character of `v` at `(r, c)` and is otherwise unchanged; the flag of `v` is 0 in
every cell of row `r`, column `c` and the box of `(r, c)`; every other flag is
unchanged; and each count has dropped by the flag that was removed. -/
theorem assign_value_postcondition (board : Board) (d : Domain) (r c v : Nat)
    (hb : is_grid board) (hd : is_domain d) (hr : r < 9) (hc : c < 9)
    (hv1 : 1 ≤ v) (hv9 : v ≤ 9) :
    bget (assign_value r c v board d).1 r c = Char.ofNat (v + 48)
    ∧ (∀ a b, (a ≠ r ∨ b ≠ c) → bget (assign_value r c v board d).1 a b = bget board a b)
    ∧ (∀ a < 9, ∀ b < 9, sees r c a b → dget (assign_value r c v board d).2 a b v = 0)
    ∧ (∀ a < 9, ∀ b < 9, ∀ n, 1 ≤ n → n ≤ 9 → (n ≠ v ∨ ¬ sees r c a b) →
        dget (assign_value r c v board d).2 a b n = dget d a b n)
    ∧ (∀ a < 9, ∀ b < 9, dget (assign_value r c v board d).2 a b 0
        = if sees r c a b then dget d a b 0 - dget d a b v else dget d a b 0) := by
  refine ⟨?_, ?_, ?_, ?_, ?_⟩
  · rw [assign_value_fst, bget_bset_grid hb hr hc, if_pos ⟨rfl, rfl⟩]
  · intro a b hab
    rw [assign_value_fst, bget_bset_grid hb hr hc, if_neg]
    rintro ⟨h1, h2⟩
    rcases hab with h | h
    · exact h h1
    · exact h h2
  · intro a ha b hb' hs
    rw [dget_assign_value hd hr hc hv1 hv9 board ha hb', if_pos hs, if_pos rfl]
  · intro a ha b hb' n hn1 hn9 hcase
    rw [dget_assign_value hd hr hc hv1 hv9 board ha hb']
    by_cases hs : sees r c a b
    · rw [if_pos hs]
      rcases hcase with h | h
      · rw [if_neg h, if_neg (by omega)]
      · exact absurd hs h
    · rw [if_neg hs]
  · intro a ha b hb'
    rw [dget_assign_value hd hr hc hv1 hv9 board ha hb']
    by_cases hs : sees r c a b
    · rw [if_pos hs, if_pos hs, if_neg (by omega), if_pos rfl]
    · rw [if_neg hs, if_neg hs]

theorem assign_value_postcondition_witness :
    is_grid empty_board ∧ is_domain full_domain ∧ 4 < 9 ∧ 7 < 9 ∧ 1 ≤ 5 ∧ 5 ≤ 9
    ∧ bget (assign_value 4 7 5 empty_board full_domain).1 4 7 = Char.ofNat (5 + 48)
    ∧ (∀ a b, (a ≠ 4 ∨ b ≠ 7) →
        bget (assign_value 4 7 5 empty_board full_domain).1 a b = bget empty_board a b)
    ∧ (∀ a < 9, ∀ b < 9, sees 4 7 a b →
        dget (assign_value 4 7 5 empty_board full_domain).2 a b 5 = 0)
    ∧ (∀ a < 9, ∀ b < 9, ∀ n, 1 ≤ n → n ≤ 9 → (n ≠ 5 ∨ ¬ sees 4 7 a b) →
        dget (assign_value 4 7 5 empty_board full_domain).2 a b n = dget full_domain a b n)
    ∧ (∀ a < 9, ∀ b < 9, dget (assign_value 4 7 5 empty_board full_domain).2 a b 0
        = if sees 4 7 a b then dget full_domain a b 0 - dget full_domain a b 5
          else dget full_domain a b 0) :=
  ⟨by decide, by decide, by decide, by decide, by decide, by decide,
    assign_value_postcondition empty_board full_domain 4 7 5
      (by decide) (by decide) (by decide) (by decide) (by decide) (by decide)⟩

/-! ## Boards: filled cells and the number of empty cells -/

theorem digit_char_ne_dot {n : Nat} (h1 : 1 ≤ n) (h9 : n ≤ 9) : Char.ofNat (n + 48) ≠ '.' := by
  interval_cases n <;> decide

theorem digit_char_mem {n : Nat} (h1 : 1 ≤ n) (h9 : n ≤ 9) :
    Char.ofNat (n + 48) ∈ digit_chars := by
  interval_cases n <;> decide

theorem digit_of_mem {c : Char} (h : c ∈ digit_chars) :
    1 ≤ c.toNat - 48 ∧ c.toNat - 48 ≤ 9 ∧ Char.ofNat (c.toNat - 48 + 48) = c ∧ c ≠ '.' := by
  unfold digit_chars at h
  simp only [List.mem_cons, List.mem_singleton, List.not_mem_nil, or_false] at h
  rcases h with rfl | rfl | rfl | rfl | rfl | rfl | rfl | rfl | rfl <;> decide

theorem keeps_refl (b : Board) : keeps b b := fun _ _ _ => rfl

theorem keeps_trans {b1 b2 b3 : Board} (h12 : keeps b1 b2) (h23 : keeps b2 b3) :
    keeps b1 b3 := by
  intro i j h
  have e := h12 i j h
  rw [h23 i j (by rw [e]; exact h), e]

theorem keeps_bset {b bcur : Board} {i j : Nat} (h : keeps b bcur) (hdot : bget b i j = '.')
    (c : Char) : keeps b (bset bcur i j c) := by
  intro a k hak
  rw [bget_bset, if_neg, h a k hak]
  rintro ⟨rfl, rfl, -⟩
  exact hak hdot

theorem empty_count_le {b b' : Board} (h : keeps b b') : empty_count b' ≤ empty_count b := by
  unfold empty_count
  rw [← List.countP_eq_length_filter, ← List.countP_eq_length_filter]
  apply List.countP_mono_left
  intro x _ hx
  simp only [decide_eq_true_eq] at hx ⊢
  by_contra hne
  rw [h x.1 x.2 hne] at hx
  exact hne hx

theorem empty_count_lt {b b' : Board} (h : keeps b b') {i j : Nat} (hi : i < 9) (hj : j < 9)
    (hd : bget b i j = '.') (hd' : bget b' i j ≠ '.') : empty_count b' < empty_count b := by
  obtain ⟨l1, l2, hl⟩ := List.append_of_mem ((mem_cells (i, j)).2 ⟨hi, hj⟩)
  have mono : ∀ l : List (Nat × Nat),
      l.countP (fun ij => decide (bget b' ij.1 ij.2 = '.'))
        ≤ l.countP (fun ij => decide (bget b ij.1 ij.2 = '.')) := by
    intro l
    apply List.countP_mono_left
    intro x _ hx
    simp only [decide_eq_true_eq] at hx ⊢
    by_contra hne
    rw [h x.1 x.2 hne] at hx
    exact hne hx
  unfold empty_count
  rw [← List.countP_eq_length_filter, ← List.countP_eq_length_filter, hl,
    List.countP_append, List.countP_append, List.countP_cons, List.countP_cons]
  have e1 : decide (bget b' (i, j).1 (i, j).2 = '.') = false := by simpa using hd'
  have e2 : decide (bget b (i, j).1 (i, j).2 = '.') = true := by simpa using hd
  rw [e1, e2]
  have m1 := mono l1
  have m2 := mono l2
  simp only [Bool.false_eq_true, if_false, if_true]
  omega

/-! ## The selector on an arbitrary candidate array -/

/-- Whatever the counts are, the scan ends in its initial state or names an
empty cell of the grid. -/
theorem mrv_scan_cases (board : Board) (d : Domain) :
    mrv_scan board d = mrv_init
    ∨ ∃ i < 9, ∃ j < 9, bget board i j = '.'
        ∧ mrv_scan board d = { row := i, col := j, choice := dget d i j 0,
                               degree := degree_heuristic board i j } := by
  rw [mrv_scan_eq]
  have key : ∀ (l : List (Nat × Nat)), (∀ q ∈ l, q ∈ cells) →
      l.foldl (mrv_step board d) mrv_init = mrv_init
      ∨ ∃ i < 9, ∃ j < 9, bget board i j = '.'
          ∧ l.foldl (mrv_step board d) mrv_init
            = { row := i, col := j, choice := dget d i j 0,
                degree := degree_heuristic board i j } := by
    intro l
    induction l using List.reverseRecOn with
    | nil => intro _; left; rfl
    | append_singleton l x ih =>
      intro hl
      have hx := (mem_cells x).1 (hl x (by simp))
      rw [List.foldl_append, List.foldl_cons, List.foldl_nil]
      have hnew : bget board x.1 x.2 = '.' →
          ∃ i < 9, ∃ j < 9, bget board i j = '.'
            ∧ ({ row := x.1, col := x.2, choice := dget d x.1 x.2 0,
                 degree := degree_heuristic board x.1 x.2 } : MrvState)
              = { row := i, col := j, choice := dget d i j 0,
                  degree := degree_heuristic board i j } :=
        fun hdot => ⟨x.1, hx.1, x.2, hx.2, hdot, rfl⟩
      have hold := ih (fun q hq => hl q (List.mem_append_left _ hq))
      generalize List.foldl (mrv_step board d) mrv_init l = st at hold ⊢
      unfold mrv_step
      by_cases h1 : bget board x.1 x.2 = '.'
      · rw [if_pos h1]
        by_cases h2 : dget d x.1 x.2 0 < st.choice
        · rw [if_pos h2]; right; exact hnew h1
        · rw [if_neg h2]
          by_cases h3 : dget d x.1 x.2 0 = st.choice
          · rw [if_pos h3]
            by_cases h4 : st.degree < degree_heuristic board x.1 x.2
            · rw [if_pos h4]; right; exact hnew h1
            · rw [if_neg h4]; exact hold
          · rw [if_neg h3]; exact hold
      · rw [if_neg h1]; exact hold
  exact key cells (fun q hq => hq)

/-- The cell handed to the loop of `backtracking_sudoku` when the sentinel test
fails: an empty cell of the grid. -/
theorem mrv_cell_of_not_sentinel (board : Board) (d : Domain)
    (h : ¬ ((minimum_remaining_values board d).1.1 = -1
          ∧ (minimum_remaining_values board d).1.2 = -1)) :
    ∃ i < 9, ∃ j < 9, bget board i j = '.'
      ∧ minimum_remaining_values board d
          = (((i : Int), (j : Int)), degree_heuristic board i j) := by
  rcases mrv_scan_cases board d with h0 | ⟨i, hi, j, hj, hdot, hst⟩
  · exfalso; apply h
    unfold minimum_remaining_values
    rw [h0]
    exact ⟨rfl, rfl⟩
  · refine ⟨i, hi, j, hj, hdot, ?_⟩
    unfold minimum_remaining_values
    rw [hst]

/-! ## The search driver `backtracking_sudoku` -/

theorem try_values_nil (recurse : Board → SudokuSolver → Option Outcome) (cell : Int × Int)
    (deg : Int) (temp : Domain) (b : Board) (s : SudokuSolver) :
    try_values recurse cell deg temp [] b s = some (false, b, s) := rfl

theorem try_values_cons (recurse : Board → SudokuSolver → Option Outcome) (cell : Int × Int)
    (deg : Int) (temp : Domain) (num : Nat) (rest : List Nat) (b : Board) (s : SudokuSolver) :
    try_values recurse cell deg temp (num :: rest) b s
      = if dget s.domain cell.1.toNat cell.2.toNat num = 1 then
          match try_value recurse cell deg num b s with
          | none => none
          | some r =>
            if r.1 = true then some r
            else try_values recurse cell deg temp rest r.2.1 { r.2.2 with domain := temp }
        else try_values recurse cell deg temp rest b s := rfl

/-- The loop of `backtracking_sudoku` on the empty cell `(i, j)` of the entry
board `b`, started on any later board `bcur` that keeps the filled cells of `b`:
if every recursive call on a grid with fewer empty cells than `b` returns with
a `good_result`, the loop returns, the board keeps the filled cells of `b`, and
a `false` result leaves `domain` equal to the saved copy.  A second recursive
call that agrees with the first on those boards gives the same loop. -/
theorem try_values_good {recurse recurse' : Board → SudokuSolver → Option Outcome}
    {b : Board} {i j : Nat} {temp : Domain} (deg : Int)
    (hi : i < 9) (hj : j < 9) (hdot : bget b i j = '.')
    (htemp : is_domain temp) (hok : count_ok temp)
    (Hrec : ∀ b' s', is_grid b' → is_domain s'.domain → count_ok s'.domain →
        empty_count b' < empty_count b →
        recurse' b' s' = recurse b' s' ∧ ∃ r, recurse b' s' = some r ∧ good_result b' s' r) :
    ∀ (nums : List Nat), (∀ n ∈ nums, 1 ≤ n ∧ n ≤ 9) →
      ∀ (bcur : Board) (scur : SudokuSolver),
      is_grid bcur → keeps b bcur → scur.domain = temp →
      try_values recurse' ((i : Int), (j : Int)) deg temp nums bcur scur
        = try_values recurse ((i : Int), (j : Int)) deg temp nums bcur scur
      ∧ ∃ r, try_values recurse ((i : Int), (j : Int)) deg temp nums bcur scur = some r
        ∧ is_grid r.2.1 ∧ keeps b r.2.1 ∧ is_domain r.2.2.domain ∧ count_ok r.2.2.domain
        ∧ (r.1 = false → r.2.2.domain = temp) := by
  intro nums
  induction nums with
  | nil =>
    intro _ bcur scur hg hk hs
    refine ⟨rfl, (false, bcur, scur), rfl, hg, hk, ?_, ?_, fun _ => hs⟩
    · show is_domain scur.domain; rw [hs]; exact htemp
    · show count_ok scur.domain; rw [hs]; exact hok
  | cons num rest ih =>
    intro hn bcur scur hg hk hs
    have hnum := hn num (List.mem_cons_self _ _)
    have hrest : ∀ n ∈ rest, 1 ≤ n ∧ n ≤ 9 := fun n h => hn n (List.mem_cons_of_mem _ h)
    rw [try_values_cons, try_values_cons]
    simp only [Int.toNat_ofNat]
    by_cases hflag : dget scur.domain i j num = 1
    · rw [if_pos hflag, if_pos hflag]
      have hd : is_domain scur.domain := by rw [hs]; exact htemp
      have hc : count_ok scur.domain := by rw [hs]; exact hok
      have hg1 : is_grid (assign_value i j num bcur scur.domain).1 :=
        is_grid_bset hg _ _ _
      have hk1 : keeps b (assign_value i j num bcur scur.domain).1 := keeps_bset hk hdot _
      have hd1 : is_domain (assign_value i j num bcur scur.domain).2 :=
        is_domain_assign_value hd _ _ _ _
      have hc1 : count_ok (assign_value i j num bcur scur.domain).2 :=
        count_ok_assign_value hd hc hi hj hnum.1 hnum.2 _
      have hcell : bget (assign_value i j num bcur scur.domain).1 i j ≠ '.' := by
        rw [assign_value_fst, bget_bset_grid hg hi hj, if_pos ⟨rfl, rfl⟩]
        exact digit_char_ne_dot hnum.1 hnum.2
      have hlt : empty_count (assign_value i j num bcur scur.domain).1 < empty_count b :=
        empty_count_lt hk1 hi hj hdot hcell
      clear hcell
      unfold try_value
      simp only [Int.toNat_ofNat]
      generalize assign_value i j num bcur scur.domain = av at hg1 hk1 hd1 hc1 hlt ⊢
      by_cases hfc : forward_checking av.1 av.2 = true
      · rw [if_pos hfc, if_pos hfc]
        obtain ⟨hag, r, hr, hgr, hkr, hdr, hcr, -⟩ :=
          Hrec av.1
            (record_results { scur with domain := av.2 }
              ((i : Int), (j : Int)) av.1 (dget scur.domain i j 0) deg num)
            hg1 hd1 hc1 hlt
        rw [hag, hr]
        by_cases hres : r.1 = true
        · refine ⟨?_, r, ?_, hgr, keeps_trans hk1 hkr, hdr, hcr, ?_⟩
          · simp only [if_pos hres]
          · simp only [if_pos hres]
          · intro hf; rw [hres] at hf; exact absurd hf (by decide)
        · simp only [if_neg hres]
          exact ih hrest r.2.1 { r.2.2 with domain := temp } hgr (keeps_trans hk1 hkr) rfl
      · rw [if_neg hfc, if_neg hfc]
        simp only [Bool.false_eq_true, if_false]
        exact ih hrest _ _ hg1 hk1 rfl
    · rw [if_neg hflag, if_neg hflag]
      exact ih hrest bcur scur hg hk hs

/-- The body of `backtracking_sudoku` on a grid with a well-shaped array whose
counts are right, under the same hypothesis on the recursive calls as in
`try_values_good`. -/
theorem backtracking_body_good {recurse recurse' : Board → SudokuSolver → Option Outcome}
    {b : Board} {s : SudokuSolver} (hg : is_grid b) (hd : is_domain s.domain)
    (hc : count_ok s.domain)
    (Hrec : ∀ b' s', is_grid b' → is_domain s'.domain → count_ok s'.domain →
        empty_count b' < empty_count b →
        recurse' b' s' = recurse b' s' ∧ ∃ r, recurse b' s' = some r ∧ good_result b' s' r) :
    backtracking_body recurse' b s = backtracking_body recurse b s
    ∧ ∃ r, backtracking_body recurse b s = some r ∧ good_result b s r := by
  unfold backtracking_body
  by_cases h1 : (minimum_remaining_values b s.domain).1.1 = -1
      ∧ (minimum_remaining_values b s.domain).1.2 = -1
  · rw [if_pos h1, if_pos h1]
    exact ⟨rfl, _, rfl, hg, keeps_refl b, hd, hc, fun _ => rfl⟩
  · rw [if_neg h1, if_neg h1]
    obtain ⟨i, hi, j, hj, hdot, hcell⟩ := mrv_cell_of_not_sentinel b s.domain h1
    rw [hcell]
    simp only [Int.toNat_ofNat]
    by_cases h2 : dget s.domain i j 0 = 0
    · rw [if_pos h2, if_pos h2]
      exact ⟨rfl, _, rfl, hg, keeps_refl b, hd, hc, fun _ => rfl⟩
    · rw [if_neg h2, if_neg h2]
      have hnums : ∀ n ∈ List.range' 1 9, 1 ≤ n ∧ n ≤ 9 := by
        intro n hn
        rw [List.mem_range'_1] at hn
        omega
      obtain ⟨e, r, hr, hgr, hkr, hdr, hcr, hfr⟩ :=
        try_values_good (degree_heuristic b i j) hi hj hdot hd hc Hrec
          (List.range' 1 9) hnums b s hg (keeps_refl b) rfl
      exact ⟨e, r, hr, hgr, hkr, hdr, hcr, hfr⟩

/-- Enough fuel: with more fuel than empty cells, `backtracking_sudoku` returns,
and its result is a `good_result`. -/
theorem backtracking_good :
    ∀ (fuel : Nat) (b : Board) (s : SudokuSolver), is_grid b → is_domain s.domain →
      count_ok s.domain → empty_count b < fuel →
      ∃ r, backtracking_sudoku fuel b s = some r ∧ good_result b s r := by
  intro fuel
  induction fuel with
  | zero => intro b s _ _ _ h; exact absurd h (Nat.not_lt_zero _)
  | succ fuel ih =>
    intro b s hg hd hc hlt
    show ∃ r, backtracking_body (backtracking_sudoku fuel) b s = some r ∧ good_result b s r
    exact (backtracking_body_good hg hd hc
      (fun b' s' hg' hd' hc' hlt' => ⟨rfl, ih b' s' hg' hd' hc' (by omega)⟩)).2

/-! ## The initialisation `initial_board` -/

theorem board_ext {b b' : Board} (h : is_grid b) (h' : is_grid b')
    (e : ∀ i < 9, ∀ j < 9, bget b i j = bget b' i j) : b = b' := by
  apply List.ext_getElem (by rw [h.1, h'.1])
  intro i h1 h2
  have hi : i < 9 := by rw [h.1] at h1; exact h1
  have r1 : b.getD i [] = b[i] := List.getD_eq_getElem b [] h1
  have r2 : b'.getD i [] = b'[i] := List.getD_eq_getElem b' [] h2
  have l1 : (b[i]).length = 9 := by rw [← r1]; exact h.2 i hi
  have l2 : (b'[i]).length = 9 := by rw [← r2]; exact h'.2 i hi
  apply List.ext_getElem (by rw [l1, l2])
  intro j h3 h4
  have hj : j < 9 := by rw [l1] at h3; exact h3
  have := e i hi j hj
  unfold bget at this
  rw [r1, r2, List.getD_eq_getElem _ _ h3, List.getD_eq_getElem _ _ h4] at this
  exact this

theorem bset_self {b : Board} (h : is_grid b) {i j : Nat} (hi : i < 9) (hj : j < 9) :
    bset b i j (bget b i j) = b := by
  apply board_ext (is_grid_bset h _ _ _) h
  intro a _ c _
  rw [bget_bset_grid h hi hj]
  by_cases hc : a = i ∧ c = j
  · rw [if_pos hc, hc.1, hc.2]
  · rw [if_neg hc]

theorem is_domain_foldl_dset (i j : Nat) (v : Int) (ks : List Nat) :
    ∀ {d : Domain}, is_domain d → is_domain (ks.foldl (fun d k => dset d i j k v) d) := by
  induction ks with
  | nil => intro d h; exact h
  | cons k ks ih => intro d h; exact ih (is_domain_dset h _ _ _ _)

theorem dget_foldl_dset {i j : Nat} (hi : i < 9) (hj : j < 9) (v : Int) (ks : List Nat)
    (hks : ∀ k ∈ ks, k < 10) :
    ∀ {d : Domain}, is_domain d → ∀ a b n : Nat,
      dget (ks.foldl (fun d k => dset d i j k v) d) a b n
        = if a = i ∧ b = j ∧ n ∈ ks then v else dget d a b n := by
  induction ks with
  | nil => intro d _ a b n; simp
  | cons k ks ih =>
    intro d h a b n
    have hk := hks k (List.mem_cons_self _ _)
    rw [List.foldl_cons, ih (fun k' hk' => hks k' (List.mem_cons_of_mem _ hk'))
      (is_domain_dset h _ _ _ _), dget_dset_dom h hi hj hk]
    by_cases hab : a = i ∧ b = j
    · obtain ⟨rfl, rfl⟩ := hab
      by_cases hn : n ∈ ks
      · simp [hn]
      · by_cases hnk : n = k
        · simp [hnk]
        · simp [hn, hnk]
    · have h1 : ¬ (a = i ∧ b = j ∧ n ∈ ks) := fun hh => hab ⟨hh.1, hh.2.1⟩
      have h2 : ¬ (a = i ∧ b = j ∧ n = k) := fun hh => hab ⟨hh.1, hh.2.1⟩
      have h3 : ¬ (a = i ∧ b = j ∧ n ∈ k :: ks) := fun hh => hab ⟨hh.1, hh.2.1⟩
      rw [if_neg h1, if_neg h2, if_neg h3]

theorem is_domain_init_cell {d : Domain} (h : is_domain d) (p : Nat × Nat) :
    is_domain (init_cell d p) :=
  is_domain_foldl_dset _ _ _ _ (is_domain_dset h _ _ _ _)

theorem dget_init_cell {d : Domain} (h : is_domain d) {p : Nat × Nat} (hp : p.1 < 9 ∧ p.2 < 9)
    (a b n : Nat) :
    dget (init_cell d p) a b n
      = if a = p.1 ∧ b = p.2 ∧ n < 10 then (if n = 0 then 9 else 1) else dget d a b n := by
  unfold init_cell
  rw [dget_foldl_dset hp.1 hp.2 1 _ (by intro k hk; rw [List.mem_range'_1] at hk; omega)
    (is_domain_dset h _ _ _ _), dget_dset_dom h hp.1 hp.2 (by omega : 0 < 10)]
  by_cases hab : a = p.1 ∧ b = p.2
  · obtain ⟨rfl, rfl⟩ := hab
    simp only [true_and, List.mem_range'_1]
    by_cases h0 : n = 0
    · subst h0; simp
    · by_cases h10 : n < 10
      · rw [if_pos ⟨by omega, by omega⟩, if_pos h10, if_neg h0]
      · rw [if_neg (by omega), if_neg h0, if_neg h10]
  · have h1 : ¬ (a = p.1 ∧ b = p.2 ∧ n ∈ List.range' 1 9) := fun hh => hab ⟨hh.1, hh.2.1⟩
    have h2 : ¬ (a = p.1 ∧ b = p.2 ∧ n = 0) := fun hh => hab ⟨hh.1, hh.2.1⟩
    have h3 : ¬ (a = p.1 ∧ b = p.2 ∧ n < 10) := fun hh => hab ⟨hh.1, hh.2.1⟩
    rw [if_neg h1, if_neg h2, if_neg h3]

theorem init_cells_spec (l : List (Nat × Nat)) (hl : ∀ p ∈ l, p.1 < 9 ∧ p.2 < 9) :
    ∀ {d : Domain}, is_domain d →
      is_domain (l.foldl init_cell d)
      ∧ ∀ a b n : Nat, dget (l.foldl init_cell d) a b n
          = if (a, b) ∈ l ∧ n < 10 then (if n = 0 then 9 else 1) else dget d a b n := by
  induction l with
  | nil => intro d h; exact ⟨h, fun a b n => by simp⟩
  | cons p l ih =>
    intro d h
    have hp := hl p (List.mem_cons_self _ _)
    obtain ⟨h1, h2⟩ := ih (fun q hq => hl q (List.mem_cons_of_mem _ hq))
      (is_domain_init_cell h p)
    refine ⟨h1, fun a b n => ?_⟩
    rw [List.foldl_cons, h2, dget_init_cell h hp]
    by_cases hn : n < 10
    · by_cases hin : (a, b) ∈ l
      · have c1 : (a, b) ∈ l ∧ n < 10 := ⟨hin, hn⟩
        have c2 : (a, b) ∈ p :: l ∧ n < 10 := ⟨List.mem_cons_of_mem _ hin, hn⟩
        rw [if_pos c1, if_pos c2]
      · have c1 : ¬ ((a, b) ∈ l ∧ n < 10) := fun hh => hin hh.1
        rw [if_neg c1]
        by_cases hab : a = p.1 ∧ b = p.2
        · have c2 : a = p.1 ∧ b = p.2 ∧ n < 10 := ⟨hab.1, hab.2, hn⟩
          have c3 : (a, b) ∈ p :: l ∧ n < 10 := by
            refine ⟨?_, hn⟩
            rw [hab.1, hab.2]
            exact List.mem_cons_self _ _
          rw [if_pos c2, if_pos c3]
        · have c2 : ¬ (a = p.1 ∧ b = p.2 ∧ n < 10) := fun hh => hab ⟨hh.1, hh.2.1⟩
          have c3 : ¬ ((a, b) ∈ p :: l ∧ n < 10) := by
            rintro ⟨hh, -⟩
            rcases List.mem_cons.1 hh with hh | hh
            · exact hab ⟨congrArg Prod.fst hh, congrArg Prod.snd hh⟩
            · exact hin hh
          rw [if_neg c2, if_neg c3]
    · have c1 : ¬ ((a, b) ∈ l ∧ n < 10) := fun hh => hn hh.2
      have c2 : ¬ (a = p.1 ∧ b = p.2 ∧ n < 10) := fun hh => hn hh.2.2
      have c3 : ¬ ((a, b) ∈ p :: l ∧ n < 10) := fun hh => hn hh.2
      rw [if_neg c1, if_neg c2, if_neg c3]

/-- The first loop nest of `initial_board` overwrites every entry: counts 9 and
flags 1, whatever the array held. -/
theorem init_cells_all {d : Domain} (h : is_domain d) :
    is_domain (cells.foldl init_cell d)
    ∧ ∀ a < 9, ∀ b < 9, ∀ n < 10,
        dget (cells.foldl init_cell d) a b n = if n = 0 then 9 else 1 := by
  obtain ⟨h1, h2⟩ := init_cells_spec cells (fun p hp => (mem_cells p).1 hp) h
  refine ⟨h1, fun a ha b hb n hn => ?_⟩
  rw [h2, if_pos ⟨(mem_cells (a, b)).2 ⟨ha, hb⟩, hn⟩]

theorem count_ok_init_cells {d : Domain} (h : is_domain d) :
    count_ok (cells.foldl init_cell d) := by
  obtain ⟨-, h2⟩ := init_cells_all h
  intro a ha b hb
  have hflag : ∀ k, 1 ≤ k → k ≤ 9 → dget (cells.foldl init_cell d) a b k = 0
      ∨ dget (cells.foldl init_cell d) a b k = 1 := by
    intro k hk1 hk9
    right
    rw [h2 a ha b hb k (by omega), if_neg (by omega)]
  refine ⟨hflag, ?_⟩
  rw [num_candidates_sum hflag, h2 a ha b hb 0 (by omega), h2 a ha b hb 1 (by omega),
    h2 a ha b hb 2 (by omega), h2 a ha b hb 3 (by omega), h2 a ha b hb 4 (by omega),
    h2 a ha b hb 5 (by omega), h2 a ha b hb 6 (by omega), h2 a ha b hb 7 (by omega),
    h2 a ha b hb 8 (by omega), h2 a ha b hb 9 (by omega)]
  norm_num

theorem clue_hits_append (board : Board) (l : List (Nat × Nat)) (x : Nat × Nat) (a b n : Nat) :
    clue_hits board (l ++ [x]) a b n
      ↔ clue_hits board l a b n
        ∨ (bget board x.1 x.2 ≠ '.' ∧ sees x.1 x.2 a b ∧ (bget board x.1 x.2).toNat - 48 = n) := by
  unfold clue_hits
  constructor
  · rintro ⟨p, hp, h⟩
    rcases List.mem_append.1 hp with hp | hp
    · left; exact ⟨p, hp, h⟩
    · right; rw [List.mem_singleton.1 hp] at h; exact h
  · rintro (⟨p, hp, h⟩ | h)
    · exact ⟨p, List.mem_append_left _ hp, h⟩
    · exact ⟨x, by simp, h⟩

/-- The second loop nest of `initial_board` over the cells `l` of an input
board: the board is written back unchanged, and a flag is cleared exactly when a
pre-filled cell of `l` that sees the cell holds the digit. -/
theorem init_assign_spec {board : Board} (hb : is_input board) {d0 : Domain}
    (hd : is_domain d0) (hc : count_ok d0) (l : List (Nat × Nat))
    (hl : ∀ p ∈ l, p.1 < 9 ∧ p.2 < 9) :
    (l.foldl init_assign (board, d0)).1 = board
    ∧ is_domain (l.foldl init_assign (board, d0)).2
    ∧ count_ok (l.foldl init_assign (board, d0)).2
    ∧ ∀ a < 9, ∀ b < 9, ∀ n, 1 ≤ n → n ≤ 9 →
        dget (l.foldl init_assign (board, d0)).2 a b n
          = if clue_hits board l a b n then 0 else dget d0 a b n := by
  induction l using List.reverseRecOn with
  | nil =>
    refine ⟨rfl, hd, hc, fun a _ b _ n _ _ => ?_⟩
    have : ¬ clue_hits board [] a b n := by
      rintro ⟨p, hp, -⟩; exact absurd hp (List.not_mem_nil p)
    rw [if_neg this]; rfl
  | append_singleton l x ih =>
    obtain ⟨e1, e2, e3, e4⟩ := ih (fun p hp => hl p (List.mem_append_left _ hp))
    have hx := hl x (by simp)
    rw [List.foldl_append, List.foldl_cons, List.foldl_nil]
    generalize List.foldl init_assign (board, d0) l = st at e1 e2 e3 e4 ⊢
    unfold init_assign
    rw [e1]
    by_cases hdot : bget board x.1 x.2 ≠ '.'
    · rw [if_pos hdot]
      have hdig : bget board x.1 x.2 ∈ digit_chars := by
        rcases hb.2 x.1 hx.1 x.2 hx.2 with h | h
        · exact absurd h hdot
        · exact h
      obtain ⟨h1, h9, hround, -⟩ := digit_of_mem hdig
      refine ⟨?_, is_domain_assign_value e2 _ _ _ _,
        count_ok_assign_value e2 e3 hx.1 hx.2 h1 h9 _, ?_⟩
      · rw [assign_value_fst, hround]
        exact bset_self hb.1 hx.1 hx.2
      · intro a ha b hb' n hn1 hn9
        rw [dget_assign_value e2 hx.1 hx.2 h1 h9 _ ha hb', e4 a ha b hb' n hn1 hn9]
        have hn0 : ¬ n = 0 := by omega
        by_cases hold : clue_hits board l a b n
        · have hnew : clue_hits board (l ++ [x]) a b n :=
            (clue_hits_append board l x a b n).2 (Or.inl hold)
          rw [if_pos hold, if_pos hnew]
          by_cases hs : sees x.1 x.2 a b
          · rw [if_pos hs]
            by_cases hn : n = (bget board x.1 x.2).toNat - 48
            · rw [if_pos hn]
            · rw [if_neg hn, if_neg hn0]
          · rw [if_neg hs]
        · rw [if_neg hold]
          by_cases hs : sees x.1 x.2 a b
          · rw [if_pos hs]
            by_cases hn : n = (bget board x.1 x.2).toNat - 48
            · have hnew : clue_hits board (l ++ [x]) a b n :=
                (clue_hits_append board l x a b n).2 (Or.inr ⟨hdot, hs, hn.symm⟩)
              rw [if_pos hn, if_pos hnew]
            · have hnew : ¬ clue_hits board (l ++ [x]) a b n := by
                intro hh
                rcases (clue_hits_append board l x a b n).1 hh with hh | hh
                · exact hold hh
                · exact hn hh.2.2.symm
              rw [if_neg hn, if_neg hn0, if_neg hnew]
          · have hnew : ¬ clue_hits board (l ++ [x]) a b n := by
              intro hh
              rcases (clue_hits_append board l x a b n).1 hh with hh | hh
              · exact hold hh
              · exact hs hh.2.1
            rw [if_neg hs, if_neg hnew]
    · rw [if_neg hdot]
      refine ⟨e1, e2, e3, fun a ha b hb' n hn1 hn9 => ?_⟩
      rw [e4 a ha b hb' n hn1 hn9]
      have hiff : clue_hits board (l ++ [x]) a b n ↔ clue_hits board l a b n := by
        rw [clue_hits_append]
        constructor
        · rintro (h | h)
          · exact h
          · exact absurd h.1 hdot
        · exact Or.inl
      by_cases hold : clue_hits board l a b n
      · rw [if_pos hold, if_pos (hiff.2 hold)]
      · rw [if_neg hold, if_neg (fun hh => hold (hiff.1 hh))]

/-- What `initial_board` leaves on an input board, whatever the array held: the
board itself, a well-shaped array with right counts, and the flag of digit `n`
at `(a, b)` set exactly when no pre-filled cell that sees `(a, b)` holds `n`. -/
theorem initial_board_spec {board : Board} (hb : is_input board) {d : Domain}
    (hd : is_domain d) :
    (initial_board board d).1 = board
    ∧ is_domain (initial_board board d).2
    ∧ count_ok (initial_board board d).2
    ∧ ∀ a < 9, ∀ b < 9, ∀ n, 1 ≤ n → n ≤ 9 →
        dget (initial_board board d).2 a b n
          = if clue_hits board cells a b n then 0 else 1 := by
  obtain ⟨h1, h2⟩ := init_cells_all hd
  obtain ⟨e1, e2, e3, e4⟩ := init_assign_spec hb h1 (count_ok_init_cells hd) cells
    (fun p hp => (mem_cells p).1 hp)
  refine ⟨e1, e2, e3, fun a ha b hb' n hn1 hn9 => ?_⟩
  show dget (cells.foldl init_assign (board, cells.foldl init_cell d)).2 a b n = _
  rw [e4 a ha b hb' n hn1 hn9, h2 a ha b hb' n (by omega), if_neg (by omega : ¬ n = 0)]

theorem cells_length : cells.length = 81 := by decide

theorem empty_count_le_81 (b : Board) : empty_count b ≤ 81 := by
  unfold empty_count
  rw [← cells_length]
  exact List.length_filter_le _ _

/-- With more fuel than empty cells the result does not depend on the fuel. -/
theorem backtracking_fuel_irrelevant :
    ∀ (fuel fuel' : Nat) (b : Board) (s : SudokuSolver), is_grid b → is_domain s.domain →
      count_ok s.domain → empty_count b < fuel → empty_count b < fuel' →
      backtracking_sudoku fuel' b s = backtracking_sudoku fuel b s := by
  intro fuel
  induction fuel with
  | zero => intro _ b s _ _ _ h; exact absurd h (Nat.not_lt_zero _)
  | succ fuel ih =>
    intro fuel' b s hg hd hc hlt hlt'
    cases fuel' with
    | zero => exact absurd hlt' (Nat.not_lt_zero _)
    | succ fuel' =>
      show backtracking_body (backtracking_sudoku fuel') b s
        = backtracking_body (backtracking_sudoku fuel) b s
      exact (backtracking_body_good hg hd hc
        (fun b' s' hg' hd' hc' hlt'' =>
          ⟨ih fuel' b' s' hg' hd' hc' (by omega) (by omega),
            backtracking_good fuel b' s' hg' hd' hc' (by omega)⟩)).1

/-- Assertions that follow from the facts the proofs maintain never fail: if `P`
holds whenever the callee is entered with a grid that has fewer empty cells
than the caller had and with a well-shaped array whose counts are right, then
the asserting run is the plain run. -/
theorem backtracking_asserting_eq
    (P : Board × SudokuSolver → Board × SudokuSolver → Prop) [∀ x y, Decidable (P x y)]
    (hP : ∀ b s b' s', is_grid b' → is_domain s'.domain → count_ok s'.domain →
      empty_count b' < empty_count b → P (b, s) (b', s')) :
    ∀ (fuel : Nat) (b : Board) (s : SudokuSolver), is_grid b → is_domain s.domain →
      count_ok s.domain → empty_count b < fuel →
      backtracking_asserting P fuel b s = backtracking_sudoku fuel b s := by
  intro fuel
  induction fuel with
  | zero => intro b s _ _ _ h; exact absurd h (Nat.not_lt_zero _)
  | succ fuel ih =>
    intro b s hg hd hc hlt
    show backtracking_body
        (fun b' s' => if P (b, s) (b', s') then backtracking_asserting P fuel b' s' else none)
        b s
      = backtracking_body (backtracking_sudoku fuel) b s
    refine (backtracking_body_good hg hd hc
      (fun b' s' hg' hd' hc' hlt' => ⟨?_, backtracking_good fuel b' s' hg' hd' hc' (by omega)⟩)).1
    show (if P (b, s) (b', s') then backtracking_asserting P fuel b' s' else none) = _
    rw [if_pos (hP b s b' s' hg' hd' hc' hlt'), ih b' s' hg' hd' hc' (by omega)]

/-- The call of `backtracking_sudoku` made by `solve_sudoku` on an input board:
it is entered with the input board and with a well-shaped array whose counts
are right. -/
theorem solve_entry {board : Board} (hb : is_input board) {s : SudokuSolver}
    (hd : is_domain s.domain) :
    solve_sudoku board s
      = backtracking_sudoku 82 board { s with domain := (initial_board board s.domain).2 }
    ∧ is_domain (initial_board board s.domain).2
    ∧ count_ok (initial_board board s.domain).2 := by
  obtain ⟨e1, e2, e3, -⟩ := initial_board_spec hb hd
  refine ⟨?_, e2, e3⟩
  unfold solve_sudoku
  rw [e1]

/-- On an input board `solve_sudoku` returns, with a `good_result`. -/
theorem solve_good {board : Board} (hb : is_input board) {s : SudokuSolver}
    (hd : is_domain s.domain) :
    ∃ r, solve_sudoku board s = some r
      ∧ good_result board { s with domain := (initial_board board s.domain).2 } r := by
  obtain ⟨e, hd', hc'⟩ := solve_entry hb hd
  have h81 := empty_count_le_81 board
  have hfuel : empty_count board < 82 := by omega
  rw [e]
  generalize (initial_board board s.domain).2 = d' at hd' hc' ⊢
  generalize 82 = fuel at hfuel ⊢
  exact backtracking_good fuel board { s with domain := d' } hb.1 hd' hc' hfuel

/-! ## Clue preservation and termination -/

/-- C4 (clue preservation): on an input board `solve_sudoku` returns, and
whatever it returns, every cell that was pre-filled in the input holds the same
character in the final board; only cells that were `'.'` can differ. -/
theorem clue_preservation (board : Board) (s : SudokuSolver) (hb : is_input board)
    (hd : is_domain s.domain) :
    ∃ r, solve_sudoku board s = some r
      ∧ ∀ i < 9, ∀ j < 9, bget board i j ≠ '.' → bget r.2.1 i j = bget board i j := by
  obtain ⟨r, hr, hgood⟩ := solve_good hb hd
  exact ⟨r, hr, fun i _ j _ h => hgood.2.1 i j h⟩

/-- C6 (termination and depth bound): on an input board `solve_sudoku` returns;
the board has at most 81 empty cells; one more nested call than the board has
empty cells is all the depth the run uses; and every recursive call is entered
with strictly fewer `'.'` cells than its caller had on entry (the run with that
assertion at each call is the run itself). -/
theorem termination_depth (board : Board) (s : SudokuSolver) (hb : is_input board)
    (hd : is_domain s.domain) :
    (∃ r, solve_sudoku board s = some r)
    ∧ empty_count board ≤ 81
    ∧ (∀ fuel, empty_count board < fuel →
        backtracking_sudoku fuel (initial_board board s.domain).1
            { s with domain := (initial_board board s.domain).2 }
          = solve_sudoku board s)
    ∧ backtracking_asserting
          (fun caller callee => empty_count callee.1 < empty_count caller.1)
          (empty_count board + 1) (initial_board board s.domain).1
          { s with domain := (initial_board board s.domain).2 }
        = solve_sudoku board s := by
  obtain ⟨e, hd', hc'⟩ := solve_entry hb hd
  obtain ⟨e1, -⟩ := initial_board_spec hb hd
  have h81 := empty_count_le_81 board
  obtain ⟨r, hr, -⟩ := solve_good hb hd
  refine ⟨⟨r, hr⟩, h81, ?_, ?_⟩
  · intro fuel hfuel
    rw [e1, e]
    generalize (initial_board board s.domain).2 = d' at hd' hc' ⊢
    have h82 : empty_count board < 82 := by omega
    generalize 82 = big at h82 ⊢
    exact backtracking_fuel_irrelevant big fuel board { s with domain := d' } hb.1 hd' hc'
      h82 hfuel
  · rw [e1, e]
    generalize (initial_board board s.domain).2 = d' at hd' hc' ⊢
    have h82 : empty_count board < 82 := by omega
    generalize 82 = big at h82 ⊢
    rw [backtracking_asserting_eq
        (fun caller callee => empty_count callee.1 < empty_count caller.1)
        (fun _ _ _ _ _ _ _ h => h) (empty_count board + 1) board { s with domain := d' }
        hb.1 hd' hc' (by omega)]
    exact backtracking_fuel_irrelevant big (empty_count board + 1) board
      { s with domain := d' } hb.1 hd' hc' h82 (by omega)

theorem clue_preservation_witness :
    is_input board_case_1 ∧ is_domain SudokuSolver.fresh.domain
    ∧ ∃ r, solve_sudoku board_case_1 SudokuSolver.fresh = some r
      ∧ ∀ i < 9, ∀ j < 9, bget board_case_1 i j ≠ '.' →
          bget r.2.1 i j = bget board_case_1 i j :=
  ⟨by decide, by decide,
    clue_preservation board_case_1 SudokuSolver.fresh (by decide) (by decide)⟩

theorem termination_depth_witness :
    is_input board_case_3 ∧ is_domain SudokuSolver.fresh.domain
    ∧ (∃ r, solve_sudoku board_case_3 SudokuSolver.fresh = some r)
    ∧ empty_count board_case_3 ≤ 81
    ∧ (∀ fuel, empty_count board_case_3 < fuel →
        backtracking_sudoku fuel (initial_board board_case_3 SudokuSolver.fresh.domain).1
            { SudokuSolver.fresh with
              domain := (initial_board board_case_3 SudokuSolver.fresh.domain).2 }
          = solve_sudoku board_case_3 SudokuSolver.fresh)
    ∧ backtracking_asserting
          (fun caller callee => empty_count callee.1 < empty_count caller.1)
          (empty_count board_case_3 + 1)
          (initial_board board_case_3 SudokuSolver.fresh.domain).1
          { SudokuSolver.fresh with
            domain := (initial_board board_case_3 SudokuSolver.fresh.domain).2 }
        = solve_sudoku board_case_3 SudokuSolver.fresh :=
  ⟨by decide, by decide,
    termination_depth board_case_3 SudokuSolver.fresh (by decide) (by decide)⟩

/-! ## The cached-count invariant -/

/-- C10 (cached-count invariant): `count_ok`, which says that in every cell each
flag is 0 or 1 and entry 0 is the number of flags that are 1, holds after
`initial_board` on an input board; it is preserved by `assign_value(r, c, v)`
for a cell of the grid and a digit `1..9`, the cell `(r, c)` itself included;
it holds at the entry of every call of `backtracking_sudoku` that `solve_sudoku`
makes (the run with that assertion at each call is the run itself); and it
holds when `solve_sudoku` returns. -/
theorem cached_count_invariant (board : Board) (s : SudokuSolver) (board' : Board)
    (d : Domain) (r c v : Nat) (hb : is_input board) (hs : is_domain s.domain)
    (hd : is_domain d) (hr : r < 9) (hc : c < 9) (hv1 : 1 ≤ v) (hv9 : v ≤ 9) :
    count_ok (initial_board board s.domain).2
    ∧ (count_ok d → count_ok (assign_value r c v board' d).2)
    ∧ backtracking_asserting (fun _ callee => count_ok callee.2.domain) 82
          (initial_board board s.domain).1
          { s with domain := (initial_board board s.domain).2 }
        = solve_sudoku board s
    ∧ ∃ res, solve_sudoku board s = some res ∧ count_ok res.2.2.domain := by
  obtain ⟨e, hd', hc'⟩ := solve_entry hb hs
  obtain ⟨e1, -⟩ := initial_board_spec hb hs
  obtain ⟨res, hres, hgood⟩ := solve_good hb hs
  refine ⟨hc', fun hok => count_ok_assign_value hd hok hr hc hv1 hv9 board', ?_,
    res, hres, hgood.2.2.2.1⟩
  rw [e1, e]
  generalize (initial_board board s.domain).2 = d' at hd' hc' ⊢
  have h81 := empty_count_le_81 board
  have h82 : empty_count board < 82 := by omega
  generalize 82 = big at h82 ⊢
  exact backtracking_asserting_eq (fun _ callee => count_ok callee.2.domain)
    (fun _ _ _ _ _ _ h _ => h) big board { s with domain := d' } hb.1 hd' hc' h82

theorem cached_count_invariant_witness :
    is_input board_case_2 ∧ is_domain SudokuSolver.fresh.domain ∧ is_domain full_domain
    ∧ 4 < 9 ∧ 7 < 9 ∧ 1 ≤ 5 ∧ 5 ≤ 9
    ∧ count_ok (initial_board board_case_2 SudokuSolver.fresh.domain).2
    ∧ (count_ok full_domain → count_ok (assign_value 4 7 5 empty_board full_domain).2)
    ∧ backtracking_asserting (fun _ callee => count_ok callee.2.domain) 82
          (initial_board board_case_2 SudokuSolver.fresh.domain).1
          { SudokuSolver.fresh with
            domain := (initial_board board_case_2 SudokuSolver.fresh.domain).2 }
        = solve_sudoku board_case_2 SudokuSolver.fresh
    ∧ ∃ res, solve_sudoku board_case_2 SudokuSolver.fresh = some res
        ∧ count_ok res.2.2.domain :=
  ⟨by decide, by decide, by decide, by decide, by decide, by decide, by decide,
    cached_count_invariant board_case_2 SudokuSolver.fresh empty_board full_domain 4 7 5
      (by decide) (by decide) (by decide) (by decide) (by decide) (by decide) (by decide)⟩

/-! ## Solved grids -/

theorem unit_perm {l : List Char} (hlen : l.length = 9)
    (h : ∀ c ∈ digit_chars, l.count c = 1) : l.Perm digit_chars := by
  have hsub : digit_chars.Subperm l := by
    rw [List.subperm_ext_iff]
    intro x hx
    rw [h x hx]
    have : digit_chars.Nodup := by decide
    exact List.nodup_iff_count_le_one.1 this x
  exact (hsub.perm_of_length_le (by rw [hlen]; decide)).symm

theorem solved_units {full : Board} (h : is_solved full) (u : Nat) (hu : u < 9) :
    (row_chars full u).Perm digit_chars ∧ (col_chars full u).Perm digit_chars
      ∧ (box_chars full u).Perm digit_chars := by
  refine ⟨unit_perm (by simp [row_chars]) (fun c hc => (h u hu c hc).1),
    unit_perm (by simp [col_chars]) (fun c hc => (h u hu c hc).2.1),
    unit_perm (by simp [box_chars]) (fun c hc => (h u hu c hc).2.2)⟩

theorem solved_digit {full : Board} (h : is_solved full) {a c : Nat} (ha : a < 9) (hc : c < 9) :
    bget full a c ∈ digit_chars := by
  have hp := (solved_units h a ha).1
  rw [← hp.mem_iff]
  unfold row_chars
  exact List.mem_map.2 ⟨c, List.mem_range.2 hc, rfl⟩

theorem solved_distinct {full : Board} (h : is_solved full) {a c a' c' : Nat}
    (ha : a < 9) (hc : c < 9) (ha' : a' < 9) (hc' : c' < 9)
    (hne : a' ≠ a ∨ c' ≠ c) (hs : sees a c a' c') : bget full a' c' ≠ bget full a c := by
  have hnd : digit_chars.Nodup := by decide
  intro heq
  rcases hs with hs | hs | hs
  · subst hs
    have hp := (solved_units h a' ha').1
    have hn : (row_chars full a').Nodup := hp.nodup_iff.2 hnd
    have := List.inj_on_of_nodup_map hn (List.mem_range.2 hc') (List.mem_range.2 hc) heq
    rcases hne with h1 | h1
    · exact h1 rfl
    · exact h1 this
  · subst hs
    have hp := (solved_units h c' hc').2.1
    have hn : (col_chars full c').Nodup := hp.nodup_iff.2 hnd
    have := List.inj_on_of_nodup_map hn (List.mem_range.2 ha') (List.mem_range.2 ha) heq
    rcases hne with h1 | h1
    · exact h1 this
    · exact h1 rfl
  · have hq : (a / 3) * 3 + c / 3 < 9 := by omega
    have hp := (solved_units h ((a / 3) * 3 + c / 3) hq).2.2
    have hn : (box_chars full ((a / 3) * 3 + c / 3)).Nodup := hp.nodup_iff.2 hnd
    have hk : (a % 3) * 3 + c % 3 < 9 := by omega
    have hk' : (a' % 3) * 3 + c' % 3 < 9 := by omega
    have e1 : ((a / 3) * 3 + c / 3) / 3 * 3 + ((a % 3) * 3 + c % 3) / 3 = a := by omega
    have e2 : ((a / 3) * 3 + c / 3) % 3 * 3 + ((a % 3) * 3 + c % 3) % 3 = c := by omega
    have e3 : ((a / 3) * 3 + c / 3) / 3 * 3 + ((a' % 3) * 3 + c' % 3) / 3 = a' := by omega
    have e4 : ((a / 3) * 3 + c / 3) % 3 * 3 + ((a' % 3) * 3 + c' % 3) % 3 = c' := by omega
    have heq' : (fun k => bget full (((a / 3) * 3 + c / 3) / 3 * 3 + k / 3)
          (((a / 3) * 3 + c / 3) % 3 * 3 + k % 3)) ((a' % 3) * 3 + c' % 3)
        = (fun k => bget full (((a / 3) * 3 + c / 3) / 3 * 3 + k / 3)
          (((a / 3) * 3 + c / 3) % 3 * 3 + k % 3)) ((a % 3) * 3 + c % 3) := by
      show bget full _ _ = bget full _ _
      rw [e1, e2, e3, e4]; exact heq
    have := List.inj_on_of_nodup_map hn (List.mem_range.2 hk') (List.mem_range.2 hk) heq'
    omega

theorem cell_digit_range {full : Board} (h : is_solved full) {a c : Nat} (ha : a < 9)
    (hc : c < 9) : 1 ≤ cell_digit full a c ∧ cell_digit full a c ≤ 9 := by
  obtain ⟨h1, h9, -, -⟩ := digit_of_mem (solved_digit h ha hc)
  exact ⟨h1, h9⟩

theorem cell_digit_distinct {full : Board} (h : is_solved full) {a c a' c' : Nat}
    (ha : a < 9) (hc : c < 9) (ha' : a' < 9) (hc' : c' < 9)
    (hne : a' ≠ a ∨ c' ≠ c) (hs : sees a c a' c') :
    cell_digit full a' c' ≠ cell_digit full a c := by
  intro heq
  apply solved_distinct h ha hc ha' hc' hne hs
  obtain ⟨-, -, r1, -⟩ := digit_of_mem (solved_digit h ha hc)
  obtain ⟨-, -, r2, -⟩ := digit_of_mem (solved_digit h ha' hc')
  unfold cell_digit at heq
  rw [← r1, ← r2, heq]

/-! ## Completeness of the search -/

theorem count_ne_zero_of_flag {d : Domain} (hc : count_ok d) {a c n : Nat} (ha : a < 9)
    (hc' : c < 9) (hn1 : 1 ≤ n) (hn9 : n ≤ 9) (hflag : dget d a c n = 1) :
    dget d a c 0 ≠ 0 := by
  obtain ⟨hf, hcnt⟩ := hc a ha c hc'
  rw [num_candidates_sum hf] at hcnt
  have nn : ∀ k, 1 ≤ k → k ≤ 9 → 0 ≤ dget d a c k := by
    intro k h1 h9
    rcases hf k h1 h9 with h | h <;> omega
  have n1 := nn 1 (by omega) (by omega)
  have n2 := nn 2 (by omega) (by omega)
  have n3 := nn 3 (by omega) (by omega)
  have n4 := nn 4 (by omega) (by omega)
  have n5 := nn 5 (by omega) (by omega)
  have n6 := nn 6 (by omega) (by omega)
  have n7 := nn 7 (by omega) (by omega)
  have n8 := nn 8 (by omega) (by omega)
  have n9 := nn 9 (by omega) (by omega)
  have hn : n = 1 ∨ n = 2 ∨ n = 3 ∨ n = 4 ∨ n = 5 ∨ n = 6 ∨ n = 7 ∨ n = 8 ∨ n = 9 := by
    omega
  clear hf nn
  rcases hn with rfl | rfl | rfl | rfl | rfl | rfl | rfl | rfl | rfl <;> omega

theorem forward_checking_of_allows {full b : Board} {d : Domain} (hfull : is_solved full)
    (hc : count_ok d) (hal : allows full b d) : forward_checking b d = true := by
  unfold forward_checking
  rw [List.all_eq_true]
  intro p hp
  obtain ⟨h1, h2⟩ := (mem_cells p).1 hp
  by_cases hdot : bget b p.1 p.2 = '.'
  · have hr := cell_digit_range hfull h1 h2
    have := count_ne_zero_of_flag hc h1 h2 hr.1 hr.2 (hal p.1 h1 p.2 h2 hdot)
    simp [hdot, this]
  · simp [hdot]

theorem allows_assign {full b bcur : Board} {d : Domain} (hfull : is_solved full)
    (hd : is_domain d) (hal : allows full b d) (hg : is_grid bcur) (hk : keeps b bcur)
    {i j : Nat} (hi : i < 9) (hj : j < 9) :
    allows full (assign_value i j (cell_digit full i j) bcur d).1
      (assign_value i j (cell_digit full i j) bcur d).2 := by
  intro a ha c hc hdot
  have hr := cell_digit_range hfull hi hj
  have hr' := cell_digit_range hfull ha hc
  rw [assign_value_fst, bget_bset_grid hg hi hj] at hdot
  by_cases hac : a = i ∧ c = j
  · rw [if_pos hac] at hdot
    exact absurd hdot (digit_char_ne_dot hr.1 hr.2)
  · rw [if_neg hac] at hdot
    have hbdot : bget b a c = '.' := by
      by_contra hne
      rw [hk a c hne] at hdot
      exact hne hdot
    rw [dget_assign_value hd hi hj hr.1 hr.2 bcur ha hc]
    by_cases hs : sees i j a c
    · have hne : cell_digit full a c ≠ cell_digit full i j :=
        cell_digit_distinct hfull hi hj ha hc (by
          by_contra hh
          push_neg at hh
          exact hac hh) hs
      rw [if_pos hs, if_neg hne, if_neg (by omega)]
      exact hal a ha c hc hbdot
    · rw [if_neg hs]
      exact hal a ha c hc hbdot

/-- The loop of `backtracking_sudoku` on the empty cell `(i, j)` when the saved
array still allows a solved grid `full` on the entry board: as long as the digit
of `full` at `(i, j)` is among the values still to be tried, the loop returns
`true`, provided recursive calls on boards that allow `full` return `true`. -/
theorem try_values_complete {recurse : Board → SudokuSolver → Option Outcome}
    {full b : Board} {i j : Nat} {temp : Domain} (deg : Int) (hfull : is_solved full)
    (hi : i < 9) (hj : j < 9) (hdot : bget b i j = '.')
    (htemp : is_domain temp) (hok : count_ok temp) (hal : allows full b temp)
    (Hrec : ∀ b' s', is_grid b' → is_domain s'.domain → count_ok s'.domain →
        empty_count b' < empty_count b →
        ∃ r, recurse b' s' = some r ∧ good_result b' s' r
          ∧ (allows full b' s'.domain → r.1 = true)) :
    ∀ (nums : List Nat), (∀ n ∈ nums, 1 ≤ n ∧ n ≤ 9) → cell_digit full i j ∈ nums →
      ∀ (bcur : Board) (scur : SudokuSolver),
      is_grid bcur → keeps b bcur → scur.domain = temp →
      ∃ r, try_values recurse ((i : Int), (j : Int)) deg temp nums bcur scur = some r
        ∧ r.1 = true := by
  intro nums
  induction nums with
  | nil => intro _ hmem; exact absurd hmem (List.not_mem_nil _)
  | cons num rest ih =>
    intro hn hmem bcur scur hg hk hs
    have hnum := hn num (List.mem_cons_self _ _)
    have hrest : ∀ n ∈ rest, 1 ≤ n ∧ n ≤ 9 := fun n h => hn n (List.mem_cons_of_mem _ h)
    have hmem' : num ≠ cell_digit full i j → cell_digit full i j ∈ rest := by
      intro hne
      rcases List.mem_cons.1 hmem with h | h
      · exact absurd h.symm hne
      · exact h
    rw [try_values_cons]
    simp only [Int.toNat_ofNat]
    by_cases hflag : dget scur.domain i j num = 1
    · rw [if_pos hflag]
      have hd : is_domain scur.domain := by rw [hs]; exact htemp
      have hc : count_ok scur.domain := by rw [hs]; exact hok
      have hg1 : is_grid (assign_value i j num bcur scur.domain).1 :=
        is_grid_bset hg _ _ _
      have hk1 : keeps b (assign_value i j num bcur scur.domain).1 := keeps_bset hk hdot _
      have hd1 : is_domain (assign_value i j num bcur scur.domain).2 :=
        is_domain_assign_value hd _ _ _ _
      have hc1 : count_ok (assign_value i j num bcur scur.domain).2 :=
        count_ok_assign_value hd hc hi hj hnum.1 hnum.2 _
      have hcell : bget (assign_value i j num bcur scur.domain).1 i j ≠ '.' := by
        rw [assign_value_fst, bget_bset_grid hg hi hj, if_pos ⟨rfl, rfl⟩]
        exact digit_char_ne_dot hnum.1 hnum.2
      have hlt : empty_count (assign_value i j num bcur scur.domain).1 < empty_count b :=
        empty_count_lt hk1 hi hj hdot hcell
      have hal1 : num = cell_digit full i j →
          allows full (assign_value i j num bcur scur.domain).1
            (assign_value i j num bcur scur.domain).2 := by
        intro e
        rw [e, hs]
        exact allows_assign hfull htemp hal hg hk hi hj
      clear hcell
      unfold try_value
      simp only [Int.toNat_ofNat]
      generalize assign_value i j num bcur scur.domain = av at hg1 hk1 hd1 hc1 hlt hal1 ⊢
      by_cases hfc : forward_checking av.1 av.2 = true
      · rw [if_pos hfc]
        obtain ⟨r, hr, hgood, htrue⟩ :=
          Hrec av.1
            (record_results { scur with domain := av.2 }
              ((i : Int), (j : Int)) av.1 (dget scur.domain i j 0) deg num)
            hg1 hd1 hc1 hlt
        rw [hr]
        by_cases hres : r.1 = true
        · refine ⟨r, ?_, hres⟩
          simp only [if_pos hres]
        · simp only [if_neg hres]
          have hne : num ≠ cell_digit full i j := fun e => hres (htrue (hal1 e))
          exact ih hrest (hmem' hne) r.2.1 { r.2.2 with domain := temp } hgood.1
            (keeps_trans hk1 hgood.2.1) rfl
      · rw [if_neg hfc]
        simp only [Bool.false_eq_true, if_false]
        have hne : num ≠ cell_digit full i j :=
          fun e => hfc (forward_checking_of_allows hfull hc1 (hal1 e))
        exact ih hrest (hmem' hne) _ _ hg1 hk1 rfl
    · rw [if_neg hflag]
      have hne : num ≠ cell_digit full i j := by
        intro e
        apply hflag
        rw [hs, e]
        exact hal i hi j hj hdot
      exact ih hrest (hmem' hne) bcur scur hg hk hs

/-- With enough fuel, `backtracking_sudoku` returns `true` on every board whose
array still allows some solved grid. -/
theorem backtracking_complete {full : Board} (hfull : is_solved full) :
    ∀ (fuel : Nat) (b : Board) (s : SudokuSolver), is_grid b → is_domain s.domain →
      count_ok s.domain → empty_count b < fuel → allows full b s.domain →
      ∃ r, backtracking_sudoku fuel b s = some r ∧ r.1 = true := by
  intro fuel
  induction fuel with
  | zero => intro b s _ _ _ h; exact absurd h (Nat.not_lt_zero _)
  | succ fuel ih =>
    intro b s hg hd hc hlt hal
    show ∃ r, backtracking_body (backtracking_sudoku fuel) b s = some r ∧ r.1 = true
    unfold backtracking_body
    by_cases h1 : (minimum_remaining_values b s.domain).1.1 = -1
        ∧ (minimum_remaining_values b s.domain).1.2 = -1
    · rw [if_pos h1]
      exact ⟨_, rfl, rfl⟩
    · rw [if_neg h1]
      obtain ⟨i, hi, j, hj, hdot, hcell⟩ := mrv_cell_of_not_sentinel b s.domain h1
      rw [hcell]
      simp only [Int.toNat_ofNat]
      have hr := cell_digit_range hfull hi hj
      have h2 : ¬ dget s.domain i j 0 = 0 :=
        count_ne_zero_of_flag hc hi hj hr.1 hr.2 (hal i hi j hj hdot)
      rw [if_neg h2]
      have hnums : ∀ n ∈ List.range' 1 9, 1 ≤ n ∧ n ≤ 9 := by
        intro n hn
        rw [List.mem_range'_1] at hn
        omega
      have hmem : cell_digit full i j ∈ List.range' 1 9 := by
        rw [List.mem_range'_1]; omega
      refine try_values_complete (degree_heuristic b i j) hfull hi hj hdot hd hc hal ?_
        (List.range' 1 9) hnums hmem b s hg (keeps_refl b) rfl
      intro b' s' hg' hd' hc' hlt'
      obtain ⟨r, hr, hgood⟩ := backtracking_good fuel b' s' hg' hd' hc' (by omega)
      refine ⟨r, hr, hgood, fun hal' => ?_⟩
      obtain ⟨r', hr', htrue⟩ := ih b' s' hg' hd' hc' (by omega) hal'
      rw [hr] at hr'
      rw [Option.some.inj hr']
      exact htrue

/-- After `initial_board` every empty cell still has the digit of any valid
completion among its candidates. -/
theorem allows_initial {board full : Board} (hb : is_input board)
    (hfull : is_completion full board) {d : Domain} (hd : is_domain d) :
    allows full board (initial_board board d).2 := by
  obtain ⟨-, -, -, hflags⟩ := initial_board_spec hb hd
  intro a ha c hc hdot
  have hr := cell_digit_range hfull.2.1 ha hc
  rw [hflags a ha c hc _ hr.1 hr.2, if_neg]
  rintro ⟨p, hp, hclue, hs, hdig⟩
  obtain ⟨hp1, hp2⟩ := (mem_cells p).1 hp
  have hne : a ≠ p.1 ∨ c ≠ p.2 := by
    by_contra hh
    push_neg at hh
    rw [hh.1, hh.2] at hdot
    exact hclue hdot
  have := cell_digit_distinct hfull.2.1 hp1 hp2 ha hc hne hs
  apply this
  unfold cell_digit at hdig ⊢
  rw [hfull.2.2 p.1 hp1 p.2 hp2 hclue]
  exact hdig.symm

/-- C2 (completeness): on an input board that has a valid completion (a solved
grid that agrees with every clue), `solve_sudoku` returns `true`. -/
theorem completeness (board : Board) (s : SudokuSolver) (full : Board)
    (hb : is_input board) (hd : is_domain s.domain) (hfull : is_completion full board) :
    ∃ r, solve_sudoku board s = some r ∧ r.1 = true := by
  obtain ⟨e, hd', hc'⟩ := solve_entry hb hd
  have hal := allows_initial hb hfull hd
  have h81 := empty_count_le_81 board
  have h82 : empty_count board < 82 := by omega
  rw [e]
  generalize (initial_board board s.domain).2 = d' at hd' hc' hal ⊢
  generalize 82 = big at h82 ⊢
  exact backtracking_complete hfull.2.1 big board { s with domain := d' } hb.1 hd' hc' h82 hal

theorem completeness_witness :
    is_input board_case_1 ∧ is_domain SudokuSolver.fresh.domain
    ∧ is_completion solution_case_1 board_case_1
    ∧ ∃ r, solve_sudoku board_case_1 SudokuSolver.fresh = some r ∧ r.1 = true :=
  ⟨by decide, by decide, by decide,
    completeness board_case_1 SudokuSolver.fresh solution_case_1
      (by decide) (by decide) (by decide)⟩

/-! ## A grid with a single blank -/

theorem backtracking_succ (fuel : Nat) (b : Board) (s : SudokuSolver) :
    backtracking_sudoku (fuel + 1) b s
      = backtracking_body (backtracking_sudoku fuel) b s := rfl

theorem backtracking_no_dots (fuel : Nat) {b : Board} (s : SudokuSolver)
    (h : ∀ i < 9, ∀ j < 9, bget b i j ≠ '.') :
    backtracking_sudoku (fuel + 1) b s = some (true, b, s) := by
  rw [backtracking_succ]
  unfold backtracking_body minimum_remaining_values
  rw [mrv_scan_none b s.domain h]
  rfl

theorem forward_checking_no_dots {b : Board} (d : Domain)
    (h : ∀ i < 9, ∀ j < 9, bget b i j ≠ '.') : forward_checking b d = true := by
  unfold forward_checking
  rw [List.all_eq_true]
  intro p hp
  obtain ⟨h1, h2⟩ := (mem_cells p).1 hp
  simp [h p.1 h1 p.2 h2]

theorem count_le_nine {d : Domain} (hc : count_ok d) {a c : Nat} (ha : a < 9) (hc' : c < 9) :
    dget d a c 0 ≤ 9 := by
  obtain ⟨hf, hcnt⟩ := hc a ha c hc'
  rw [num_candidates_sum hf] at hcnt
  have nn : ∀ k, 1 ≤ k → k ≤ 9 → dget d a c k ≤ 1 := by
    intro k h1 h9
    rcases hf k h1 h9 with h | h <;> omega
  have n1 := nn 1 (by omega) (by omega)
  have n2 := nn 2 (by omega) (by omega)
  have n3 := nn 3 (by omega) (by omega)
  have n4 := nn 4 (by omega) (by omega)
  have n5 := nn 5 (by omega) (by omega)
  have n6 := nn 6 (by omega) (by omega)
  have n7 := nn 7 (by omega) (by omega)
  have n8 := nn 8 (by omega) (by omega)
  have n9 := nn 9 (by omega) (by omega)
  clear hf nn
  omega

/-- The loop of `backtracking_sudoku` when a single value `t` is a candidate of
the cell and the attempt with `t` returns `true`. -/
theorem try_values_single (recurse : Board → SudokuSolver → Option Outcome)
    (cell : Int × Int) (deg : Int) (temp : Domain) (t : Nat) (b : Board) (s : SudokuSolver)
    (r : Outcome) (hflag : dget s.domain cell.1.toNat cell.2.toNat t = 1)
    (htry : try_value recurse cell deg t b s = some r) (hres : r.1 = true) :
    ∀ nums : List Nat, t ∈ nums →
      (∀ n ∈ nums, n ≠ t → dget s.domain cell.1.toNat cell.2.toNat n ≠ 1) →
      try_values recurse cell deg temp nums b s = some r := by
  intro nums
  induction nums with
  | nil => intro h; exact absurd h (List.not_mem_nil _)
  | cons num rest ih =>
    intro hmem hother
    rw [try_values_cons]
    by_cases hnum : num = t
    · subst hnum
      rw [if_pos hflag, htry]
      simp only [if_pos hres]
    · rw [if_neg (hother num (List.mem_cons_self _ _) hnum)]
      rcases List.mem_cons.1 hmem with h | h
      · exact absurd h.symm hnum
      · exact ih h (fun n hn => hother n (List.mem_cons_of_mem _ hn))

theorem digit_toNat {n : Nat} (h1 : 1 ≤ n) (h9 : n ≤ 9) : (Char.ofNat (n + 48)).toNat - 48 = n := by
  interval_cases n <;> decide

/-- C5 (single-blank scenario): for a solved grid with exactly one cell replaced
by `'.'`, `solve_sudoku` on a fresh solver returns `true`, the final board is
the solved grid, and the trace holds exactly one record: the blank cell, domain
size 1 and the missing digit, with the grid as board snapshot. -/
theorem single_blank (grid : Board) (i j : Nat) (hg : is_grid grid) (hsol : is_solved grid)
    (hi : i < 9) (hj : j < 9) :
    ∃ s', solve_sudoku (bset grid i j '.') SudokuSolver.fresh = some (true, grid, s')
      ∧ s'.res_selected_variable = [((i : Int), (j : Int))]
      ∧ s'.res_domain_size = [1]
      ∧ s'.res_value_assign = [(cell_digit grid i j : Int)]
      ∧ s'.res_board = [grid]
      ∧ s'.res_degree_selected_variable.length = 1 := by
  have hnodot : ∀ a < 9, ∀ c < 9, bget grid a c ≠ '.' :=
    fun a ha c hc => (digit_of_mem (solved_digit hsol ha hc)).2.2.2
  have hij : bget (bset grid i j '.') i j = '.' := by
    rw [bget_bset_grid hg hi hj, if_pos ⟨rfl, rfl⟩]
  have hoth : ∀ a c, (a ≠ i ∨ c ≠ j) → bget (bset grid i j '.') a c = bget grid a c := by
    intro a c hne
    rw [bget_bset_grid hg hi hj, if_neg]
    rintro ⟨h1, h2⟩
    rcases hne with h | h
    · exact h h1
    · exact h h2
  have honly : ∀ a < 9, ∀ c < 9, bget (bset grid i j '.') a c = '.' → a = i ∧ c = j := by
    intro a ha c hc hdot
    by_contra hne
    have hne' : a ≠ i ∨ c ≠ j := by
      by_contra hh
      push_neg at hh
      exact hne hh
    rw [hoth a c hne'] at hdot
    exact hnodot a ha c hc hdot
  have hgb : is_grid (bset grid i j '.') := is_grid_bset hg _ _ _
  have hinput : is_input (bset grid i j '.') := by
    refine ⟨hgb, fun a ha c hc => ?_⟩
    by_cases hac : a = i ∧ c = j
    · left; rw [hac.1, hac.2]; exact hij
    · right
      have hne' : a ≠ i ∨ c ≠ j := by
        by_contra hh
        push_neg at hh
        exact hac hh
      rw [hoth a c hne']
      exact solved_digit hsol ha hc
  have hfresh : is_domain SudokuSolver.fresh.domain := by decide
  obtain ⟨e1, hd0, hc0, hflags⟩ := initial_board_spec hinput hfresh
  have ht := cell_digit_range hsol hi hj
  obtain ⟨-, -, hround, -⟩ := digit_of_mem (solved_digit hsol hi hj)
  -- the candidates of the blank cell after `initial_board`
  have hflag : ∀ n, 1 ≤ n → n ≤ 9 →
      dget (initial_board (bset grid i j '.') SudokuSolver.fresh.domain).2 i j n
        = if n = cell_digit grid i j then 1 else 0 := by
    intro n hn1 hn9
    rw [hflags i hi j hj n hn1 hn9]
    by_cases hn : n = cell_digit grid i j
    · rw [if_pos hn, if_neg]
      rintro ⟨p, hp, hclue, hs, hdig⟩
      obtain ⟨hp1, hp2⟩ := (mem_cells p).1 hp
      have hne : p.1 ≠ i ∨ p.2 ≠ j := by
        by_contra hh
        push_neg at hh
        rw [hh.1, hh.2] at hclue
        exact hclue hij
      have hne' : i ≠ p.1 ∨ j ≠ p.2 := by
        rcases hne with h | h
        · left; exact fun e => h e.symm
        · right; exact fun e => h e.symm
      apply cell_digit_distinct hsol hp1 hp2 hi hj hne' hs
      rw [hoth p.1 p.2 hne] at hdig
      unfold cell_digit at hn ⊢
      rw [hdig, hn]
    · rw [if_neg hn, if_pos]
      have hmem : Char.ofNat (n + 48) ∈ row_chars grid i := by
        rw [(solved_units hsol i hi).1.mem_iff]
        exact digit_char_mem hn1 hn9
      unfold row_chars at hmem
      obtain ⟨c, hc, hcell⟩ := List.mem_map.1 hmem
      rw [List.mem_range] at hc
      have hcj : c ≠ j := by
        intro e
        apply hn
        unfold cell_digit
        rw [← e, hcell, digit_toNat hn1 hn9]
      refine ⟨(i, c), (mem_cells (i, c)).2 ⟨hi, hc⟩, ?_, Or.inl rfl, ?_⟩
      · show bget (bset grid i j '.') i c ≠ '.'
        rw [hoth i c (Or.inr hcj)]
        exact hnodot i hi c hc
      · show (bget (bset grid i j '.') i c).toNat - 48 = n
        rw [hoth i c (Or.inr hcj), hcell, digit_toNat hn1 hn9]
  have hcount : dget (initial_board (bset grid i j '.') SudokuSolver.fresh.domain).2 i j 0
      = 1 := by
    obtain ⟨hf, hcnt⟩ := hc0 i hi j hj
    rw [hcnt, num_candidates_sum hf, hflag 1 (by omega) (by omega),
      hflag 2 (by omega) (by omega), hflag 3 (by omega) (by omega),
      hflag 4 (by omega) (by omega), hflag 5 (by omega) (by omega),
      hflag 6 (by omega) (by omega), hflag 7 (by omega) (by omega),
      hflag 8 (by omega) (by omega), hflag 9 (by omega) (by omega)]
    have hn : cell_digit grid i j = 1 ∨ cell_digit grid i j = 2 ∨ cell_digit grid i j = 3
        ∨ cell_digit grid i j = 4 ∨ cell_digit grid i j = 5 ∨ cell_digit grid i j = 6
        ∨ cell_digit grid i j = 7 ∨ cell_digit grid i j = 8 ∨ cell_digit grid i j = 9 := by
      omega
    rcases hn with h | h | h | h | h | h | h | h | h <;> rw [h] <;> norm_num
  -- the selector returns the blank cell
  obtain ⟨a, ha, c, hc, hdot, hst, -⟩ :=
    mrv_scan_some (bset grid i j '.')
      (initial_board (bset grid i j '.') SudokuSolver.fresh.domain).2
      (fun a ha c hc => count_le_nine hc0 ha hc) ⟨i, hi, j, hj, hij⟩
  obtain ⟨rfl, rfl⟩ := honly a ha c hc hdot
  have hmrv : minimum_remaining_values (bset grid a c '.')
      (initial_board (bset grid a c '.') SudokuSolver.fresh.domain).2
        = (((a : Int), (c : Int)), degree_heuristic (bset grid a c '.') a c) := by
    unfold minimum_remaining_values
    rw [hst]
  -- the board after the assignment is the grid
  have hback : (assign_value a c (cell_digit grid a c) (bset grid a c '.')
      (initial_board (bset grid a c '.') SudokuSolver.fresh.domain).2).1 = grid := by
    rw [assign_value_fst]
    apply board_ext (is_grid_bset hgb _ _ _) hg
    intro x hx y hy
    rw [bget_bset_grid hgb hi hj]
    by_cases hxy : x = a ∧ y = c
    · rw [if_pos hxy, hxy.1, hxy.2]
      exact hround
    · rw [if_neg hxy]
      apply hoth
      by_contra hh
      push_neg at hh
      exact hxy hh
  unfold solve_sudoku
  rw [e1]
  generalize (initial_board (bset grid a c '.') SudokuSolver.fresh.domain).2 = d0
    at hflag hcount hback hmrv ⊢
  rw [show (82 : Nat) = 81 + 1 from rfl, backtracking_succ]
  unfold backtracking_body
  rw [hmrv]
  simp only [Int.toNat_ofNat]
  rw [if_neg (by omega), hcount, if_neg (by decide)]
  have htry : try_value (backtracking_sudoku 81) ((a : Int), (c : Int))
      (degree_heuristic (bset grid a c '.') a c) (cell_digit grid a c) (bset grid a c '.')
      { SudokuSolver.fresh with domain := d0 }
      = some (true, grid,
          record_results
            { SudokuSolver.fresh with
              domain := (assign_value a c (cell_digit grid a c) (bset grid a c '.') d0).2 }
            ((a : Int), (c : Int)) grid 1
            (degree_heuristic (bset grid a c '.') a c) (cell_digit grid a c)) := by
    unfold try_value
    simp only [Int.toNat_ofNat]
    rw [hback, hcount, forward_checking_no_dots _ hnodot, if_pos rfl,
      show (81 : Nat) = 80 + 1 from rfl, backtracking_no_dots 80 _ hnodot]
  refine ⟨_, try_values_single (backtracking_sudoku 81) ((a : Int), (c : Int)) _ d0
    (cell_digit grid a c) (bset grid a c '.') { SudokuSolver.fresh with domain := d0 } _
    ?_ htry rfl (List.range' 1 9) ?_ ?_, rfl, rfl, rfl, rfl, rfl⟩
  · simp only [Int.toNat_ofNat]
    rw [hflag _ ht.1 ht.2, if_pos rfl]
  · rw [List.mem_range'_1]; omega
  · intro n hn hne
    rw [List.mem_range'_1] at hn
    simp only [Int.toNat_ofNat]
    rw [hflag n (by omega) (by omega), if_neg hne]
    decide

theorem single_blank_witness :
    is_grid solution_case_1 ∧ is_solved solution_case_1 ∧ 4 < 9 ∧ 7 < 9
    ∧ ∃ s', solve_sudoku (bset solution_case_1 4 7 '.') SudokuSolver.fresh
          = some (true, solution_case_1, s')
      ∧ s'.res_selected_variable = [(((4 : Nat) : Int), ((7 : Nat) : Int))]
      ∧ s'.res_domain_size = [1]
      ∧ s'.res_value_assign = [(cell_digit solution_case_1 4 7 : Int)]
      ∧ s'.res_board = [solution_case_1]
      ∧ s'.res_degree_selected_variable.length = 1 :=
  ⟨by decide, by decide, by decide, by decide,
    single_blank solution_case_1 4 7 (by decide) (by decide) (by decide) (by decide)⟩

theorem domain_ext {d d' : Domain} (h : is_domain d) (h' : is_domain d')
    (e : ∀ a < 9, ∀ b < 9, ∀ n < 10, dget d a b n = dget d' a b n) : d = d' := by
  apply List.ext_getElem (by rw [h.1, h'.1])
  intro a h1 h2
  have ha : a < 9 := by rw [h.1] at h1; exact h1
  have r1 : d.getD a [] = d[a] := List.getD_eq_getElem d [] h1
  have r2 : d'.getD a [] = d'[a] := List.getD_eq_getElem d' [] h2
  have l1 : (d[a]).length = 9 := by rw [← r1]; exact (h.2 a ha).1
  have l2 : (d'[a]).length = 9 := by rw [← r2]; exact (h'.2 a ha).1
  apply List.ext_getElem (by rw [l1, l2])
  intro b h3 h4
  have hb : b < 9 := by rw [l1] at h3; exact h3
  have r3 : (d[a]).getD b [] = (d[a])[b] := List.getD_eq_getElem _ [] h3
  have r4 : (d'[a]).getD b [] = (d'[a])[b] := List.getD_eq_getElem _ [] h4
  have l3 : ((d[a])[b]).length = 10 := by rw [← r3, ← r1]; exact (h.2 a ha).2 b hb
  have l4 : ((d'[a])[b]).length = 10 := by rw [← r4, ← r2]; exact (h'.2 a ha).2 b hb
  apply List.ext_getElem (by rw [l3, l4])
  intro n h5 h6
  have hn : n < 10 := by rw [l3] at h5; exact h5
  have := e a ha b hb n hn
  unfold dget at this
  rw [r1, r2, r3, r4, List.getD_eq_getElem _ _ h5, List.getD_eq_getElem _ _ h6] at this
  exact this

/-- The result of `initial_board` on an input board is the board and any
well-shaped array with right counts whose flags are those of
`initial_board_spec`. -/
theorem initial_board_eq {board : Board} (hb : is_input board) {d : Domain}
    (hd : is_domain d) {d0 : Domain} (h0 : is_domain d0) (hc : count_ok d0)
    (hf : ∀ a < 9, ∀ b < 9, ∀ n < 10, 1 ≤ n →
      dget d0 a b n = if clue_hits board cells a b n then 0 else 1) :
    initial_board board d = (board, d0) := by
  obtain ⟨e1, e2, e3, e4⟩ := initial_board_spec hb hd
  have hflag : ∀ a < 9, ∀ b < 9, ∀ n, 1 ≤ n → n ≤ 9 →
      dget (initial_board board d).2 a b n = dget d0 a b n := by
    intro a ha b hb' n hn1 hn9
    rw [e4 a ha b hb' n hn1 hn9, hf a ha b hb' n (by omega) hn1]
  refine Prod.ext e1 (domain_ext e2 h0 (fun a ha b hb' n hn => ?_))
  by_cases hn0 : n = 0
  · subst hn0
    rw [(e3 a ha b hb').2, (hc a ha b hb').2, num_candidates_sum (e3 a ha b hb').1,
      num_candidates_sum (hc a ha b hb').1, hflag a ha b hb' 1 (by omega) (by omega),
      hflag a ha b hb' 2 (by omega) (by omega), hflag a ha b hb' 3 (by omega) (by omega),
      hflag a ha b hb' 4 (by omega) (by omega), hflag a ha b hb' 5 (by omega) (by omega),
      hflag a ha b hb' 6 (by omega) (by omega), hflag a ha b hb' 7 (by omega) (by omega),
      hflag a ha b hb' 8 (by omega) (by omega), hflag a ha b hb' 9 (by omega) (by omega)]
  · exact hflag a ha b hb' n (by omega) (by omega)

/-! ## Initialisation result and independence of the prior state -/

theorem clue_hits_iff {board : Board} (hb : is_input board) {l : List (Nat × Nat)}
    (hl : ∀ p, p ∈ l ↔ p.1 < 9 ∧ p.2 < 9) {i j n : Nat} (hn1 : 1 ≤ n) (hn9 : n ≤ 9) :
    clue_hits board l i j n
      ↔ ∃ a < 9, ∃ b < 9, sees a b i j ∧ bget board a b = Char.ofNat (n + 48) := by
  constructor
  · rintro ⟨p, hp, hclue, hs, hdig⟩
    obtain ⟨h1, h2⟩ := (hl p).1 hp
    refine ⟨p.1, h1, p.2, h2, hs, ?_⟩
    rcases hb.2 p.1 h1 p.2 h2 with h | h
    · exact absurd h hclue
    · obtain ⟨-, -, hround, -⟩ := digit_of_mem h
      rw [← hround, hdig]
  · rintro ⟨a, ha, b, hb', hs, hcell⟩
    refine ⟨(a, b), (hl (a, b)).2 ⟨ha, hb'⟩, ?_, hs, ?_⟩
    · show bget board a b ≠ '.'
      rw [hcell]; exact digit_char_ne_dot hn1 hn9
    · show (bget board a b).toNat - 48 = n
      rw [hcell]; exact digit_toNat hn1 hn9

theorem clue_hits_perm (board : Board) {l l' : List (Nat × Nat)} (h : l.Perm l')
    (a b n : Nat) : clue_hits board l a b n ↔ clue_hits board l' a b n := by
  unfold clue_hits
  constructor
  · rintro ⟨p, hp, hh⟩; exact ⟨p, h.mem_iff.1 hp, hh⟩
  · rintro ⟨p, hp, hh⟩; exact ⟨p, h.mem_iff.2 hp, hh⟩

/-- Two well-shaped arrays with right counts and the same flags are equal. -/
theorem domain_eq_of_flags {d d' : Domain} (h : is_domain d) (h' : is_domain d')
    (hc : count_ok d) (hc' : count_ok d')
    (hflag : ∀ a < 9, ∀ b < 9, ∀ n, 1 ≤ n → n ≤ 9 → dget d a b n = dget d' a b n) :
    d = d' := by
  refine domain_ext h h' (fun a ha b hb n hn => ?_)
  by_cases hn0 : n = 0
  · subst hn0
    rw [(hc a ha b hb).2, (hc' a ha b hb).2, num_candidates_sum (hc a ha b hb).1,
      num_candidates_sum (hc' a ha b hb).1, hflag a ha b hb 1 (by omega) (by omega),
      hflag a ha b hb 2 (by omega) (by omega), hflag a ha b hb 3 (by omega) (by omega),
      hflag a ha b hb 4 (by omega) (by omega), hflag a ha b hb 5 (by omega) (by omega),
      hflag a ha b hb 6 (by omega) (by omega), hflag a ha b hb 7 (by omega) (by omega),
      hflag a ha b hb 8 (by omega) (by omega), hflag a ha b hb 9 (by omega) (by omega)]
  · exact hflag a ha b hb n (by omega) (by omega)

theorem num_candidates_countP (d : Domain) (i j : Nat) (q : Nat → Prop) [DecidablePred q]
    (h : ∀ n, 1 ≤ n → n ≤ 9 → (dget d i j n = 1 ↔ q n)) :
    num_candidates d i j = ((List.range' 1 9).countP (fun n => decide (q n)) : Nat) := by
  unfold num_candidates
  congr 1
  apply List.countP_congr
  intro n hn
  rw [List.mem_range'_1] at hn
  simp only [decide_eq_true_eq]
  exact h n (by omega) (by omega)

/-- C12 (initialisation result): on an input board and whatever the array held,
after `initial_board` the flag of digit `n` at `(i, j)` is 0 or 1, and it is 1
exactly when no cell of row `i`, column `j` or the box of `(i, j)` (the cell
itself included) holds `n`; the count of the cell is the number of such digits;
and running the second loop nest over the cells in any other order gives the
same board and array. -/
theorem initialisation_result (board : Board) (d : Domain) (hb : is_input board)
    (hd : is_domain d) :
    (∀ i < 9, ∀ j < 9, ∀ n, 1 ≤ n → n ≤ 9 →
      (dget (initial_board board d).2 i j n = 0 ∨ dget (initial_board board d).2 i j n = 1)
      ∧ (dget (initial_board board d).2 i j n = 1
          ↔ ∀ a < 9, ∀ b < 9, sees a b i j → bget board a b ≠ Char.ofNat (n + 48)))
    ∧ (∀ i < 9, ∀ j < 9,
        dget (initial_board board d).2 i j 0
          = ((List.range' 1 9).countP (fun n => decide
              (∀ a < 9, ∀ b < 9, sees a b i j → bget board a b ≠ Char.ofNat (n + 48))) : Nat))
    ∧ (∀ l : List (Nat × Nat), l.Perm cells →
        l.foldl init_assign (board, cells.foldl init_cell d) = initial_board board d) := by
  obtain ⟨e1, e2, e3, e4⟩ := initial_board_spec hb hd
  have hiff : ∀ i < 9, ∀ j < 9, ∀ n, 1 ≤ n → n ≤ 9 →
      (dget (initial_board board d).2 i j n = 1
        ↔ ∀ a < 9, ∀ b < 9, sees a b i j → bget board a b ≠ Char.ofNat (n + 48)) := by
    intro i hi j hj n hn1 hn9
    rw [e4 i hi j hj n hn1 hn9]
    have hc := clue_hits_iff hb mem_cells hn1 hn9 (i := i) (j := j)
    by_cases hh : clue_hits board cells i j n
    · rw [if_pos hh]
      constructor
      · intro h; exact absurd h (by decide)
      · intro h
        obtain ⟨a, ha, b, hb', hs, hcell⟩ := hc.1 hh
        exact absurd hcell (h a ha b hb' hs)
    · rw [if_neg hh]
      constructor
      · intro _ a ha b hb' hs hcell
        exact hh (hc.2 ⟨a, ha, b, hb', hs, hcell⟩)
      · intro _; rfl
  refine ⟨fun i hi j hj n hn1 hn9 => ⟨(e3 i hi j hj).1 n hn1 hn9, hiff i hi j hj n hn1 hn9⟩,
    fun i hi j hj => ?_, fun l hl => ?_⟩
  · rw [(e3 i hi j hj).2]
    exact num_candidates_countP _ i j _ (hiff i hi j hj)
  · obtain ⟨h1, -⟩ := init_cells_all hd
    have hlr : ∀ p ∈ l, p.1 < 9 ∧ p.2 < 9 := fun p hp => (mem_cells p).1 (hl.mem_iff.1 hp)
    obtain ⟨f1, f2, f3, f4⟩ := init_assign_spec hb h1 (count_ok_init_cells hd) l hlr
    obtain ⟨g1, g2, g3, g4⟩ := init_assign_spec hb h1 (count_ok_init_cells hd) cells
      (fun p hp => (mem_cells p).1 hp)
    show _ = cells.foldl init_assign (board, cells.foldl init_cell d)
    refine Prod.ext (by rw [f1, g1]) (domain_eq_of_flags f2 g2 f3 g3 ?_)
    intro a ha b hb' n hn1 hn9
    rw [f4 a ha b hb' n hn1 hn9, g4 a ha b hb' n hn1 hn9]
    by_cases hh : clue_hits board l a b n
    · rw [if_pos hh, if_pos ((clue_hits_perm board hl a b n).1 hh)]
    · rw [if_neg hh, if_neg (fun h' => hh ((clue_hits_perm board hl a b n).2 h'))]

theorem initialisation_result_witness :
    is_input board_case_1 ∧ is_domain SudokuSolver.fresh.domain
    ∧ (∀ i < 9, ∀ j < 9, ∀ n, 1 ≤ n → n ≤ 9 →
      (dget (initial_board board_case_1 SudokuSolver.fresh.domain).2 i j n = 0
        ∨ dget (initial_board board_case_1 SudokuSolver.fresh.domain).2 i j n = 1)
      ∧ (dget (initial_board board_case_1 SudokuSolver.fresh.domain).2 i j n = 1
          ↔ ∀ a < 9, ∀ b < 9, sees a b i j → bget board_case_1 a b ≠ Char.ofNat (n + 48)))
    ∧ (∀ i < 9, ∀ j < 9,
        dget (initial_board board_case_1 SudokuSolver.fresh.domain).2 i j 0
          = ((List.range' 1 9).countP (fun n => decide
              (∀ a < 9, ∀ b < 9, sees a b i j →
                bget board_case_1 a b ≠ Char.ofNat (n + 48))) : Nat))
    ∧ (∀ l : List (Nat × Nat), l.Perm cells →
        l.foldl init_assign (board_case_1, cells.foldl init_cell SudokuSolver.fresh.domain)
          = initial_board board_case_1 SudokuSolver.fresh.domain) :=
  ⟨by decide, by decide,
    initialisation_result board_case_1 SudokuSolver.fresh.domain (by decide) (by decide)⟩

/-- The first loop nest of `initial_board` erases the prior content. -/
theorem init_cells_eq {d d' : Domain} (h : is_domain d) (h' : is_domain d') :
    cells.foldl init_cell d = cells.foldl init_cell d' := by
  obtain ⟨h1, h2⟩ := init_cells_all h
  obtain ⟨h1', h2'⟩ := init_cells_all h'
  exact domain_ext h1 h1' (fun a ha b hb n hn => by rw [h2 a ha b hb n hn, h2' a ha b hb n hn])

/-- C13 (determinism and state independence): two runs of `solve_sudoku` on the
same input board, on solvers with empty result vectors, both return and give the
same return value, the same final board and the same result vectors, whatever
the two `domain` arrays held before the call; `initial_board` alone already
gives the same array. -/
theorem determinism (board : Board) (s1 s2 : SudokuSolver) (hb : is_input board)
    (h1 : is_domain s1.domain) (h2 : is_domain s2.domain)
    (e1 : s1.res_selected_variable = [] ∧ s1.res_domain_size = []
      ∧ s1.res_degree_selected_variable = [] ∧ s1.res_value_assign = [] ∧ s1.res_board = [])
    (e2 : s2.res_selected_variable = [] ∧ s2.res_domain_size = []
      ∧ s2.res_degree_selected_variable = [] ∧ s2.res_value_assign = [] ∧ s2.res_board = []) :
    initial_board board s1.domain = initial_board board s2.domain
    ∧ ∃ r, solve_sudoku board s1 = some r ∧ solve_sudoku board s2 = some r := by
  have hinit : initial_board board s1.domain = initial_board board s2.domain := by
    unfold initial_board
    rw [init_cells_eq h1 h2]
  refine ⟨hinit, ?_⟩
  have hsame : solve_sudoku board s1 = solve_sudoku board s2 := by
    unfold solve_sudoku
    rw [hinit]
    obtain ⟨a1, a2, a3, a4, a5⟩ := e1
    obtain ⟨b1, b2, b3, b4, b5⟩ := e2
    rw [a1, a2, a3, a4, a5, b1, b2, b3, b4, b5]
  obtain ⟨r, hr, -⟩ := solve_good hb h1
  exact ⟨r, hr, hsame ▸ hr⟩

theorem determinism_witness :
    is_input board_case_1 ∧ is_domain SudokuSolver.fresh.domain ∧ is_domain full_domain
    ∧ initial_board board_case_1 SudokuSolver.fresh.domain
        = initial_board board_case_1 { SudokuSolver.fresh with domain := full_domain }.domain
    ∧ ∃ r, solve_sudoku board_case_1 SudokuSolver.fresh = some r
        ∧ solve_sudoku board_case_1 { SudokuSolver.fresh with domain := full_domain } = some r :=
  ⟨by decide, by decide, by decide,
    determinism board_case_1 SudokuSolver.fresh { SudokuSolver.fresh with domain := full_domain }
      (by decide) (by decide) (by decide) ⟨rfl, rfl, rfl, rfl, rfl⟩ ⟨rfl, rfl, rfl, rfl, rfl⟩⟩

/-! ## The degree heuristic -/

theorem degree_fold_lines (board : Board) (row col : Nat) (l : List Nat) :
    ∀ d0 : Int,
      l.foldl (fun degree i =>
          let degree := if bget board row i = '.' ∧ i ≠ col then degree + 1 else degree
          if bget board i col = '.' ∧ i ≠ row then degree + 1 else degree) d0
        = d0 + ((l.flatMap (fun i => (if i ≠ col then [(row, i)] else [])
              ++ (if i ≠ row then [(i, col)] else []))).countP
            (fun p => decide (bget board p.1 p.2 = '.')) : Nat) := by
  induction l with
  | nil => intro d0; simp
  | cons x l ih =>
    intro d0
    rw [List.foldl_cons, ih, List.flatMap_cons, List.countP_append, List.countP_append]
    by_cases h1 : x ≠ col <;> by_cases h2 : x ≠ row <;>
      by_cases h3 : bget board row x = '.' <;> by_cases h4 : bget board x col = '.' <;>
      simp [h1, h2, h3, h4] <;> omega

theorem degree_fold_box (board : Board) (row col : Nat) (l : List Nat) :
    ∀ d0 : Int,
      l.foldl (fun degree k =>
          if (row / 3) * 3 + k / 3 ≠ row ∧ (col / 3) * 3 + k % 3 ≠ col
              ∧ bget board ((row / 3) * 3 + k / 3) ((col / 3) * 3 + k % 3) = '.'
          then degree + 1 else degree) d0
        = d0 + (((l.filter (fun k => decide ((row / 3) * 3 + k / 3 ≠ row
                ∧ (col / 3) * 3 + k % 3 ≠ col))).map
              (fun k => ((row / 3) * 3 + k / 3, (col / 3) * 3 + k % 3))).countP
            (fun p => decide (bget board p.1 p.2 = '.')) : Nat) := by
  induction l with
  | nil => intro d0; simp
  | cons x l ih =>
    intro d0
    rw [List.foldl_cons, ih]
    by_cases h1 : (row / 3) * 3 + x / 3 ≠ row <;>
      by_cases h2 : (col / 3) * 3 + x % 3 ≠ col <;>
      by_cases h3 : bget board ((row / 3) * 3 + x / 3) ((col / 3) * 3 + x % 3) = '.' <;>
      first
        | (simp [List.filter_cons, h1, h2, h3]; done)
        | (simp [List.filter_cons, h1, h2, h3]; omega)

theorem degree_heuristic_countP (board : Board) (row col : Nat) :
    degree_heuristic board row col
      = (((degree_cells row col).countP (fun p => decide (bget board p.1 p.2 = '.')) : Nat)
          : Int) := by
  unfold degree_heuristic degree_cells
  simp only []
  rw [degree_fold_box, degree_fold_lines, List.countP_append]
  push_cast
  ring

theorem degree_cells_perm :
    ∀ row < 9, ∀ col < 9,
      (degree_cells row col).Perm
        (cells.filter (fun p => decide ((p.1 ≠ row ∨ p.2 ≠ col) ∧ sees row col p.1 p.2))) := by
  decide!

/-- The degree score is exact: `degree_heuristic(board, row, col)` is the
number of distinct `'.'` cells, other than the cell itself, in its row, column
or box. -/
theorem degree_heuristic_eq (board : Board) (row col : Nat) (hr : row < 9) (hc : col < 9) :
    degree_heuristic board row col = true_degree board row col := by
  rw [degree_heuristic_countP, (degree_cells_perm row hr col hc).countP_eq]
  unfold true_degree
  rw [List.countP_eq_length_filter, List.filter_filter]
  congr 2
  apply List.filter_congr
  intro p _
  by_cases h1 : bget board p.1 p.2 = '.' <;>
    by_cases h2 : (p.1 ≠ row ∨ p.2 ≠ col) ∧ sees row col p.1 p.2 <;>
    simp [h1, h2]

/-- C18, refuted: there is no board and no cell of the grid for which
`degree_heuristic` is strictly smaller than the number of distinct `'.'` cells,
other than the cell itself, that share its row, its column or its box. -/
theorem degree_no_undercount :
    ¬ ∃ (board : Board) (row col : Nat), row < 9 ∧ col < 9
        ∧ degree_heuristic board row col < true_degree board row col := by
  rintro ⟨board, row, col, hr, hc, hlt⟩
  rw [degree_heuristic_eq board row col hr hc] at hlt
  exact lt_irrefl _ hlt

/-- C18 as amended: for every board and every cell `(row, col)` of the grid,
`degree_heuristic(board, row, col)` equals the number of distinct `'.'` cells,
other than `(row, col)` itself, that share its row, its column or its box: the
box scan skips exactly the cells the row and column scans have counted. -/
theorem degree_exact (board : Board) (row col : Nat) (hr : row < 9) (hc : col < 9) :
    degree_heuristic board row col = true_degree board row col :=
  degree_heuristic_eq board row col hr hc

theorem degree_exact_witness :
    4 < 9 ∧ 4 < 9 ∧ degree_heuristic board_case_1 4 4 = true_degree board_case_1 4 4 :=
  ⟨by decide, by decide, degree_exact board_case_1 4 4 (by decide) (by decide)⟩

/-! ## The search driver on arbitrary candidate arrays -/

theorem fills_refl (b : Board) : fills b b := fun _ _ => Or.inl rfl

theorem fills_trans {b1 b2 b3 : Board} (h12 : fills b1 b2) (h23 : fills b2 b3) :
    fills b1 b3 := by
  intro i j
  rcases h23 i j with h | ⟨h, hd⟩
  · rw [h]; exact h12 i j
  · rcases h12 i j with h' | ⟨h', -⟩
    · right; rw [← h']; exact ⟨h, hd⟩
    · right; exact ⟨h', hd⟩

theorem fills_keeps {b b' : Board} (h : fills b b') : keeps b b' := by
  intro i j hne
  rcases h i j with h' | ⟨h', -⟩
  · exact h'
  · exact absurd h' hne

theorem fills_bset {b bcur : Board} {i j : Nat} (h : fills b bcur) (hdot : bget b i j = '.')
    {c : Char} (hc : c ∈ digit_chars) : fills b (bset bcur i j c) := by
  intro a k
  rw [bget_bset]
  by_cases hak : a = i ∧ k = j ∧ i < bcur.length ∧ j < (bcur.getD i []).length
  · rw [if_pos hak, hak.1, hak.2.1]
    right; exact ⟨hdot, hc⟩
  · rw [if_neg hak]; exact h a k

theorem extends_trace_refl (s : SudokuSolver) : extends_trace s s :=
  ⟨List.prefix_refl _, List.prefix_refl _, List.prefix_refl _, List.prefix_refl _,
    List.prefix_refl _⟩

theorem extends_trace_trans {s1 s2 s3 : SudokuSolver} (h12 : extends_trace s1 s2)
    (h23 : extends_trace s2 s3) : extends_trace s1 s3 :=
  ⟨h12.1.trans h23.1, h12.2.1.trans h23.2.1, h12.2.2.1.trans h23.2.2.1,
    h12.2.2.2.1.trans h23.2.2.2.1, h12.2.2.2.2.trans h23.2.2.2.2⟩

theorem extends_trace_record (s : SudokuSolver) (d : Domain) (cell : Int × Int) (b : Board)
    (size deg v : Int) :
    extends_trace s (record_results { s with domain := d } cell b size deg v) :=
  ⟨List.prefix_append _ _, List.prefix_append _ _, List.prefix_append _ _,
    List.prefix_append _ _, List.prefix_append _ _⟩

theorem extends_trace_domain (s : SudokuSolver) (d : Domain) :
    extends_trace s { s with domain := d } := extends_trace_refl s

theorem trace_ok_record {s : SudokuSolver} (h : trace_ok s) (d : Domain) (cell : Int × Int)
    (b : Board) (size deg v : Int) :
    trace_ok (record_results { s with domain := d } cell b size deg v) := by
  obtain ⟨h1, h2, h3, h4⟩ := h
  unfold trace_ok record_results
  simp only [List.length_append, List.length_singleton]
  omega

theorem call_site_facts {b : Board} {s : SudokuSolver} {b' : Board} {s' : SudokuSolver}
    (h : call_site b s b' s') :
    is_grid b' ∧ fills b b' ∧ empty_count b' < empty_count b ∧ extends_trace s s'
      ∧ (trace_ok s → trace_ok s') := by
  obtain ⟨i, j, num, bcur, scur, hi, hj, hn1, hn9, hdot, -, -, hg, hf, -, he, ht, -, -,
    rfl, rfl⟩ := h
  have hf' : fills b (assign_value i j num bcur s.domain).1 :=
    fills_bset hf hdot (digit_char_mem hn1 hn9)
  have hcell : bget (assign_value i j num bcur s.domain).1 i j ≠ '.' := by
    rw [assign_value_fst, bget_bset_grid hg hi hj, if_pos ⟨rfl, rfl⟩]
    exact digit_char_ne_dot hn1 hn9
  exact ⟨is_grid_bset hg _ _ _, hf', empty_count_lt (fills_keeps hf') hi hj hdot hcell,
    extends_trace_trans he (extends_trace_record scur _ _ _ _ _ _),
    fun h0 => trace_ok_record (ht h0) _ _ _ _ _ _⟩

theorem last_flagged_cons (d : Domain) (i j n : Nat) (rest : List Nat) :
    last_flagged d i j (n :: rest)
      = match last_flagged d i j rest with
        | some m => some m
        | none => if dget d i j n = 1 then some n else none := rfl

/-- The loop of `backtracking_sudoku` on the empty cell `(i, j)` selected on the
entry state `b`, `s`, for any candidate array.  If every recursive call made at
a `call_site` returns with a `result_ok`, the loop returns with one; after a
`false` result the cell holds the last value tried, or what it held before the
loop when no value of the list is a candidate.  A second recursive call that
agrees with the first at every `call_site` gives the same loop. -/
theorem try_values_sites {K : Board → SudokuSolver → Prop}
    {recurse recurse' : Board → SudokuSolver → Option Outcome}
    {b : Board} {s : SudokuSolver} {i j : Nat} (hi : i < 9) (hj : j < 9)
    (hdot : bget b i j = '.')
    (hcell : (minimum_remaining_values b s.domain).1 = ((i : Int), (j : Int)))
    (hcnt : dget s.domain i j 0 ≠ 0)
    (Hrec : ∀ b' s', call_site b s b' s' →
        recurse' b' s' = recurse b' s' ∧ ∃ r, recurse b' s' = some r ∧ result_ok K b' s' r) :
    ∀ (nums : List Nat), (∀ n ∈ nums, 1 ≤ n ∧ n ≤ 9) →
      ∀ (bcur : Board) (scur : SudokuSolver),
      is_grid bcur → fills b bcur → scur.domain = s.domain → extends_trace s scur →
      (trace_ok s → trace_ok scur) →
      try_values recurse' ((i : Int), (j : Int)) (minimum_remaining_values b s.domain).2
          s.domain nums bcur scur
        = try_values recurse ((i : Int), (j : Int)) (minimum_remaining_values b s.domain).2
            s.domain nums bcur scur
      ∧ ∃ r, try_values recurse ((i : Int), (j : Int)) (minimum_remaining_values b s.domain).2
            s.domain nums bcur scur = some r
        ∧ result_ok K b s r
        ∧ (r.1 = false → bget r.2.1 i j
            = match last_flagged s.domain i j nums with
              | some m => Char.ofNat (m + 48)
              | none => bget bcur i j) := by
  intro nums
  induction nums with
  | nil =>
    intro _ bcur scur hg hf hs he ht
    refine ⟨rfl, (false, bcur, scur), rfl, ⟨hg, hf, he, ht, fun _ => hs, ?_⟩, fun _ => rfl⟩
    intro h; exact absurd h Bool.false_ne_true
  | cons num rest ih =>
    intro hn bcur scur hg hf hs he ht
    have hnum := hn num (List.mem_cons_self _ _)
    have hrest : ∀ n ∈ rest, 1 ≤ n ∧ n ≤ 9 := fun n h => hn n (List.mem_cons_of_mem _ h)
    rw [try_values_cons, try_values_cons, last_flagged_cons]
    simp only [Int.toNat_ofNat]
    rw [hs]
    by_cases hflag : dget s.domain i j num = 1
    · rw [if_pos hflag, if_pos hflag, if_pos hflag]
      have hg1 : is_grid (assign_value i j num bcur s.domain).1 := is_grid_bset hg _ _ _
      have hf1 : fills b (assign_value i j num bcur s.domain).1 :=
        fills_bset hf hdot (digit_char_mem hnum.1 hnum.2)
      have hc1 : bget (assign_value i j num bcur s.domain).1 i j = Char.ofNat (num + 48) := by
        rw [assign_value_fst, bget_bset_grid hg hi hj, if_pos ⟨rfl, rfl⟩]
      have hsite : forward_checking (assign_value i j num bcur s.domain).1
            (assign_value i j num bcur s.domain).2 = true →
          call_site b s (assign_value i j num bcur s.domain).1
            (record_results { scur with domain := (assign_value i j num bcur s.domain).2 }
              ((i : Int), (j : Int)) (assign_value i j num bcur s.domain).1
              (dget s.domain i j 0) (minimum_remaining_values b s.domain).2 num) :=
        fun hfc => ⟨i, j, num, bcur, scur, hi, hj, hnum.1, hnum.2, hdot, hcell, hcnt, hg, hf,
          hs, he, ht, hflag, hfc, rfl, rfl⟩
      have hlast : ∀ c : Char,
          (match (match last_flagged s.domain i j rest with
              | some m => some m
              | none => some num) with
            | some m => Char.ofNat (m + 48)
            | none => c)
          = match last_flagged s.domain i j rest with
            | some m => Char.ofNat (m + 48)
            | none => Char.ofNat (num + 48) := by
        intro c
        cases last_flagged s.domain i j rest <;> rfl
      unfold try_value
      simp only [Int.toNat_ofNat]
      rw [hs]
      generalize assign_value i j num bcur s.domain = av at hg1 hf1 hc1 hsite ⊢
      by_cases hfc : forward_checking av.1 av.2 = true
      · rw [if_pos hfc, if_pos hfc]
        obtain ⟨hag, r, hr, hgr, hfr, her, htr, hdr, hkr⟩ := Hrec _ _ (hsite hfc)
        obtain ⟨-, -, -, he1, ht1⟩ := call_site_facts (hsite hfc)
        rw [hag, hr]
        by_cases hres : r.1 = true
        · refine ⟨?_, r, ?_, ⟨hgr, fills_trans hf1 hfr, extends_trace_trans he1 her,
            fun h0 => htr (ht1 h0), ?_, fun _ => hkr hres⟩, ?_⟩
          · simp only [if_pos hres]
          · simp only [if_pos hres]
          · intro hfalse; rw [hres] at hfalse; exact absurd hfalse (by decide)
          · intro hfalse; rw [hres] at hfalse; exact absurd hfalse (by decide)
        · simp only [if_neg hres]
          have hcr : bget r.2.1 i j = Char.ofNat (num + 48) := by
            rcases hfr i j with h | ⟨h, -⟩
            · rw [h, hc1]
            · rw [hc1] at h
              exact absurd h (digit_char_ne_dot hnum.1 hnum.2)
          obtain ⟨e, r', hr', hok', hlast'⟩ :=
            ih hrest r.2.1 { r.2.2 with domain := s.domain } hgr (fills_trans hf1 hfr) rfl
              (extends_trace_trans he1 her) (fun h0 => htr (ht1 h0))
          refine ⟨e, r', hr', hok', fun hfalse => ?_⟩
          rw [hlast' hfalse, hcr, hlast]
      · rw [if_neg hfc, if_neg hfc]
        simp only [Bool.false_eq_true, if_false]
        obtain ⟨e, r', hr', hok', hlast'⟩ :=
          ih hrest av.1 { scur with domain := s.domain } hg1 hf1 rfl he ht
        refine ⟨e, r', hr', hok', fun hfalse => ?_⟩
        rw [hlast' hfalse, hc1, hlast]
    · rw [if_neg hflag, if_neg hflag, if_neg hflag]
      obtain ⟨e, r', hr', hok', hlast'⟩ := ih hrest bcur scur hg hf hs he ht
      refine ⟨e, r', hr', hok', fun hfalse => ?_⟩
      rw [hlast' hfalse]
      cases last_flagged s.domain i j rest <;> rfl

/-- The body of `backtracking_sudoku` on a grid, for any candidate array, under
the hypothesis of `try_values_sites` on the recursive calls.  After a `false`
result the selected cell, if its count was not 0, holds the last candidate in
`1..9`, or `'.'` when it had none. -/
theorem backtracking_body_sites {K : Board → SudokuSolver → Prop}
    {recurse recurse' : Board → SudokuSolver → Option Outcome}
    {b : Board} {s : SudokuSolver} (hg : is_grid b) (hk : K b s)
    (Hrec : ∀ b' s', call_site b s b' s' →
        recurse' b' s' = recurse b' s' ∧ ∃ r, recurse b' s' = some r ∧ result_ok K b' s' r) :
    backtracking_body recurse' b s = backtracking_body recurse b s
    ∧ ∃ r, backtracking_body recurse b s = some r ∧ result_ok K b s r
      ∧ (r.1 = false → ∀ i j : Nat,
          (minimum_remaining_values b s.domain).1 = ((i : Int), (j : Int)) →
          dget s.domain i j 0 ≠ 0 →
          bget r.2.1 i j
            = match last_flagged s.domain i j (List.range' 1 9) with
              | some m => Char.ofNat (m + 48)
              | none => '.') := by
  unfold backtracking_body
  by_cases h1 : (minimum_remaining_values b s.domain).1.1 = -1
      ∧ (minimum_remaining_values b s.domain).1.2 = -1
  · rw [if_pos h1, if_pos h1]
    refine ⟨rfl, _, rfl, ⟨hg, fills_refl b, extends_trace_refl s, fun h => h, fun _ => rfl,
      fun _ => ⟨hk, Prod.ext h1.1 h1.2⟩⟩, fun h => Bool.noConfusion h⟩
  · rw [if_neg h1, if_neg h1]
    obtain ⟨i, hi, j, hj, hdot, hcell⟩ := mrv_cell_of_not_sentinel b s.domain h1
    have hc1 : (minimum_remaining_values b s.domain).1 = ((i : Int), (j : Int)) := by
      rw [hcell]
    have hsame : ∀ i' j' : Nat, ((i : Int), (j : Int)) = ((i' : Int), (j' : Int)) →
        i' = i ∧ j' = j := by
      intro i' j' h
      have e1 : (i : Int) = (i' : Int) := congrArg Prod.fst h
      have e2 : (j : Int) = (j' : Int) := congrArg Prod.snd h
      constructor <;> omega
    rw [hc1]
    simp only [Int.toNat_ofNat]
    by_cases h2 : dget s.domain i j 0 = 0
    · rw [if_pos h2, if_pos h2]
      refine ⟨rfl, _, rfl, ⟨hg, fills_refl b, extends_trace_refl s, fun h => h, fun _ => rfl,
        fun h => Bool.noConfusion h⟩, fun _ i' j' hc' hne => ?_⟩
      obtain ⟨rfl, rfl⟩ := hsame i' j' hc'
      exact absurd h2 hne
    · rw [if_neg h2, if_neg h2]
      have hnums : ∀ n ∈ List.range' 1 9, 1 ≤ n ∧ n ≤ 9 := by
        intro n hn
        rw [List.mem_range'_1] at hn
        omega
      obtain ⟨e, r, hr, hok, hlast⟩ :=
        try_values_sites hi hj hdot hc1 h2 Hrec (List.range' 1 9) hnums b s hg (fills_refl b)
          rfl (extends_trace_refl s) (fun h => h)
      refine ⟨e, r, hr, hok, fun hfalse i' j' hc' _ => ?_⟩
      obtain ⟨rfl, rfl⟩ := hsame i' j' hc'
      rw [hlast hfalse, hdot]

/-- With more fuel than empty cells, `backtracking_sudoku` returns on every
grid and every candidate array, with a `result_ok`; `K` is any property of the
entry state that passes from a caller to the calls it makes. -/
theorem backtracking_sites {K : Board → SudokuSolver → Prop}
    (hK : ∀ b s b' s', is_grid b → K b s → call_site b s b' s' → K b' s') :
    ∀ (fuel : Nat) (b : Board) (s : SudokuSolver), is_grid b → K b s →
      empty_count b < fuel →
      ∃ r, backtracking_sudoku fuel b s = some r ∧ result_ok K b s r
        ∧ (r.1 = false → ∀ i j : Nat,
            (minimum_remaining_values b s.domain).1 = ((i : Int), (j : Int)) →
            dget s.domain i j 0 ≠ 0 →
            bget r.2.1 i j
              = match last_flagged s.domain i j (List.range' 1 9) with
                | some m => Char.ofNat (m + 48)
                | none => '.') := by
  intro fuel
  induction fuel with
  | zero => intro b s _ _ h; exact absurd h (Nat.not_lt_zero _)
  | succ fuel ih =>
    intro b s hg hk hlt
    show ∃ r, backtracking_body (backtracking_sudoku fuel) b s = some r ∧ _
    refine (backtracking_body_sites hg hk (fun b' s' hsite => ⟨rfl, ?_⟩)).2
    obtain ⟨hg', -, hlt', -, -⟩ := call_site_facts hsite
    obtain ⟨r, hr, hok, -⟩ := ih b' s' hg' (hK b s b' s' hg hk hsite) (by omega)
    exact ⟨r, hr, hok⟩

/-- Assertions that hold at every `call_site` never fail: the asserting run is
the plain run. -/
theorem backtracking_asserting_sites {K : Board → SudokuSolver → Prop}
    (hK : ∀ b s b' s', is_grid b → K b s → call_site b s b' s' → K b' s')
    (P : Board × SudokuSolver → Board × SudokuSolver → Prop) [∀ x y, Decidable (P x y)]
    (hP : ∀ b s b' s', is_grid b → K b s → call_site b s b' s' → P (b, s) (b', s')) :
    ∀ (fuel : Nat) (b : Board) (s : SudokuSolver), is_grid b → K b s →
      empty_count b < fuel →
      backtracking_asserting P fuel b s = backtracking_sudoku fuel b s := by
  intro fuel
  induction fuel with
  | zero => intro b s _ _ h; exact absurd h (Nat.not_lt_zero _)
  | succ fuel ih =>
    intro b s hg hk hlt
    show backtracking_body
        (fun b' s' => if P (b, s) (b', s') then backtracking_asserting P fuel b' s' else none)
        b s
      = backtracking_body (backtracking_sudoku fuel) b s
    refine (backtracking_body_sites (K := K) hg hk (fun b' s' hsite => ?_)).1
    obtain ⟨hg', -, hlt', -, -⟩ := call_site_facts hsite
    have hk' := hK b s b' s' hg hk hsite
    obtain ⟨r, hr, hok, -⟩ := backtracking_sites hK fuel b' s' hg' hk' (by omega)
    refine ⟨?_, r, hr, hok⟩
    show (if P (b, s) (b', s') then backtracking_asserting P fuel b' s' else none) = _
    rw [if_pos (hP b s b' s' hg hk hsite), ih b' s' hg' hk' (by omega)]

/-! ## Failed calls: the board and the array they leave -/

theorem last_flagged_range (d : Domain) (i j : Nat) :
    ∀ (k a : Nat),
      (last_flagged d i j (List.range' a k) = none
        ∧ ∀ n, a ≤ n → n < a + k → dget d i j n ≠ 1)
      ∨ ∃ m, last_flagged d i j (List.range' a k) = some m ∧ a ≤ m ∧ m < a + k
          ∧ dget d i j m = 1 ∧ ∀ n, m < n → n < a + k → dget d i j n ≠ 1 := by
  intro k
  induction k with
  | zero =>
    intro a
    left
    exact ⟨rfl, fun n h1 h2 => absurd h2 (by omega)⟩
  | succ k ih =>
    intro a
    rw [List.range'_succ, last_flagged_cons]
    rcases ih (a + 1) with ⟨hnone, hall⟩ | ⟨m, hsome, hm1, hm2, hflag, hall⟩
    · rw [hnone]
      by_cases hfa : dget d i j a = 1
      · right
        refine ⟨a, by simp only [if_pos hfa], le_refl a, by omega, hfa, ?_⟩
        intro n h1 h2
        exact hall n (by omega) (by omega)
      · left
        refine ⟨by simp only [if_neg hfa], ?_⟩
        intro n h1 h2
        by_cases hna : n = a
        · rw [hna]; exact hfa
        · exact hall n (by omega) (by omega)
    · right
      rw [hsome]
      exact ⟨m, rfl, by omega, by omega, hflag, fun n h1 h2 => hall n h1 (by omega)⟩

/-- C17 (domain restoration on backtrack): for every grid and every candidate
array, a call of `backtracking_sudoku` with more fuel than empty cells returns,
and when it returns `false` the whole `domain` array is the array it was
entered with, whatever the call and its recursive calls assigned. -/
theorem domain_restored (fuel : Nat) (b : Board) (s : SudokuSolver) (hg : is_grid b)
    (hfuel : empty_count b < fuel) :
    ∃ r, backtracking_sudoku fuel b s = some r ∧ (r.1 = false → r.2.2.domain = s.domain) := by
  obtain ⟨r, hr, hok, -⟩ :=
    backtracking_sites (K := fun _ _ => True) (fun _ _ _ _ _ _ _ => trivial) fuel b s hg
      trivial hfuel
  exact ⟨r, hr, hok.2.2.2.2.1⟩

/-- C16 (board state on failure): on a grid, when `backtracking_sudoku` selects
the cell `(i, j)`, the count of the cell is not 0 and some digit is a candidate
of the cell, then the call returns, and when it returns `false` the cell is not
`'.'`: it holds the largest digit that was a candidate of the cell on entry, the
last one tried; and every cell that was filled on entry is unchanged. -/
theorem failure_board_state (fuel : Nat) (b : Board) (s : SudokuSolver) (i j : Nat)
    (hg : is_grid b) (hfuel : empty_count b < fuel)
    (hsel : (minimum_remaining_values b s.domain).1 = ((i : Int), (j : Int)))
    (hcnt : dget s.domain i j 0 ≠ 0)
    (hcand : ∃ n, 1 ≤ n ∧ n ≤ 9 ∧ dget s.domain i j n = 1) :
    ∃ r, backtracking_sudoku fuel b s = some r
      ∧ (r.1 = false →
          bget r.2.1 i j ≠ '.'
          ∧ (∃ m, 1 ≤ m ∧ m ≤ 9 ∧ dget s.domain i j m = 1
              ∧ (∀ n, m < n → n ≤ 9 → dget s.domain i j n ≠ 1)
              ∧ bget r.2.1 i j = Char.ofNat (m + 48))
          ∧ ∀ a c, bget b a c ≠ '.' → bget r.2.1 a c = bget b a c) := by
  obtain ⟨r, hr, hok, hlast⟩ :=
    backtracking_sites (K := fun _ _ => True) (fun _ _ _ _ _ _ _ => trivial) fuel b s hg
      trivial hfuel
  refine ⟨r, hr, fun hfalse => ?_⟩
  have hcell := hlast hfalse i j hsel hcnt
  obtain ⟨n, hn1, hn9, hn⟩ := hcand
  rcases last_flagged_range s.domain i j 9 1 with ⟨-, hall⟩ | ⟨m, hsome, hm1, hm2, hflag, hall⟩
  · exact absurd hn (hall n hn1 (by omega))
  · rw [hsome] at hcell
    have hm9 : m ≤ 9 := by omega
    refine ⟨?_, ⟨m, hm1, hm9, hflag, fun k h1 h2 => hall k h1 (by omega), hcell⟩,
      fills_keeps hok.2.1⟩
    rw [hcell]
    exact digit_char_ne_dot hm1 hm9

/-! ## A `true` result and the empty cells -/

theorem no_dots_of_sentinel {b : Board} {d : Domain}
    (hcnt : ∀ i < 9, ∀ j < 9, dget d i j 0 ≤ 9)
    (h : (minimum_remaining_values b d).1 = (-1, -1)) :
    ∀ i < 9, ∀ j < 9, bget b i j ≠ '.' := by
  intro i hi j hj hdot
  obtain ⟨a, -, c, -, -, hst, -⟩ := mrv_scan_some b d hcnt ⟨i, hi, j, hj, hdot⟩
  unfold minimum_remaining_values at h
  rw [hst] at h
  have : (a : Int) = -1 := congrArg Prod.fst h
  omega

theorem record_results_domain (s : SudokuSolver) (d : Domain) (cell : Int × Int) (b : Board)
    (size deg v : Int) :
    (record_results { s with domain := d } cell b size deg v).domain = d := rfl

theorem flags_ok_call_site {b : Board} {s : SudokuSolver} {b' : Board} {s' : SudokuSolver}
    (h : flags_ok s.domain) (hsite : call_site b s b' s') : flags_ok s'.domain := by
  obtain ⟨i, j, num, bcur, scur, hi, hj, hn1, hn9, -, -, -, -, -, -, -, -, -, -, -, e⟩ :=
    hsite
  have e' : s'.domain = (assign_value i j num bcur s.domain).2 := by
    rw [e]; exact record_results_domain _ _ _ _ _ _ _
  rw [e']
  obtain ⟨hd, hall⟩ := h
  refine ⟨is_domain_assign_value hd _ _ _ _, fun a ha c hc => ⟨?_, ?_⟩⟩
  · rw [dget_assign_value hd hi hj hn1 hn9 bcur ha hc]
    have h9 := (hall a ha c hc).1
    by_cases hs : sees i j a c
    · rw [if_pos hs, if_neg (by omega), if_pos rfl]
      rcases (hall a ha c hc).2 num hn1 hn9 with h0 | h0 <;> omega
    · rw [if_neg hs]; exact h9
  · exact flags_assign_value hd hi hj hn1 hn9 bcur ha hc (hall a ha c hc).2

theorem flags_ok_of_count_ok {d : Domain} (hd : is_domain d) (hc : count_ok d) : flags_ok d :=
  ⟨hd, fun i hi j hj => ⟨count_le_nine hc hi hj, (hc i hi j hj).1⟩⟩

/-- A `true` result of `backtracking_sudoku` under `flags_ok`: no cell is `'.'`
and the cells that were `'.'` on entry hold digits. -/
theorem backtracking_true_full (fuel : Nat) (b : Board) (s : SudokuSolver) (hg : is_grid b)
    (hok : flags_ok s.domain) (hfuel : empty_count b < fuel) :
    ∃ r, backtracking_sudoku fuel b s = some r
      ∧ (r.1 = true →
          (∀ i < 9, ∀ j < 9, bget r.2.1 i j ≠ '.')
          ∧ ∀ i < 9, ∀ j < 9, bget b i j = '.' → bget r.2.1 i j ∈ digit_chars) := by
  obtain ⟨r, hr, hres, -⟩ :=
    backtracking_sites (K := fun _ s => flags_ok s.domain)
      (fun _ _ _ _ _ hk hsite => flags_ok_call_site hk hsite) fuel b s hg hok hfuel
  refine ⟨r, hr, fun htrue => ?_⟩
  obtain ⟨hk, hsent⟩ := hres.2.2.2.2.2 htrue
  have hfull := no_dots_of_sentinel (fun i hi j hj => (hk.2 i hi j hj).1) hsent
  refine ⟨hfull, fun i hi j hj hdot => ?_⟩
  rcases hres.2.1 i j with h | ⟨-, h⟩
  · rw [hdot] at h
    exact absurd h (hfull i hi j hj)
  · exact h

theorem trace_state_call_site {b : Board} {s : SudokuSolver} {b' : Board} {s' : SudokuSolver}
    (h : trace_state s) (hsite : call_site b s b' s') : trace_state s' := by
  have hfacts := call_site_facts hsite
  obtain ⟨i, j, num, bcur, scur, hi, hj, hn1, hn9, -, -, -, -, -, -, -, -, -, -, -, e⟩ :=
    hsite
  have e' : s'.domain = (assign_value i j num bcur s.domain).2 := by
    rw [e]; exact record_results_domain _ _ _ _ _ _ _
  refine ⟨?_, ?_, hfacts.2.2.2.2 h.2.2⟩
  · rw [e']; exact is_domain_assign_value h.1 _ _ _ _
  · rw [e']; exact count_ok_assign_value h.1 h.2.1 hi hj hn1 hn9 bcur

theorem prefix_dropLast_concat {α : Type} {l l' : List α} (h : l <+: l') (a : α) :
    l <+: (l' ++ [a]).dropLast := by
  rw [List.dropLast_concat]; exact h

theorem record_check_call_site {b : Board} {s : SudokuSolver} {b' : Board} {s' : SudokuSolver}
    (h : trace_state s) (hsite : call_site b s b' s') : record_check (b, s) (b', s') := by
  have hfacts := call_site_facts hsite
  obtain ⟨i, j, num, bcur, scur, hi, hj, hn1, hn9, hdot, hsel, hne, hg, -, -, hext, -, hflag,
    hfc, eb, e⟩ := hsite
  obtain ⟨hd, hc, ht⟩ := h
  have hcnt := (hc i hi j hj).2
  have hle := count_le_nine hc hi hj
  have hnn : (0 : Int) ≤ num_candidates s.domain i j := by
    unfold num_candidates; exact Int.ofNat_nonneg _
  have h1 : 1 ≤ dget s.domain i j 0 := by omega
  generalize hav : assign_value i j num bcur s.domain = av at hfc eb e
  obtain ⟨p1, p2, p3, p4, p5⟩ := hext
  subst e
  refine ⟨hfacts.2.2.2.2 ht, prefix_dropLast_concat p1 _, prefix_dropLast_concat p2 _,
    prefix_dropLast_concat p3 _, prefix_dropLast_concat p4 _, prefix_dropLast_concat p5 _,
    i, List.mem_range.2 hi, j, List.mem_range.2 hj, num,
    List.mem_range'_1.2 ⟨hn1, by omega⟩, hdot, hsel, List.getLast?_concat _,
    ?_, List.getLast?_concat _, List.getLast?_concat _, List.getLast?_concat _, hflag, ?_,
    hcnt, h1, hle, ?_⟩
  · show (scur.res_board ++ [av.1]).getLast? = some b'
    rw [List.getLast?_concat, eb]
  · show bget b' i j = Char.ofNat (num + 48)
    rw [eb, ← hav, assign_value_fst, bget_bset_grid hg hi hj, if_pos ⟨rfl, rfl⟩]
  · show forward_checking b' av.2 = true
    rw [eb]; exact hfc

theorem stage_cases_map
    {run run' : (Board → SudokuSolver → Option Outcome) → SudokuSolver → Option Outcome}
    {s0 : SudokuSolver} (g : SudokuSolver → SudokuSolver)
    (hg : ∀ s, s.domain = s0.domain → (g s).domain = (g s0).domain)
    (h : ∀ deep s, s.domain = s0.domain → run deep s = run' deep (g s))
    (H : stage_cases run' (g s0)) : stage_cases run s0 := by
  rcases H with ⟨hind, hsent⟩ | ⟨B, D, hstop, hall⟩
  · left
    refine ⟨fun s hs => ⟨fun deep => ?_, ?_⟩, fun r hr ht => hsent r ?_ ht⟩
    · rw [h deep s hs, h stop_here s hs]; exact (hind (g s) (hg s hs)).1 deep
    · rw [h stop_here s hs, h stop_here s0 rfl]; exact (hind (g s) (hg s hs)).2
    · rw [← h stop_here s0 rfl]; exact hr
  · right
    refine ⟨B, D, ?_, fun s hs => ?_⟩
    · rw [h stop_here s0 rfl]; exact hstop
    · obtain ⟨S, hS, hdeep⟩ := hall (g s) (hg s hs)
      exact ⟨S, hS, fun deep r hr ht => by rw [h deep s hs]; exact hdeep deep r hr ht⟩

theorem try_values_flagged (recurse : Board → SudokuSolver → Option Outcome) (cell : Int × Int)
    (deg : Int) (temp : Domain) (num : Nat) (rest : List Nat) (b : Board) (s : SudokuSolver)
    (hflag : dget s.domain cell.1.toNat cell.2.toNat num = 1)
    (hfc : forward_checking (assign_value cell.1.toNat cell.2.toNat num b s.domain).1
      (assign_value cell.1.toNat cell.2.toNat num b s.domain).2 = true) :
    try_values recurse cell deg temp (num :: rest) b s
      = match recurse (assign_value cell.1.toNat cell.2.toNat num b s.domain).1
          (record_results
            { s with domain := (assign_value cell.1.toNat cell.2.toNat num b s.domain).2 }
            cell (assign_value cell.1.toNat cell.2.toNat num b s.domain).1
            (dget s.domain cell.1.toNat cell.2.toNat 0) deg num) with
        | none => none
        | some r =>
          if r.1 = true then some r
          else try_values recurse cell deg temp rest r.2.1 { r.2.2 with domain := temp } := by
  rw [try_values_cons, if_pos hflag]
  unfold try_value
  rw [if_pos hfc]

theorem try_values_checked (recurse : Board → SudokuSolver → Option Outcome) (cell : Int × Int)
    (deg : Int) (temp : Domain) (num : Nat) (rest : List Nat) (b : Board) (s : SudokuSolver)
    (hflag : dget s.domain cell.1.toNat cell.2.toNat num = 1)
    (hfc : ¬ forward_checking (assign_value cell.1.toNat cell.2.toNat num b s.domain).1
      (assign_value cell.1.toNat cell.2.toNat num b s.domain).2 = true) :
    try_values recurse cell deg temp (num :: rest) b s
      = try_values recurse cell deg temp rest
          (assign_value cell.1.toNat cell.2.toNat num b s.domain).1
          { s with domain := temp } := by
  rw [try_values_cons, if_pos hflag]
  unfold try_value
  rw [if_neg hfc]
  rfl

theorem try_values_skipped (recurse : Board → SudokuSolver → Option Outcome) (cell : Int × Int)
    (deg : Int) (temp : Domain) (num : Nat) (rest : List Nat) (b : Board) (s : SudokuSolver)
    (hflag : ¬ dget s.domain cell.1.toNat cell.2.toNat num = 1) :
    try_values recurse cell deg temp (num :: rest) b s
      = try_values recurse cell deg temp rest b s := by
  rw [try_values_cons, if_neg hflag]
theorem try_values_stage {k : Nat}
    (IH : ∀ b s0, stage_cases (fun deep s => backtracking_levels deep k b s) s0)
    (cell : Int × Int) (deg : Int) (temp : Domain) :
    ∀ (nums : List Nat) (bcur : Board) (scur0 : SudokuSolver),
      stage_cases
        (fun deep s => try_values (backtracking_levels deep k) cell deg temp nums bcur s)
        scur0 := by
  intro nums
  induction nums with
  | nil =>
    intro bcur scur0
    left
    refine ⟨fun s hs => ⟨fun _ => rfl, ?_⟩, fun r hr ht => ?_⟩
    · show some (false, bcur, s.domain) = some (false, bcur, scur0.domain)
      rw [hs]
    · have e : some (false, bcur, scur0) = some r := hr
      injection e with e
      rw [← e] at ht
      exact absurd ht Bool.false_ne_true
  | cons num rest ih =>
    intro bcur scur0
    by_cases hflag : dget scur0.domain cell.1.toNat cell.2.toNat num = 1
    · by_cases hfc : forward_checking
          (assign_value cell.1.toNat cell.2.toNat num bcur scur0.domain).1
          (assign_value cell.1.toNat cell.2.toNat num bcur scur0.domain).2 = true
      · have E : ∀ (deep : Board → SudokuSolver → Option Outcome) (s : SudokuSolver),
            s.domain = scur0.domain →
            try_values (backtracking_levels deep k) cell deg temp (num :: rest) bcur s
              = match backtracking_levels deep k
                  (assign_value cell.1.toNat cell.2.toNat num bcur scur0.domain).1
                  (record_results
                    { s with domain :=
                        (assign_value cell.1.toNat cell.2.toNat num bcur scur0.domain).2 }
                    cell (assign_value cell.1.toNat cell.2.toNat num bcur scur0.domain).1
                    (dget scur0.domain cell.1.toNat cell.2.toNat 0) deg num) with
                | none => none
                | some r =>
                  if r.1 = true then some r
                  else try_values (backtracking_levels deep k) cell deg temp rest r.2.1
                    { r.2.2 with domain := temp } := by
          intro deep s hs
          have hflag' : dget s.domain cell.1.toNat cell.2.toNat num = 1 := by
            rw [hs]; exact hflag
          have hfc' : forward_checking
              (assign_value cell.1.toNat cell.2.toNat num bcur s.domain).1
              (assign_value cell.1.toNat cell.2.toNat num bcur s.domain).2 = true := by
            rw [hs]; exact hfc
          rw [try_values_flagged _ _ _ _ _ _ _ _ hflag' hfc', hs]
        generalize assign_value cell.1.toNat cell.2.toNat num bcur scur0.domain = av at E
        generalize hg : (fun s : SudokuSolver =>
          record_results { s with domain := av.2 } cell av.1
            (dget scur0.domain cell.1.toNat cell.2.toNat 0) deg num) = g
        have hgdom : ∀ s, s.domain = scur0.domain → (g s).domain = (g scur0).domain := by
          intro s _; rw [← hg]; rfl
        have E' : ∀ (deep : Board → SudokuSolver → Option Outcome) (s : SudokuSolver),
            s.domain = scur0.domain →
            try_values (backtracking_levels deep k) cell deg temp (num :: rest) bcur s
              = match backtracking_levels deep k av.1 (g s) with
                | none => none
                | some r =>
                  if r.1 = true then some r
                  else try_values (backtracking_levels deep k) cell deg temp rest r.2.1
                    { r.2.2 with domain := temp } := by
          intro deep s hs; rw [E deep s hs, ← hg]
        clear E hg
        rcases IH av.1 (g scur0) with ⟨hind, hsent⟩ | ⟨B, D, hstop, hall⟩
        · dsimp only at hind hsent
          have hdeep : ∀ s, s.domain = scur0.domain → ∀ deep,
              backtracking_levels deep k av.1 (g s) = backtracking_levels stop_here k av.1 (g s) :=
            fun s hs => (hind (g s) (hgdom s hs)).1
          have hcore : ∀ s, s.domain = scur0.domain →
              (backtracking_levels stop_here k av.1 (g s)).map outcome_core
                = (backtracking_levels stop_here k av.1 (g scur0)).map outcome_core :=
            fun s hs => (hind (g s) (hgdom s hs)).2
          cases hr0 : backtracking_levels stop_here k av.1 (g scur0) with
          | none =>
            left
            have hnone : ∀ s, s.domain = scur0.domain →
                backtracking_levels stop_here k av.1 (g s) = none := by
              intro s hs
              have h := hcore s hs
              rw [hr0] at h
              simpa using h
            refine ⟨fun s hs => ⟨fun deep => ?_, ?_⟩, fun r hr _ => ?_⟩
            · dsimp only
              rw [E' deep s hs, E' stop_here s hs, hdeep s hs deep, hnone s hs]
            · dsimp only
              rw [E' stop_here s hs, E' stop_here scur0 rfl, hnone s hs, hr0]
            · dsimp only at hr
              rw [E' stop_here scur0 rfl, hr0] at hr
              exact Option.noConfusion hr
          | some r0 =>
            have hsome : ∀ s, s.domain = scur0.domain →
                ∃ rs, backtracking_levels stop_here k av.1 (g s) = some rs
                  ∧ outcome_core rs = outcome_core r0 := by
              intro s hs
              have h := hcore s hs
              rw [hr0] at h
              exact Option.map_eq_some'.1 h
            by_cases ht0 : r0.1 = true
            · left
              have E0 : try_values (backtracking_levels stop_here k) cell deg temp (num :: rest)
                  bcur scur0 = some r0 := by
                rw [E' stop_here scur0 rfl, hr0]
                dsimp only
                rw [if_pos ht0]
              refine ⟨fun s hs => ?_, fun r hr ht => ?_⟩
              · obtain ⟨rs, hrs, hc⟩ := hsome s hs
                have hts : rs.1 = true := by
                  have h1 : (outcome_core rs).1 = (outcome_core r0).1 := congrArg Prod.fst hc
                  have h1 : rs.1 = r0.1 := h1
                  rw [h1]; exact ht0
                have Es : ∀ deep,
                    try_values (backtracking_levels deep k) cell deg temp (num :: rest) bcur s
                      = some rs := by
                  intro deep
                  rw [E' deep s hs, hdeep s hs deep, hrs]
                  dsimp only
                  rw [if_pos hts]
                refine ⟨fun deep => ?_, ?_⟩
                · dsimp only
                  rw [Es deep, Es stop_here]
                · dsimp only
                  rw [Es stop_here, E0]
                  show some (outcome_core rs) = some (outcome_core r0)
                  rw [hc]
              · dsimp only at hr
                rw [E0] at hr
                injection hr with hr
                rw [← hr]
                exact hsent r0 hr0 ht0
            · refine @stage_cases_map _
                (fun deep s =>
                  try_values (backtracking_levels deep k) cell deg temp rest r0.2.1 s)
                scur0
                (fun s => after_call temp s (backtracking_levels stop_here k av.1 (g s)))
                ?_ ?_ ?_
              · intro s hs
                obtain ⟨rs, hrs, -⟩ := hsome s hs
                dsimp only
                rw [hrs, hr0]
                rfl
              · intro deep s hs
                obtain ⟨rs, hrs, hc⟩ := hsome s hs
                have hfs : ¬ rs.1 = true := by
                  have h1 : (outcome_core rs).1 = (outcome_core r0).1 := congrArg Prod.fst hc
                  have h1 : rs.1 = r0.1 := h1
                  rw [h1]; exact ht0
                have hb : (outcome_core rs).2.1 = (outcome_core r0).2.1 :=
                  congrArg (fun x => x.2.1) hc
                have hb : rs.2.1 = r0.2.1 := hb
                dsimp only
                rw [E' deep s hs, hdeep s hs deep, hrs]
                dsimp only
                rw [if_neg hfs, hb]
                rfl
              · dsimp only
                rw [hr0]
                exact ih r0.2.1 { r0.2.2 with domain := temp }
        · right
          dsimp only at hstop hall
          obtain ⟨r0, hr0, hc0⟩ := Option.map_eq_some'.1 hstop
          have ht0 : (outcome_core r0).1 = true := congrArg Prod.fst hc0
          have ht0 : r0.1 = true := ht0
          refine ⟨B, D, ?_, fun s hs => ?_⟩
          · dsimp only
            rw [E' stop_here scur0 rfl, hr0]
            dsimp only
            rw [if_pos ht0]
            show some (outcome_core r0) = _
            rw [hc0]
          · obtain ⟨S, hS, hd⟩ := hall (g s) (hgdom s hs)
            refine ⟨S, hS, fun deep r hr ht => ?_⟩
            dsimp only
            rw [E' deep s hs, hd deep r hr ht]
            dsimp only
            rw [if_pos ht]
      · refine @stage_cases_map _
          (fun deep s =>
            try_values (backtracking_levels deep k) cell deg temp rest
              (assign_value cell.1.toNat cell.2.toNat num bcur scur0.domain).1 s)
          scur0 (fun s => { s with domain := temp }) (fun _ _ => rfl) (fun deep s hs => ?_)
          (ih _ _)
        have hflag' : dget s.domain cell.1.toNat cell.2.toNat num = 1 := by
          rw [hs]; exact hflag
        have hfc' : ¬ forward_checking
            (assign_value cell.1.toNat cell.2.toNat num bcur s.domain).1
            (assign_value cell.1.toNat cell.2.toNat num bcur s.domain).2 = true := by
          rw [hs]; exact hfc
        dsimp only
        rw [try_values_checked _ _ _ _ _ _ _ _ hflag' hfc', hs]
    · refine @stage_cases_map _
        (fun deep s => try_values (backtracking_levels deep k) cell deg temp rest bcur s)
        scur0 id (fun _ h => h) (fun deep s hs => ?_) (ih bcur scur0)
      have hflag' : ¬ dget s.domain cell.1.toNat cell.2.toNat num = 1 := by
        rw [hs]; exact hflag
      exact try_values_skipped _ _ _ _ _ _ _ _ hflag'
theorem backtracking_levels_stage : ∀ (k : Nat) (b : Board) (s0 : SudokuSolver),
    stage_cases (fun deep s => backtracking_levels deep k b s) s0 := by
  intro k
  induction k with
  | zero =>
    intro b s0
    right
    exact ⟨b, s0.domain, rfl, fun s hs => ⟨s, hs, fun _ _ hr _ => hr⟩⟩
  | succ k ih =>
    intro b s0
    by_cases h1 : (minimum_remaining_values b s0.domain).1.1 = -1
        ∧ (minimum_remaining_values b s0.domain).1.2 = -1
    · have E : ∀ (deep : Board → SudokuSolver → Option Outcome) (s : SudokuSolver),
          s.domain = s0.domain → backtracking_levels deep (k + 1) b s = some (true, b, s) := by
        intro deep s hs
        show backtracking_body _ b s = _
        unfold backtracking_body
        rw [hs, if_pos h1]
      left
      refine ⟨fun s hs => ⟨fun deep => ?_, ?_⟩, fun r hr _ => ?_⟩
      · dsimp only
        rw [E deep s hs, E stop_here s hs]
      · dsimp only
        rw [E stop_here s hs, E stop_here s0 rfl]
        show some (true, b, s.domain) = some (true, b, s0.domain)
        rw [hs]
      · dsimp only at hr
        rw [E stop_here s0 rfl] at hr
        injection hr with hr
        rw [← hr]
        exact Prod.ext h1.1 h1.2
    · by_cases h2 : dget s0.domain (minimum_remaining_values b s0.domain).1.1.toNat
          (minimum_remaining_values b s0.domain).1.2.toNat 0 = 0
      · have E : ∀ (deep : Board → SudokuSolver → Option Outcome) (s : SudokuSolver),
            s.domain = s0.domain → backtracking_levels deep (k + 1) b s = some (false, b, s) := by
          intro deep s hs
          show backtracking_body _ b s = _
          unfold backtracking_body
          rw [hs, if_neg h1, if_pos h2]
        left
        refine ⟨fun s hs => ⟨fun deep => ?_, ?_⟩, fun r hr ht => ?_⟩
        · dsimp only
          rw [E deep s hs, E stop_here s hs]
        · dsimp only
          rw [E stop_here s hs, E stop_here s0 rfl]
          show some (false, b, s.domain) = some (false, b, s0.domain)
          rw [hs]
        · dsimp only at hr
          rw [E stop_here s0 rfl] at hr
          injection hr with hr
          rw [← hr] at ht
          exact absurd ht Bool.false_ne_true
      · refine @stage_cases_map _
          (fun deep s =>
            try_values (backtracking_levels deep k) (minimum_remaining_values b s0.domain).1
              (minimum_remaining_values b s0.domain).2 s0.domain (List.range' 1 9) b s)
          s0 id (fun _ h => h) (fun deep s hs => ?_)
          (try_values_stage ih _ _ _ _ b s0)
        show backtracking_body _ b s = _
        unfold backtracking_body
        rw [hs, if_neg h1, if_neg h2]
        rfl

theorem backtracking_levels_fuel (n : Nat) : ∀ (k : Nat) (b : Board) (s : SudokuSolver),
    backtracking_levels (backtracking_sudoku n) k b s = backtracking_sudoku (n + k) b s := by
  intro k
  induction k with
  | zero => intro b s; rfl
  | succ k ih =>
    intro b s
    have e : backtracking_levels (backtracking_sudoku n) k = backtracking_sudoku (n + k) :=
      funext fun b => funext fun s => ih b s
    show backtracking_body (backtracking_levels (backtracking_sudoku n) k) b s
      = backtracking_body (backtracking_sudoku (n + k)) b s
    rw [e]

/-- One stage of a run that ends with `true`.  If the first `k` levels of the
search on `b`, with the array of `s0`, first make a call nested `k` deep on the
board `B` with the array `D`, on which the selector still finds a cell, and if
`backtracking_sudoku` with fuel `n` returns `true` with the board `R` there
whatever the result vectors hold, then `backtracking_sudoku` with fuel `n + k`
returns `true` with the board `R` on `b`, whatever the result vectors hold. -/
theorem stage_run {k n : Nat} {b : Board} {s0 : SudokuSolver} {B : Board} {D : Domain}
    {R : Board}
    (hstage : (backtracking_levels stop_here k b s0).map outcome_core = some (true, B, D))
    (hns : (minimum_remaining_values B D).1 ≠ (-1, -1))
    (hnext : ∀ S : SudokuSolver, S.domain = D →
      ∃ r, backtracking_sudoku n B S = some r ∧ r.1 = true ∧ r.2.1 = R) :
    ∀ s : SudokuSolver, s.domain = s0.domain →
      ∃ r, backtracking_sudoku (n + k) b s = some r ∧ r.1 = true ∧ r.2.1 = R := by
  intro s hs
  obtain ⟨r0, hr0, hc0⟩ := Option.map_eq_some'.1 hstage
  have hB : (outcome_core r0).2.1 = B := congrArg (fun x => x.2.1) hc0
  have hD : (outcome_core r0).2.2 = D := congrArg (fun x => x.2.2) hc0
  have ht0 : (outcome_core r0).1 = true := congrArg Prod.fst hc0
  rcases backtracking_levels_stage k b s0 with ⟨-, hsent⟩ | ⟨B', D', hstop, hall⟩
  · exfalso
    apply hns
    have h := hsent r0 hr0 ht0
    rw [← hB, ← hD]
    exact h
  · dsimp only at hstop hall
    rw [hstage] at hstop
    injection hstop with hstop
    have hB' : B = B' := congrArg (fun x => x.2.1) hstop
    have hD' : D = D' := congrArg (fun x => x.2.2) hstop
    obtain ⟨S, hS, hdeep⟩ := hall s hs
    obtain ⟨r, hr, ht, hR⟩ := hnext S (by rw [hS, hD'])
    refine ⟨r, ?_, ht, hR⟩
    rw [← backtracking_levels_fuel]
    apply hdeep _ r _ ht
    rw [← hB']; exact hr

/-- The last stage of a run that ends with `true`: if the first `k` levels of the
search on `b`, with the array of `s0` and with the calls nested `k` deep
returning `true` at once, return `true` with a board `R` that has no `'.'`
cell, then `backtracking_sudoku` with fuel `1 + k` returns `true` with the board
`R` on `b`, whatever the result vectors hold. -/
theorem final_run {k : Nat} {b : Board} {s0 : SudokuSolver} {R : Board}
    (hstage : (backtracking_levels stop_here k b s0).map (fun r => (r.1, r.2.1))
      = some (true, R))
    (hfull : ∀ i < 9, ∀ j < 9, bget R i j ≠ '.') :
    ∀ s : SudokuSolver, s.domain = s0.domain →
      ∃ r, backtracking_sudoku (1 + k) b s = some r ∧ r.1 = true ∧ r.2.1 = R := by
  intro s hs
  obtain ⟨r0, hr0, hc0⟩ := Option.map_eq_some'.1 hstage
  have ht0 : r0.1 = true := congrArg Prod.fst hc0
  have hR0 : r0.2.1 = R := congrArg Prod.snd hc0
  rw [← backtracking_levels_fuel]
  rcases backtracking_levels_stage k b s0 with ⟨hind, -⟩ | ⟨B', D', hstop, hall⟩
  · dsimp only at hind
    obtain ⟨h1, h2⟩ := hind s hs
    rw [hr0] at h2
    obtain ⟨rs, hrs, hc⟩ := Option.map_eq_some'.1 h2
    refine ⟨rs, by rw [h1, hrs], ?_, ?_⟩
    · have h : (outcome_core rs).1 = (outcome_core r0).1 := congrArg Prod.fst hc
      exact h.trans ht0
    · have h : (outcome_core rs).2.1 = (outcome_core r0).2.1 := congrArg (fun x => x.2.1) hc
      exact h.trans hR0
  · dsimp only at hstop hall
    rw [hr0] at hstop
    injection hstop with hstop
    have hB' : (outcome_core r0).2.1 = B' := congrArg (fun x => x.2.1) hstop
    have hB : R = B' := by rw [← hR0]; exact hB'
    obtain ⟨S, -, hdeep⟩ := hall s hs
    refine ⟨(true, B', S), hdeep _ _ ?_ rfl, rfl, hB.symm⟩
    show backtracking_body _ B' S = _
    unfold backtracking_body
    have hscan := mrv_scan_none B' S.domain (by rw [← hB]; exact hfull)
    have hsent : (minimum_remaining_values B' S.domain).1.1 = -1
        ∧ (minimum_remaining_values B' S.domain).1.2 = -1 := by
      unfold minimum_remaining_values
      rw [hscan]
      exact ⟨rfl, rfl⟩
    rw [if_pos hsent]

/-! ## Boards on which the search goes wrong

`backtracking_sudoku` never writes `'.'` back to a cell (source line 68 is
commented out).  When a recursive call fails, the cells it filled keep their
last digits while `domain` is restored to the state before them; the caller's
next candidate is then searched on a board where those cells count as filled,
and nothing ever checks them again. -/

theorem board_case_2_input : is_input board_case_2 := by decide

theorem board_case_2_no_repeat : no_repeat board_case_2 := by decide!

theorem board_case_2_run :
    (solve_sudoku board_case_2 SudokuSolver.fresh).map (fun r => (r.1, r.2.1))
      = some (true, result_case_2) := by decide!

theorem result_case_2_not_solved : ¬ is_solved result_case_2 := by decide!

/-- C1, at the failing input `board_case_2` of `main`: the board is an input
board without a repeated digit, `solve_sudoku` returns `true`, and the board it
leaves is not a solved grid. -/
theorem solve_board_case_2_invalid :
    is_input board_case_2 ∧ no_repeat board_case_2
    ∧ (solve_sudoku board_case_2 SudokuSolver.fresh).map (fun r => (r.1, r.2.1))
        = some (true, result_case_2)
    ∧ ¬ is_solved result_case_2 :=
  ⟨board_case_2_input, board_case_2_no_repeat, board_case_2_run, result_case_2_not_solved⟩

theorem unsat_board_no_completion (full : Board) : ¬ is_completion full unsat_board := by
  rintro ⟨-, hsol, hagree⟩
  have hmem : '3' ∈ row_chars full 0 := by
    rw [(solved_units hsol 0 (by decide)).1.mem_iff]
    decide
  unfold row_chars at hmem
  obtain ⟨c, hc, hcell⟩ := List.mem_map.1 hmem
  rw [List.mem_range] at hc
  have h12 : bget full 1 2 = '3' := hagree 1 (by decide) 2 (by decide) (by decide)
  have hbox : c < 3 → False := by
    intro hc3
    have hs : sees 0 c 1 2 := by
      right; right
      constructor <;> omega
    exact solved_distinct hsol (by decide) hc (by decide) (by decide) (Or.inl (by decide)) hs
      (by rw [h12, hcell])
  interval_cases c
  · exact hbox (by decide)
  · exact hbox (by decide)
  · exact hbox (by decide)
  · have := hagree 0 (by decide) 3 (by decide) (by decide)
    rw [hcell] at this
    exact absurd this (by decide)
  · have := hagree 0 (by decide) 4 (by decide) (by decide)
    rw [hcell] at this
    exact absurd this (by decide)
  · have := hagree 0 (by decide) 5 (by decide) (by decide)
    rw [hcell] at this
    exact absurd this (by decide)
  · have := hagree 0 (by decide) 6 (by decide) (by decide)
    rw [hcell] at this
    exact absurd this (by decide)
  · have := hagree 0 (by decide) 7 (by decide) (by decide)
    rw [hcell] at this
    exact absurd this (by decide)
  · have := hagree 0 (by decide) 8 (by decide) (by decide)
    rw [hcell] at this
    exact absurd this (by decide)

theorem unsat_board_input : is_input unsat_board := by decide

theorem unsat_board_no_repeat : no_repeat unsat_board := by decide!

theorem unsat_domain_shape : is_domain unsat_domain := by decide

theorem unsat_domain_counts : count_ok unsat_domain := by decide!

theorem unsat_domain_flags :
    ∀ a < 9, ∀ b < 9, ∀ n < 10, 1 ≤ n →
      dget unsat_domain a b n = if clue_hits unsat_board cells a b n then 0 else 1 := by
  decide!

theorem unsat_board_search :
    (backtracking_sudoku 82 unsat_board
        { SudokuSolver.fresh with domain := unsat_domain }).map (fun r => (r.1, r.2.1))
      = some (true, result_unsat) := by decide!

theorem unsat_board_run :
    (solve_sudoku unsat_board SudokuSolver.fresh).map (fun r => (r.1, r.2.1))
      = some (true, result_unsat) := by
  unfold solve_sudoku
  rw [initial_board_eq unsat_board_input (by decide) unsat_domain_shape unsat_domain_counts
    unsat_domain_flags]
  exact unsat_board_search

theorem result_unsat_not_solved : ¬ is_solved result_unsat := by decide!

/-- C3, at the failing input `unsat_board`: the board is an input board
without a repeated digit, it has no valid completion, and `solve_sudoku`
returns `true` on it, leaving a board that is not a solved grid. -/
theorem solve_unsat_board_true :
    is_input unsat_board ∧ no_repeat unsat_board
    ∧ (∀ full, ¬ is_completion full unsat_board)
    ∧ (solve_sudoku unsat_board SudokuSolver.fresh).map (fun r => (r.1, r.2.1))
        = some (true, result_unsat)
    ∧ ¬ is_solved result_unsat :=
  ⟨unsat_board_input, unsat_board_no_repeat, unsat_board_no_completion, unsat_board_run,
    result_unsat_not_solved⟩

/-! ## Runs on particular boards -/

theorem fail_board_run :
    (backtracking_sudoku 82 fail_board fail_solver).map
        (fun r => (r.1, bget r.2.1 0 0, decide (r.2.2.domain = fail_solver.domain)))
      = some (false, '2', true) := by decide!

theorem fail_board_selected :
    (minimum_remaining_values fail_board fail_solver.domain).1 = (((0 : Nat) : Int), ((0 : Nat) : Int))
    ∧ dget fail_solver.domain 0 0 0 ≠ 0
    ∧ dget fail_solver.domain 0 0 1 = 1 := by decide!

theorem domain_restored_witness :
    is_grid fail_board ∧ empty_count fail_board < 82
    ∧ (∃ r, backtracking_sudoku 82 fail_board fail_solver = some r
        ∧ (r.1 = false → r.2.2.domain = fail_solver.domain))
    ∧ (backtracking_sudoku 82 fail_board fail_solver).map
          (fun r => (r.1, bget r.2.1 0 0, decide (r.2.2.domain = fail_solver.domain)))
        = some (false, '2', true) :=
  ⟨by decide, by decide, domain_restored 82 fail_board fail_solver (by decide) (by decide),
    fail_board_run⟩

theorem failure_board_state_witness :
    is_grid fail_board ∧ empty_count fail_board < 82
    ∧ (minimum_remaining_values fail_board fail_solver.domain).1
        = (((0 : Nat) : Int), ((0 : Nat) : Int))
    ∧ dget fail_solver.domain 0 0 0 ≠ 0
    ∧ (∃ n, 1 ≤ n ∧ n ≤ 9 ∧ dget fail_solver.domain 0 0 n = 1)
    ∧ ∃ r, backtracking_sudoku 82 fail_board fail_solver = some r
      ∧ (r.1 = false →
          bget r.2.1 0 0 ≠ '.'
          ∧ (∃ m, 1 ≤ m ∧ m ≤ 9 ∧ dget fail_solver.domain 0 0 m = 1
              ∧ (∀ n, m < n → n ≤ 9 → dget fail_solver.domain 0 0 n ≠ 1)
              ∧ bget r.2.1 0 0 = Char.ofNat (m + 48))
          ∧ ∀ a c, bget fail_board a c ≠ '.' → bget r.2.1 a c = bget fail_board a c) :=
  ⟨by decide, by decide, fail_board_selected.1, fail_board_selected.2.1,
    ⟨1, by decide, by decide, fail_board_selected.2.2⟩,
    failure_board_state 82 fail_board fail_solver 0 0 (by decide) (by decide)
      fail_board_selected.1 fail_board_selected.2.1
      ⟨1, by decide, by decide, fail_board_selected.2.2⟩⟩

theorem board_case_3_run :
    (solve_sudoku board_case_3 SudokuSolver.fresh).map (fun r => (r.1, r.2.1))
      = some (true, result_case_3) := by decide!

theorem empty_board_initial :
    initial_board empty_board SudokuSolver.fresh.domain = (empty_board, full_domain) := by
  decide!

theorem empty_board_stage_1 :
    (backtracking_levels stop_here 27 empty_board
        { SudokuSolver.fresh with domain := full_domain }).map outcome_core
      = some (true, empty_board_27, empty_domain_27) := by decide!

theorem empty_board_stage_2 :
    (backtracking_levels stop_here 27 empty_board_27
        { SudokuSolver.fresh with domain := empty_domain_27 }).map outcome_core
      = some (true, empty_board_54, empty_domain_54) := by decide!

theorem empty_board_stage_3 :
    (backtracking_levels stop_here 27 empty_board_54
        { SudokuSolver.fresh with domain := empty_domain_54 }).map (fun r => (r.1, r.2.1))
      = some (true, result_empty) := by decide!

theorem empty_board_selects :
    (minimum_remaining_values empty_board_27 empty_domain_27).1 ≠ (-1, -1)
    ∧ (minimum_remaining_values empty_board_54 empty_domain_54).1 ≠ (-1, -1) := by decide!

theorem result_empty_full : ∀ i < 9, ∀ j < 9, bget result_empty i j ≠ '.' := by decide

theorem empty_board_run :
    ∃ r, solve_sudoku empty_board SudokuSolver.fresh = some r ∧ r.1 = true
      ∧ r.2.1 = result_empty := by
  unfold solve_sudoku
  rw [empty_board_initial]
  show ∃ r, backtracking_sudoku ((1 + 27 + 27) + 27) empty_board
      { SudokuSolver.fresh with domain := full_domain } = some r ∧ r.1 = true
      ∧ r.2.1 = result_empty
  exact stage_run empty_board_stage_1 empty_board_selects.1
    (stage_run empty_board_stage_2 empty_board_selects.2
      (final_run empty_board_stage_3 result_empty_full)) _ rfl

theorem board_case_1_run :
    (solve_sudoku board_case_1 SudokuSolver.fresh).map (fun r => (r.1, r.2.1))
      = some (true, solution_case_1) := by decide!

theorem board_case_2_root_invariant :
    domain_invariant (initial_board board_case_2 SudokuSolver.fresh.domain).1
      (initial_board board_case_2 SudokuSolver.fresh.domain).2 := by decide!

theorem board_case_2_stale_call :
    (backtracking_asserting
        (fun _ callee => ¬ (callee.1 = stale_board ∧ dget callee.2.domain 2 5 0 = 2)) 82
        (initial_board board_case_2 SudokuSolver.fresh.domain).1
        { SudokuSolver.fresh with
          domain := (initial_board board_case_2 SudokuSolver.fresh.domain).2 }).isNone = true := by
  decide!

theorem stale_board_cell : bget stale_board 2 5 = '.' ∧ legal_count stale_board 2 5 = 0 := by
  decide!

/-- C11, at the failing input `board_case_2` of `main`: the board is an input
board without a repeated digit and the invariant holds when `solve_sudoku`
enters `backtracking_sudoku`, but it does not hold at every call reached.  The
run with the assertion that no call is entered with the board `stale_board` and
the cached count 2 for the cell `(2, 5)` stops at a failed assertion, although
`solve_sudoku` returns with the same fuel; the cell `(2, 5)` is `'.'` on that
board and no digit is left that its row, column and box do not hold, so no
array with the count 2 there satisfies the invariant on that board. -/
theorem domain_invariant_broken :
    is_input board_case_2 ∧ no_repeat board_case_2
    ∧ domain_invariant (initial_board board_case_2 SudokuSolver.fresh.domain).1
        (initial_board board_case_2 SudokuSolver.fresh.domain).2
    ∧ (backtracking_asserting
        (fun _ callee => ¬ (callee.1 = stale_board ∧ dget callee.2.domain 2 5 0 = 2)) 82
        (initial_board board_case_2 SudokuSolver.fresh.domain).1
        { SudokuSolver.fresh with
          domain := (initial_board board_case_2 SudokuSolver.fresh.domain).2 }).isNone = true
    ∧ (solve_sudoku board_case_2 SudokuSolver.fresh).isSome = true
    ∧ bget stale_board 2 5 = '.' ∧ legal_count stale_board 2 5 = 0
    ∧ ∀ d : Domain, dget d 2 5 0 = 2 → ¬ domain_invariant stale_board d := by
  refine ⟨board_case_2_input, board_case_2_no_repeat, board_case_2_root_invariant,
    board_case_2_stale_call, ?_, stale_board_cell.1, stale_board_cell.2, ?_⟩
  · have h := board_case_2_run
    cases hs : solve_sudoku board_case_2 SudokuSolver.fresh with
    | none => rw [hs] at h; exact absurd h (by simp)
    | some r => rfl
  · intro d hd hinv
    have h := hinv (2, 5) ((mem_cells (2, 5)).2 ⟨by decide, by decide⟩) stale_board_cell.1
    have h2 : dget d 2 5 0 = legal_count stale_board 2 5 := h
    rw [hd, stale_board_cell.2] at h2
    exact absurd h2 (by decide)

theorem solution_case_1_completion : is_completion solution_case_1 board_case_1 := by decide!

theorem result_case_3_not_solved : ¬ is_solved result_case_3 := by decide!

theorem result_empty_solved : is_grid result_empty ∧ is_solved result_empty := by decide!

/-- C14, at the failing input `board_case_3` of `main`: on each of the three
boards of `main`, `solve_sudoku` on a fresh solver returns `true`; the grid left
on `board_case_1` is a valid completion of the board, the grids left on
`board_case_2` and on `board_case_3` are not solved grids. -/
theorem example_boards_outcome :
    ((solve_sudoku board_case_1 SudokuSolver.fresh).map (fun r => (r.1, r.2.1))
        = some (true, solution_case_1)
      ∧ is_completion solution_case_1 board_case_1)
    ∧ ((solve_sudoku board_case_2 SudokuSolver.fresh).map (fun r => (r.1, r.2.1))
        = some (true, result_case_2)
      ∧ ¬ is_solved result_case_2)
    ∧ ((solve_sudoku board_case_3 SudokuSolver.fresh).map (fun r => (r.1, r.2.1))
        = some (true, result_case_3)
      ∧ ¬ is_solved result_case_3) :=
  ⟨⟨board_case_1_run, solution_case_1_completion⟩,
    ⟨board_case_2_run, result_case_2_not_solved⟩,
    ⟨board_case_3_run, result_case_3_not_solved⟩⟩

/-- C15 (empty board): on the board whose 81 cells are all `'.'`, `solve_sudoku`
on a fresh solver returns `true` and leaves the grid `result_empty`, in which
every row, every column and every 3x3 box holds each digit `1..9` exactly
once. -/
theorem empty_board_solved :
    (∀ i < 9, ∀ j < 9, bget empty_board i j = '.')
    ∧ (∃ r, solve_sudoku empty_board SudokuSolver.fresh = some r ∧ r.1 = true
        ∧ r.2.1 = result_empty)
    ∧ is_grid result_empty ∧ is_solved result_empty :=
  ⟨by decide, empty_board_run, result_empty_solved⟩

end Sudoku
